import Mathlib

/-!
# Verification of the 2FA-Mikrotik-VPN grant lifecycle

Shallow embedding of the session store, the VPN-session service operations
(`backend/services/vpn_session_service.py`), the scheduler jobs
(`backend/services/scheduler_service.py`) and the RouterOS shell-output
parser (`backend/services/mikrotik_service.py`), together with proofs about
the behaviour the specification ascribes to them.

Timestamps are modelled as integers counting whole seconds (the Python code
compares `datetime` differences, via `.total_seconds()`, against integral
thresholds).  Database rows are lists of records; SQLAlchemy object mutation
followed by `commit()` is modelled as an id-guarded functional update of the
list.  Device calls performed by the services are recorded as an explicit
effect trace.
-/

set_option linter.unusedVariables false

namespace Mikrotik2FA

/-- The `VPNSessionStatus` enumeration of `backend/models/vpn_session.py`. -/
inductive VPNSessionStatus where
  | REQUESTED
  | CONNECTED
  | CONFIRMED
  | ACTIVE
  | REMINDER_SENT
  | EXPIRED
  | DISCONNECTED
  deriving DecidableEq, Repr

open VPNSessionStatus

/-- The non-terminal statuses, i.e. the list passed to `get_sessions_by_status`
by both scheduler jobs. -/
def nonTerminalStatuses : List VPNSessionStatus :=
  [REQUESTED, CONNECTED, CONFIRMED, ACTIVE, REMINDER_SENT]

def VPNSessionStatus.isNonTerminal (s : VPNSessionStatus) : Bool :=
  s ∈ nonTerminalStatuses

/-- A row of the `vpn_sessions` table (`VPNSession` model).  `id` and
`user_id` are UUID strings in the source; opaque identifiers are modelled
as naturals. `created_at`/`updated_at` come from `TimestampMixin` and are
non-nullable. -/
structure VPNSession where
  id : Nat
  user_id : Nat
  mikrotik_username : String
  mikrotik_session_id : Option String := none
  status : VPNSessionStatus
  connected_at : Option Int := none
  confirmed_at : Option Int := none
  expires_at : Option Int := none
  reminder_sent_at : Option Int := none
  last_seen_at : Option Int := none
  firewall_rule_id : Option String := none
  created_at : Int := 0
  updated_at : Int := 0
  deriving DecidableEq, Repr

/-- The session store: the rows of the `vpn_sessions` table, in storage order. -/
abbrev Store := List VPNSession

/-- `get_vpn_session_by_id`: `db.query(VPNSession).filter(id == ...).first()`. -/
def Store.find? (st : Store) (i : Nat) : Option VPNSession :=
  List.find? (fun s => s.id = i) st

/-- Mutating the ORM object with id `i` and committing: the row with that id
is replaced by `f` applied to it. -/
def Store.update (st : Store) (i : Nat) (f : VPNSession → VPNSession) : Store :=
  st.map (fun s => if s.id = i then f s else s)

/-- A `user_settings` row (`UserSetting` model): the per-grantee
configuration read by the services.  All four columns shown here are the
ones the modelled code paths read. -/
structure UserSetting where
  require_confirmation : Bool
  reminder_interval_hours : Int
  session_duration_hours : Int
  firewall_rule_comment : Option String := none
  deriving DecidableEq, Repr

/-- `UserStatus` values relevant to `create_vpn_session`. -/
inductive UserStatus where
  | PENDING
  | APPROVED
  | ACTIVE
  | REJECTED
  deriving DecidableEq, Repr

/-- A `users` row, restricted to the fields `create_vpn_session` reads. -/
structure UserRec where
  status : UserStatus
  telegram_id : Option Nat := none
  deriving DecidableEq, Repr

/-- Device calls and notifications issued by the services, recorded in the
order they are performed.  Failures of these best-effort calls are swallowed
by the source (`try/except: pass`), so the trace records the commands issued. -/
inductive Effect where
  | enableUser (username : String)
  | disableUser (username : String)
  | terminateSessions (username : String)
  | enableRule (ruleId : String)
  | disableRule (ruleId : String)
  | notifyConfirmationRequired (sessionId : Nat)
  | notifyConfirmed (sessionId : Nat)
  | notifyDisconnected (sessionId : Nat)
  deriving DecidableEq, Repr

/-- The environment the scheduler's connection check reads:
settings (`get_setting_value`), per-user settings (`get_user_settings`,
`None` when the grantee has no settings row) and the device-side firewall
lookup.  `findRuleByComment` abstracts `find_firewall_rule_by_comment`
together with the id extraction (`.id` / `id` / `number`) done by
`mark_session_as_confirmed`: it yields the resolved rule id, or `none`
when no rule matches or the id cannot be resolved. -/
structure Env where
  globalRequireConfirmation : Bool
  confirmationTimeoutSeconds : Int := 300
  checkIntervalSeconds : Int := 60
  userSettings : Nat → Option UserSetting
  findRuleByComment : String → Option String

/-- Resolution of the confirmation requirement in `check_vpn_connections`:
the per-user value overrides the global default when a settings row exists
(`require_confirmation` is a non-nullable column). -/
def Env.requireConfirmation (env : Env) (uid : Nat) : Bool :=
  match env.userSettings uid with
  | some us => us.require_confirmation
  | none => env.globalRequireConfirmation

/-- `int(getattr(us, "session_duration_hours", 24) or 24) if us else 24`:
the `or 24` turns a zero duration into the default. -/
def Env.sessionDurationHours (env : Env) (uid : Nat) : Int :=
  match env.userSettings uid with
  | some us => if us.session_duration_hours = 0 then 24 else us.session_duration_hours
  | none => 24

section ServiceOps

/-- `update_vpn_session_status`: set the new status, backfill the
status-specific timestamp if it is not already set, optionally record a
firewall rule id, and commit (which refreshes `updated_at`). -/
def updateVpnSessionStatus (st : Store) (i : Nat) (newStatus : VPNSessionStatus)
    (firewallRuleId : Option String) (now : Int) : Store :=
  match st.find? i with
  | none => st
  | some _ =>
    st.update i (fun s =>
      let s := { s with status := newStatus }
      let s :=
        if newStatus = CONNECTED ∧ s.connected_at = none then
          { s with connected_at := some now }
        else if newStatus = CONFIRMED ∧ s.confirmed_at = none then
          { s with confirmed_at := some now }
        else if newStatus = REMINDER_SENT ∧ s.reminder_sent_at = none then
          { s with reminder_sent_at := some now }
        else s
      let s :=
        match firewallRuleId with
        | some r => { s with firewall_rule_id := some r }
        | none => s
      { s with updated_at := now })

/-- `mark_session_as_connected`: move to `CONNECTED` and, when a device
session id was observed, record it together with a fresh `last_seen_at`. -/
def markSessionAsConnected (st : Store) (i : Nat) (mikrotikSessionId : Option String)
    (now : Int) : Store :=
  let st' := updateVpnSessionStatus st i CONNECTED none now
  match st.find? i, mikrotikSessionId with
  | some _, some sid =>
    st'.update i (fun s =>
      { s with mikrotik_session_id := some sid, last_seen_at := some now, updated_at := now })
  | _, _ => st'

/-- The firewall-rule lookup inside `mark_session_as_confirmed`: only done
when no rule id was passed; the grantee's `firewall_rule_comment` (if any)
is resolved on the device. -/
def confirmRuleLookup (env : Env) (uid : Nat) (firewallRuleId : Option String) :
    Option String :=
  match firewallRuleId with
  | some _ => none
  | none =>
    match (env.userSettings uid).bind (fun us => us.firewall_rule_comment) with
    | none => none
    | some comment => env.findRuleByComment comment

/-- `mark_session_as_confirmed`: move to `CONFIRMED`; when no rule id was
passed, look the grantee's bound firewall rule up by its comment and, if
found, enable it and record its id on the session; then immediately move to
`ACTIVE` and reset `expires_at` to `now` plus the grantee's configured
session duration. -/
def markSessionAsConfirmed (env : Env) (st : Store) (i : Nat)
    (firewallRuleId : Option String) (now : Int) : Store × List Effect :=
  let st1 := updateVpnSessionStatus st i CONFIRMED firewallRuleId now
  match st.find? i with
  | none => (st1, [])
  | some s0 =>
    let st2 :=
      match confirmRuleLookup env s0.user_id firewallRuleId with
      | none => st1
      | some rid =>
        st1.update i (fun s => { s with firewall_rule_id := some rid, updated_at := now })
    let effs :=
      match confirmRuleLookup env s0.user_id firewallRuleId with
      | none => []
      | some rid => [Effect.enableRule rid]
    let st3 := updateVpnSessionStatus st2 i ACTIVE none now
    let st4 := st3.update i (fun s =>
      { s with expires_at := some (now + 3600 * env.sessionDurationHours s0.user_id),
               updated_at := now })
    (st4, effs)

/-- `disconnect_vpn_session` (scheduler call sites pass no `user_id`, so the
permission check cannot fire): set `DISCONNECTED`, then best-effort disable
the bound firewall rule (if any), force-terminate the device sessions of the
username, and disable the device identity. -/
def disconnectVpnSession (st : Store) (i : Nat) (now : Int) : Store × List Effect :=
  match st.find? i with
  | none => (st, [])
  | some s0 =>
    let st' := st.update i (fun s => { s with status := DISCONNECTED, updated_at := now })
    let ruleEffs :=
      match s0.firewall_rule_id with
      | some r => [Effect.disableRule r]
      | none => []
    (st', ruleEffs ++ [Effect.terminateSessions s0.mikrotik_username,
                       Effect.disableUser s0.mikrotik_username])

/-- `expire_vpn_session` (= `mark_session_as_expired`): set `EXPIRED`, then
best-effort disable the bound rule and the device identity (no forced
termination). -/
def expireVpnSession (st : Store) (i : Nat) (now : Int) : Store × List Effect :=
  match st.find? i with
  | none => (st, [])
  | some s0 =>
    let st' := st.update i (fun s => { s with status := EXPIRED, updated_at := now })
    let ruleEffs :=
      match s0.firewall_rule_id with
      | some r => [Effect.disableRule r]
      | none => []
    (st', ruleEffs ++ [Effect.disableUser s0.mikrotik_username])

/-- Outcomes of `extend_session`: `None` for an unknown id, a raised
`ValueError("Can only extend active sessions")` for a grant outside
`ACTIVE`/`REMINDER_SENT`, or the updated store. -/
inductive ExtendResult where
  | notFound
  | invalidState
  | ok (st : Store)
  deriving DecidableEq, Repr

/-- The hour count used by `extend_session`:
`hours if hours is not None else (us.reminder_interval_hours if us else 6)`. -/
def Env.extendHours (env : Env) (uid : Nat) (hours : Option Int) : Int :=
  match hours with
  | some h => h
  | none =>
    match env.userSettings uid with
    | some us => us.reminder_interval_hours
    | none => 6

/-- `extend_session`: only `ACTIVE`/`REMINDER_SENT` grants may be extended;
`expires_at` becomes `now` plus the explicit `hours` argument when given,
otherwise the grantee's `reminder_interval_hours` (6 when the grantee has no
settings row); the status returns to `ACTIVE` and `reminder_sent_at` is
cleared. -/
def extendSession (env : Env) (st : Store) (i : Nat) (hours : Option Int)
    (now : Int) : ExtendResult :=
  match st.find? i with
  | none => ExtendResult.notFound
  | some s0 =>
    if s0.status = ACTIVE ∨ s0.status = REMINDER_SENT then
      let h := env.extendHours s0.user_id hours
      ExtendResult.ok (st.update i (fun s =>
        { s with expires_at := some (now + 3600 * h),
                 status := ACTIVE,
                 reminder_sent_at := none,
                 updated_at := now }))
    else
      ExtendResult.invalidState

/-- Errors raised by `create_vpn_session`, in the order the code can raise
them.  `deviceError` models the exception propagating out of
`enable_user_manager_user`; `persistError` models `db.commit()` failing. -/
inductive CreateError where
  | userNotFound
  | userNotApproved
  | alreadyHasActiveSession
  | deviceError
  | persistError
  deriving DecidableEq, Repr

/-- `get_active_vpn_session_for_user`: first session of the grantee in a
non-terminal status. -/
def getActiveVpnSessionForUser (st : Store) (uid : Nat) : Option VPNSession :=
  List.find? (fun s => s.user_id = uid ∧ s.status.isNonTerminal) st

/-- The MikroTik username used by `create_vpn_session`: the explicit
argument when given, otherwise generated from the grantee's Telegram id or
from the grantee id. -/
def creationUsername (u : UserRec) (uid : Nat) (mikrotikUsername : Option String) : String :=
  match mikrotikUsername with
  | some m => m
  | none =>
    match u.telegram_id with
    | some t => s!"user_{t}"
    | none => s!"user_{uid}"

/-- `create_vpn_session`.  `enableOk` models whether
`enable_user_manager_user` succeeds (device reachable, identity found);
`persistOk` models whether `db.commit()` succeeds; `newId` stands for the
generated UUID of the new row.  Returns the resulting store or the raised
error, together with the device-effect trace. -/
def createVpnSession (env : Env) (users : Nat → Option UserRec) (st : Store)
    (uid : Nat) (durationHours : Int) (mikrotikUsername : Option String)
    (enableOk persistOk : Bool) (newId : Nat) (now : Int) :
    Except CreateError Store × List Effect :=
  match users uid with
  | none => (Except.error CreateError.userNotFound, [])
  | some u =>
    if ¬ (u.status = UserStatus.APPROVED ∨ u.status = UserStatus.ACTIVE) then
      (Except.error CreateError.userNotApproved, [])
    else
      match getActiveVpnSessionForUser st uid with
      | some _ => (Except.error CreateError.alreadyHasActiveSession, [])
      | none =>
        let username := creationUsername u uid mikrotikUsername
        if ¬ enableOk then
          (Except.error CreateError.deviceError, [])
        else
          let duration :=
            match env.userSettings uid with
            | some us =>
              if us.session_duration_hours ≠ 0 then us.session_duration_hours
              else durationHours
            | none => durationHours
          let newSession : VPNSession :=
            { id := newId, user_id := uid, mikrotik_username := username,
              status := REQUESTED, expires_at := some (now + 3600 * duration),
              created_at := now, updated_at := now }
          if persistOk then
            (Except.ok (st ++ [newSession]), [Effect.enableUser username])
          else
            (Except.error CreateError.persistError,
             [Effect.enableUser username, Effect.disableUser username])

end ServiceOps

section ConnectionCheck

/-- One record of the merged observed-facts set returned by
`get_user_manager_sessions`: a dictionary whose fields the scheduler reads.
Missing dictionary keys are `none`; Python's falsiness of `None` and of the
empty string is modelled by treating `none` as the only falsy value and
assuming the upstream adapter never stores empty strings (it populates the
fields with `or`-chains that drop empties). -/
structure ObservedFact where
  source : Option String := none
  active : Option Bool := none
  user : Option String := none
  username : Option String := none
  name : Option String := none
  mikrotik_session_id : Option String := none
  dotId : Option String := none
  idField : Option String := none
  acctSessionIdDash : Option String := none
  acctSessionIdUnderscore : Option String := none
  deriving DecidableEq, Repr

/-- `bool(s.get("active")) is True`. -/
def ObservedFact.isActiveTrue (s : ObservedFact) : Bool :=
  match s.active with
  | some b => b
  | none => false

/-- Membership of the record's source tag in
`{"user_manager_session", "ppp_active"}` together with an explicit
`active=True`: the filter defining `active_candidates`. -/
def ObservedFact.isExplicitActive (s : ObservedFact) : Bool :=
  (s.source = some "user_manager_session" ∨ s.source = some "ppp_active")
    ∧ s.isActiveTrue

/-- `s.get("user") or s.get("username") or s.get("name")`. -/
def ObservedFact.userOf (s : ObservedFact) : Option String :=
  s.user <|> s.username <|> s.name

/-- `s.get("mikrotik_session_id") or s.get(".id") or s.get("id") or
s.get("acct-session-id") or s.get("acct_session_id")`. -/
def ObservedFact.sidOf (s : ObservedFact) : Option String :=
  s.mikrotik_session_id <|> s.dotId <|> s.idField
    <|> s.acctSessionIdDash <|> s.acctSessionIdUnderscore

/-- The `active` list of `(username, session-id)` pairs built by
`check_vpn_connections`: restrict to the explicitly-active candidates when
any exist, otherwise fall back to every returned record, and keep every
record that names a user.  (The inner `if active_candidates and not active`
skip is a no-op on the already-filtered candidate list.) -/
def activePairs (facts : List ObservedFact) : List (String × Option String) :=
  let activeCandidates := facts.filter (fun s => s.isExplicitActive)
  let candidate := if activeCandidates ≠ [] then activeCandidates else facts
  candidate.filterMap (fun s =>
    if activeCandidates ≠ [] ∧ ¬ s.isActiveTrue then none
    else
      match s.userOf with
      | none => none
      | some u => some (u, s.sidOf))

/-- `active_usernames`: the set of usernames observed active (membership is
what the scheduler tests; the list may contain duplicates). -/
def activeUsernames (facts : List ObservedFact) : List String :=
  (activePairs facts).map Prod.fst

/-- `active_session_id_by_username.get(u)`: the dictionary keeps, for each
username, the session id of its first pair carrying one. -/
def sidByUsername (facts : List ObservedFact) (u : String) : Option String :=
  match List.find? (fun p => p.fst = u ∧ p.snd ≠ none) (activePairs facts) with
  | some p => p.snd
  | none => none

/-- First-occurrence deduplication (fuelled by the list length), standing in
for the iteration over the Python set `active_usernames` (whose order is
arbitrary; each distinct username is visited exactly once). -/
def dedupFirstAux : Nat → List String → List String
  | 0, _ => []
  | _, [] => []
  | fuel + 1, x :: xs => x :: dedupFirstAux fuel (xs.filter (fun y => y ≠ x))

def dedupFirst (l : List String) : List String :=
  dedupFirstAux l.length l

/-- The most recent grant for a username:
`db.query(VPNSession).filter(mikrotik_username == u).order_by(desc(created_at)).first()`.
Ties in `created_at` are resolved in storage order (the SQL order among ties
is unspecified; the earliest stored row is taken). -/
def latestByCreated (st : Store) (u : String) : Option VPNSession :=
  (st.filter (fun s => s.mikrotik_username = u)).foldl
    (fun acc s =>
      match acc with
      | none => some s
      | some a => if s.created_at > a.created_at then some s else acc)
    none

/-- One step of the anti-flap resurrection block (`check_vpn_connections`,
lines 196–222), for one observed-active username `u`: skip if a tracked
session already carries `u`; otherwise promote the most recent grant of `u`
back to `CONNECTED` when it is `DISCONNECTED` and at most 24h old, recording
the observed session id (keeping the old one when none was observed) and a
fresh `last_seen_at`, and append it to the tracked list. -/
def resurrectOne (facts : List ObservedFact) (now : Int)
    (acc : Store × List Nat) (u : String) : Store × List Nat :=
  let (st, tracked) := acc
  if tracked.any (fun i =>
      match st.find? i with
      | some s => s.mikrotik_username = u
      | none => false) then
    acc
  else
    match latestByCreated st u with
    | none => acc
    | some latest =>
      if now - latest.created_at > 86400 then acc
      else if latest.status = DISCONNECTED then
        (st.update latest.id (fun s =>
          { s with status := CONNECTED,
                   connected_at := some (s.connected_at.getD now),
                   mikrotik_session_id := (sidByUsername facts u) <|> s.mikrotik_session_id,
                   last_seen_at := some now,
                   updated_at := now }),
         tracked ++ [latest.id])
      else acc

/-- The anti-flap resurrection phase: fold `resurrectOne` over the distinct
observed-active usernames. -/
def resurrectPhase (facts : List ObservedFact) (now : Int)
    (st : Store) (tracked : List Nat) : Store × List Nat :=
  (dedupFirst (activeUsernames facts)).foldl (resurrectOne facts now) (st, tracked)

/-- The grace window: `max(30, interval_seconds * 2)`. -/
def Env.graceSeconds (env : Env) : Int :=
  max 30 (env.checkIntervalSeconds * 2)

/-- The per-session body of the `for session in connected_sessions` loop of
`check_vpn_connections`: the resulting store together with the effects this
iteration issues. -/
def processSession (env : Env) (facts : List ObservedFact) (now : Int)
    (st : Store) (i : Nat) : Store × List Effect :=
  match st.find? i with
  | none => (st, [])
  | some s =>
    if s.mikrotik_username ∈ activeUsernames facts then
      -- refresh last_seen_at, then dispatch on the (unchanged) status
      let st := st.update i (fun x => { x with last_seen_at := some now, updated_at := now })
      if s.status = REQUESTED then
        let st := markSessionAsConnected st i (sidByUsername facts s.mikrotik_username) now
        if env.requireConfirmation s.user_id then
          (st, [Effect.notifyConfirmationRequired i])
        else
          let r := markSessionAsConfirmed env st i none now
          (r.1, r.2 ++ [Effect.notifyConfirmed i])
      else if s.status = CONNECTED then
        if env.requireConfirmation s.user_id then
          match s.connected_at with
          | some t =>
            if now - t > env.confirmationTimeoutSeconds then
              let r := disconnectVpnSession st i now
              (r.1, r.2 ++ [Effect.notifyDisconnected i])
            else (st, [])
          | none => (st, [])
        else
          markSessionAsConfirmed env st i none now
      else (st, [])
    else
      if s.status = CONNECTED ∨ s.status = CONFIRMED ∨ s.status = ACTIVE
          ∨ s.status = REMINDER_SENT then
        let lastSeen := s.last_seen_at <|> s.connected_at
        match lastSeen with
        | some t =>
          if now - t < env.graceSeconds then (st, [])
          else
            let r := disconnectVpnSession st i now
            (r.1, r.2 ++ [Effect.notifyDisconnected i])
        | none =>
          let r := disconnectVpnSession st i now
          (r.1, r.2 ++ [Effect.notifyDisconnected i])
      else (st, [])

/-- Folding the per-session body over the tracked sessions, accumulating
the issued effects in order. -/
def processLoop (env : Env) (facts : List ObservedFact) (now : Int)
    (tracked : List Nat) (st : Store) (effs : List Effect) : Store × List Effect :=
  tracked.foldl
    (fun acc i =>
      let r := processSession env facts now acc.1 i
      (r.1, acc.2 ++ r.2))
    (st, effs)

/-- `check_vpn_connections`, as a function of the store, the observed-facts
set returned by the device, and the current time: load the non-terminal
sessions (returning immediately when there are none), run the anti-flap
resurrection phase, then process every tracked session. -/
def checkVpnConnections (env : Env) (st : Store) (facts : List ObservedFact)
    (now : Int) : Store × List Effect :=
  let tracked := (st.filter (fun s => s.status.isNonTerminal)).map (fun s => s.id)
  if tracked = [] then (st, [])
  else
    let (st1, tracked1) := resurrectPhase facts now st tracked
    processLoop env facts now tracked1 st1 []

/-- The tracked-session invariant maintained through the resurrection
phase: no id is tracked twice, and every tracked id denotes a
currently-non-terminal row. -/
def PhaseInv (st : Store) (tr : List Nat) : Prop :=
  tr.Nodup ∧ ∀ j ∈ tr, ∃ s : VPNSession,
    st.find? j = some s ∧ s.status.isNonTerminal = true

end ConnectionCheck

/-- `check_expired_sessions` (expiry job): every non-terminal session whose
`expires_at` has passed is expired (with its side effects); a non-terminal
session with no `expires_at` gets one backfilled from `created_at` plus the
grantee's configured duration. -/
def checkExpiredSessions (env : Env) (st : Store) (now : Int) : Store × List Effect :=
  let tracked := (st.filter (fun s => s.status.isNonTerminal)).map (fun s => s.id)
  tracked.foldl
    (fun (acc : Store × List Effect) i =>
      let (st, effs) := acc
      match st.find? i with
      | none => acc
      | some s =>
        match s.expires_at with
        | some e =>
          if e < now then
            let (st', effs') := expireVpnSession st i now
            (st', effs ++ effs')
          else acc
        | none =>
          (st.update i (fun x =>
            { x with expires_at := some (x.created_at + 3600 * env.sessionDurationHours x.user_id),
                     updated_at := now }), effs))
    (st, [])

/-- `cleanup_old_sessions` (daily retention sweep): select the sessions that
are `DISCONNECTED` and whose `updated_at` is older than 30 days, and delete
each of them. -/
def cleanupOldSessions (st : Store) (now : Int) : Store :=
  let cutoff := now - 30 * 86400
  let old := st.filter (fun s => s.status = DISCONNECTED ∧ s.updated_at < cutoff)
  old.foldl (fun acc s => acc.filter (fun x => x.id ≠ s.id)) st

/-! ## The RouterOS shell-output parser (`mikrotik_service.py`)

Text is modelled at the character-list level.  `\s`, `str.strip()` and
`str.splitlines()` are modelled over the ASCII whitespace/terminator
characters, which are the ones RouterOS output contains. -/

section ShellParser

/-- The character class `[A-Za-z0-9_.-]` of `_KV_RE`'s key group. -/
def isKeyChar (c : Char) : Bool :=
  c.isAlpha ∨ c.isDigit ∨ c = '_' ∨ c = '.' ∨ c = '-'

/-- The regex class `\s` (and the characters `str.strip()` removes). -/
def isSpaceChar (c : Char) : Bool :=
  c = ' ' ∨ c = '\t' ∨ c = '\n' ∨ c = '\r' ∨ c = '\x0b' ∨ c = '\x0c'

/-- `[A-Z]`, the flags group of `_split_routeros_index_and_flags`. -/
def isUpperAZ (c : Char) : Bool :=
  'A' ≤ c ∧ c ≤ 'Z'

/-- `str.strip()`. -/
def trimChars (l : List Char) : List Char :=
  ((l.dropWhile isSpaceChar).reverse.dropWhile isSpaceChar).reverse

/-- `str.splitlines()` over `\n`, `\r\n` and `\r` line terminators
(no empty trailing line). -/
def splitLinesAux : List Char → List Char → List (List Char)
  | [], acc => if acc.isEmpty then [] else [acc.reverse]
  | c :: rest, acc =>
    if c = '\r' then
      match rest with
      | [] => [acc.reverse]
      | c2 :: r2 =>
        if c2 = '\n' then acc.reverse :: splitLinesAux r2 []
        else acc.reverse :: splitLinesAux (c2 :: r2) []
    else if c = '\n' then
      acc.reverse :: splitLinesAux rest []
    else
      splitLinesAux rest (c :: acc)

def splitLinesChars (l : List Char) : List (List Char) :=
  splitLinesAux l []

/-- `line.startswith(pat)`. -/
def startsWithChars : List Char → List Char → Bool
  | [], _ => true
  | _ :: _, [] => false
  | p :: ps, c :: cs => p = c ∧ startsWithChars ps cs

/-- `";;;" in line` together with `line.split(";;;", 1)`: the split at the
first occurrence of the comment marker, or `none` when there is none. -/
def splitTriple : List Char → Option (List Char × List Char)
  | [] => none
  | c :: rest =>
    if c = ';' then
      match rest with
      | ';' :: ';' :: r2 => some ([], r2)
      | _ =>
        (match splitTriple rest with
         | some (b, a) => some (c :: b, a)
         | none => none)
    else
      (match splitTriple rest with
       | some (b, a) => some (c :: b, a)
       | none => none)

/-- `int(...)` on a digit string. -/
def digitsToNat (l : List Char) : Nat :=
  l.foldl (fun a c => 10 * a + (c.toNat - '0'.toNat)) 0

/-- `_split_routeros_index_and_flags`.  The two anchored regexes
`^(\d+)\s+([A-Z]+)(?:\s+(.+))?$` and `^(\d+)(?:\s+(.+))?$` are decided
directly: greedy `\d+`/`[A-Z]+` runs are maximal character runs (shorter
runs cannot be followed by the required `\s`/`=`/end, so backtracking never
helps), and `(?:\s+(.+))?$` accepts exactly the empty remainder or a
remainder that starts with whitespace and has at least two characters
(`.` also matches whitespace, so the greedy `\s+` backtracks to leave one
character for `.+`); the captured rest is `.strip()`-ed afterwards, which
makes it the trimmed remainder in every accepting case. -/
def splitRouterosIndexAndFlags (line : List Char) : Option Nat × List Char × List Char :=
  let digits := line.takeWhile Char.isDigit
  if digits.isEmpty then (none, [], trimChars line)
  else
    let after := line.dropWhile Char.isDigit
    let ws1 := after.takeWhile isSpaceChar
    let p1 : Option (List Char × List Char) :=
      if ws1.isEmpty then none
      else
        let afterWs := after.dropWhile isSpaceChar
        let flags := afterWs.takeWhile isUpperAZ
        if flags.isEmpty then none
        else
          let r := afterWs.dropWhile isUpperAZ
          if r.isEmpty ∨ (isSpaceChar (r.headD ' ') ∧ 2 ≤ r.length) then
            some (flags, trimChars r)
          else none
    match p1 with
    | some (flags, rest) => (some (digitsToNat digits), flags, rest)
    | none =>
      if after.isEmpty ∨ (isSpaceChar (after.headD ' ') ∧ 2 ≤ after.length) then
        (some (digitsToNat digits), [], trimChars after)
      else
        (none, [], trimChars line)

/-- The quoted alternative `("([^"\\]|\\.)*")` of `_KV_RE`, after the
opening quote: the starred group consumes characters up to the first
unescaped quote (the alternation is deterministic: `[^"\\]` cannot consume
a quote or backslash, and `\\.` requires a backslash followed by a
non-newline character); returns the body (escapes kept verbatim, as the
source does not unescape) and the remainder after the closing quote. -/
def quotedBody : List Char → Option (List Char × List Char)
  | [] => none
  | c :: rest =>
    if c = '"' then some ([], rest)
    else if c = '\\' then
      match rest with
      | [] => none
      | c2 :: r2 =>
        if c2 = '\n' then none
        else
          (match quotedBody r2 with
           | some (b, r) => some (c :: c2 :: b, r)
           | none => none)
    else
      (match quotedBody rest with
       | some (b, r) => some (c :: b, r)
       | none => none)

/-- `_KV_RE` anchored at the head of `l`: `([A-Za-z0-9_.-]+)=` followed by
a double-quoted string or a `\S+` token (the quoted alternative is tried
first; when it fails — e.g. no closing quote — the `\S+` alternative takes
over).  Returns the key, the raw value (quotes included) and the
remainder. -/
def kvMatchAt (l : List Char) : Option ((List Char × List Char) × List Char) :=
  let key := l.takeWhile isKeyChar
  if key.isEmpty then none
  else
    match l.dropWhile isKeyChar with
    | [] => none
    | c :: rest =>
      if c = '=' then
        let fallback : Option ((List Char × List Char) × List Char) :=
          let tok := rest.takeWhile (fun c => ¬ isSpaceChar c)
          if tok.isEmpty then none
          else some ((key, tok), rest.drop tok.length)
        match rest with
        | [] => fallback
        | c2 :: rtail =>
          if c2 = '"' then
            match quotedBody rtail with
            | some (body, rem) => some ((key, '"' :: (body ++ ['"'])), rem)
            | none => fallback
          else fallback
      else none

/-- `_KV_RE.finditer`: scan left to right, at each position try the
anchored match; on success continue after the match, otherwise advance one
character.  Fuelled by the input length (each step consumes at least one
character). -/
def kvGo : Nat → List Char → List (List Char × List Char)
  | 0, _ => []
  | _, [] => []
  | fuel + 1, c :: rest =>
    match kvMatchAt (c :: rest) with
    | some (kv, rem) => kv :: kvGo fuel rem
    | none => kvGo fuel rest

def kvFindAll (l : List Char) : List (List Char × List Char) :=
  kvGo l.length l

/-- A value stored in a parsed record: RouterOS fields are strings, the
synthetic `number` field is an integer and the normalized `disabled` field
a boolean. -/
inductive FieldVal where
  | str (s : List Char)
  | num (n : Nat)
  | boolv (b : Bool)
  deriving DecidableEq, Repr

instance : Inhabited FieldVal := ⟨FieldVal.boolv false⟩

/-- A Python dict with string keys, as an insertion-ordered association
list: inserting an existing key overwrites in place, a new key is
appended. -/
abbrev RecordDict := List (List Char × FieldVal)

def dictContains (d : RecordDict) (k : List Char) : Bool :=
  d.any (fun e => e.1 = k)

def dictInsert (d : RecordDict) (k : List Char) (v : FieldVal) : RecordDict :=
  if dictContains d k then
    d.map (fun e => if e.1 = k then (k, v) else e)
  else
    d ++ [(k, v)]

def dictGet? (d : RecordDict) (k : List Char) : Option FieldVal :=
  match List.find? (fun e => e.1 = k) d with
  | some e => some e.2
  | none => none

/-- The unquoting in `_parse_kv_pairs_from_line`:
`value[1:-1]` when the raw value starts and ends with a double quote and
has length ≥ 2 (escapes inside are not rewritten). -/
def unquoteValue (v : List Char) : List Char :=
  if v.headD ' ' = '"' ∧ v.getLast? = some '"' ∧ 2 ≤ v.length then
    (v.drop 1).dropLast
  else v

/-- `_parse_kv_pairs_from_line`. -/
def parseKvPairsFromLine (l : List Char) : RecordDict :=
  (kvFindAll l).foldl
    (fun d kv => dictInsert d kv.1 (FieldVal.str (unquoteValue kv.2))) []

/-- `_normalize_bool`, on the value kinds a parsed record can hold. -/
def normalizeBool : FieldVal → Option Bool
  | FieldVal.boolv b => some b
  | FieldVal.num n => some (decide (n ≠ 0))
  | FieldVal.str s =>
    let t := (trimChars s).map Char.toLower
    if t = "true".toList ∨ t = "yes".toList ∨ t = "enabled".toList
        ∨ t = "enable".toList ∨ t = "1".toList then some true
    else if t = "false".toList ∨ t = "no".toList ∨ t = "disabled".toList
        ∨ t = "disable".toList ∨ t = "0".toList then some false
    else none

/-- The parser state of the `_parse_firewall_output` line loop. -/
structure FwParseState where
  pending : Option (List Char)
  current : Option RecordDict
  flags : List Char
  rules : List RecordDict
  deriving DecidableEq, Repr

/-- Flushing the current record into the rule list: backfill `disabled`
from the `X` flag unless a `disabled=` field was parsed.  (In this
function the dict never holds a Python `None`, so the `is None` half of
the source's check cannot fire.) -/
def flushCurrent (current : Option RecordDict) (flags : List Char)
    (rules : List RecordDict) : List RecordDict :=
  match current with
  | none => rules
  | some cur =>
    let cur :=
      if dictContains cur ("disabled".toList) then cur
      else dictInsert cur ("disabled".toList) (FieldVal.boolv (flags.contains 'X'))
    rules ++ [cur]

/-- The part of the `_parse_firewall_output` loop body that runs after the
`;;;` comment extraction, on the (re-trimmed) line. -/
def firewallStepCore (st : FwParseState) (line : List Char) : FwParseState :=
  if line.isEmpty then st
  else if (line.headD ' ').isDigit then
    let rules := flushCurrent st.current st.flags st.rules
    let (number, flags', rest) := splitRouterosIndexAndFlags line
    let cur : RecordDict := []
    let cur :=
      match number with
      | some n => dictInsert cur ("number".toList) (FieldVal.num n)
      | none => cur
    let (cur, pending') :=
      match st.pending with
      | some c => (dictInsert cur ("comment".toList) (FieldVal.str c), none)
      | none => (cur, st.pending)
    let kv := parseKvPairsFromLine rest
    let cur := if kv.isEmpty then cur else kv.foldl (fun d e => dictInsert d e.1 e.2) cur
    { pending := pending', current := some cur, flags := flags', rules := rules }
  else
    match st.current with
    | none => st
    | some cur =>
      let kv := parseKvPairsFromLine line
      let cur := if kv.isEmpty then cur else kv.foldl (fun d e => dictInsert d e.1 e.2) cur
      { st with current := some cur }

/-- One iteration of the `_parse_firewall_output` loop: strip the raw
line, skip blank/`Flags:`/`#` lines, extract an inline or standalone `;;;`
comment, then process the remaining text. -/
def firewallStep (st : FwParseState) (raw : List Char) : FwParseState :=
  let line := trimChars raw
  if line.isEmpty ∨ startsWithChars ("Flags:".toList) line
      ∨ startsWithChars ("#".toList) line then
    st
  else
    match splitTriple line with
    | some (before, after) =>
      let commentText := trimChars after
      let pending' := if commentText.isEmpty then st.pending else some commentText
      let line' := trimChars before
      if line'.isEmpty then { st with pending := pending' }
      else firewallStepCore { st with pending := pending' } line'
    | none => firewallStepCore st line

/-- `_parse_firewall_output`: run the line loop, flush the last record,
then normalize any string-valued `disabled` field. -/
def parseFirewallOutput (output : List Char) : List RecordDict :=
  let fin := (splitLinesChars output).foldl firewallStep
    { pending := none, current := none, flags := [], rules := [] }
  let rules := flushCurrent fin.current fin.flags fin.rules
  rules.map (fun r =>
    match dictGet? r ("disabled".toList) with
    | some v =>
      (match normalizeBool v with
       | some b => dictInsert r ("disabled".toList) (FieldVal.boolv b)
       | none => r)
    | none => r)

end ShellParser

/-! ## The family of shell-output record blocks of claim C9 -/

section ShellBlock

/-- One rendered `key=value` pair: either an unquoted token or a
double-quoted value. -/
structure RenderPair where
  key : List Char
  val : List Char
  quoted : Bool
  deriving DecidableEq, Repr

def renderValue (p : RenderPair) : List Char :=
  if p.quoted then '"' :: (p.val ++ ['"']) else p.val

def renderPair (p : RenderPair) : List Char :=
  p.key ++ '=' :: renderValue p

def renderPairs : List RenderPair → List Char
  | [] => []
  | [p] => renderPair p
  | p :: ps => renderPair p ++ ' ' :: renderPairs ps

/-- A shell-dialect output block as described by the claim: a record
introduced by a numeric index with the disabled (`X`) flag, carrying a
free-text comment either inline after `;;;` or on its own line immediately
before, with `key=value` pairs on the index line and continued on a
following indented line. -/
structure ShellRecordBlock where
  idxDigits : List Char
  kvs1 : List RenderPair
  kvs2 : List RenderPair
  comment : List Char
  inlineComment : Bool
  deriving DecidableEq, Repr

/-- The index line: `<idx> X <kvs1>` plus, for an inline comment,
` ;;; <comment>`. -/
def renderLine1 (b : ShellRecordBlock) : List Char :=
  b.idxDigits ++ ' ' :: 'X' ::
    (if b.kvs1.isEmpty then [] else ' ' :: renderPairs b.kvs1)
    ++ (if b.inlineComment then ' ' :: ';' :: ';' :: ';' :: ' ' :: b.comment else [])

/-- The indented continuation line. -/
def renderLine2 (b : ShellRecordBlock) : List Char :=
  ' ' :: ' ' :: ' ' :: ' ' :: renderPairs b.kvs2

/-- The rendered block: an optional preceding comment line, the index
line, and the continuation line, newline-separated. -/
def renderBlock (b : ShellRecordBlock) : List Char :=
  (if b.inlineComment then []
   else ';' :: ';' :: ';' :: ' ' :: (b.comment ++ ['\n']))
    ++ renderLine1 b ++ '\n' :: renderLine2 b

/-- Well-formedness of one pair: the key is a nonempty run of key
characters not starting with a digit (a leading digit would make the
continuation line look like a new record to the parser); a quoted value
contains no quote, backslash, line terminator or semicolon; an unquoted
value is a nonempty whitespace-free token without quote or semicolon. -/
def wfPair (p : RenderPair) : Bool :=
  (¬ p.key.isEmpty) ∧ p.key.all isKeyChar ∧ ¬ (p.key.headD ' ').isDigit
    ∧ (if p.quoted then
        p.val.all (fun c => c ≠ '"' ∧ c ≠ '\\' ∧ c ≠ '\n' ∧ c ≠ '\r' ∧ c ≠ ';')
      else
        (¬ p.val.isEmpty) ∧ p.val.all (fun c => ¬ isSpaceChar c ∧ c ≠ '"' ∧ c ≠ ';'))

/-- Well-formedness of a block: a nonempty numeric index; well-formed
pairs with distinct keys, none of them named `number`, `comment` or
`disabled` (those would collide with the synthetic fields); a nonempty
comment free of line terminators and semicolons, not starting or ending
in whitespace; and a continuation line that does not look like a
`Flags:` header. -/
def wfBlock (b : ShellRecordBlock) : Bool :=
  (¬ b.idxDigits.isEmpty) ∧ b.idxDigits.all Char.isDigit
    ∧ (b.kvs1 ++ b.kvs2).all wfPair
    ∧ ((b.kvs1 ++ b.kvs2).map (fun p => p.key)).Nodup
    ∧ (b.kvs1 ++ b.kvs2).all (fun p =>
        p.key ≠ "number".toList ∧ p.key ≠ "comment".toList
          ∧ p.key ≠ "disabled".toList)
    ∧ (¬ b.comment.isEmpty)
    ∧ b.comment.all (fun c => c ≠ '\n' ∧ c ≠ '\r' ∧ c ≠ ';')
    ∧ ¬ isSpaceChar (b.comment.headD 'x') ∧ ¬ isSpaceChar (b.comment.getLastD 'x')
    ∧ ¬ startsWithChars ("Flags:".toList) (renderPairs b.kvs2)

/-- The record the claim requires: the numeric index, the comment, every
declared `key=value` pair in order (quoted values unquoted), and the
strict boolean `disabled = true`. -/
def expectedRecord (b : ShellRecordBlock) : RecordDict :=
  ("number".toList, FieldVal.num (digitsToNat b.idxDigits))
    :: ("comment".toList, FieldVal.str b.comment)
    :: ((b.kvs1 ++ b.kvs2).map (fun p => (p.key, FieldVal.str p.val))
        ++ [("disabled".toList, FieldVal.boolv true)])

end ShellBlock

/-! ## Basic lemmas about the store -/

section StoreLemmas

theorem Store.find?_eq_some {st : Store} {i : Nat} {s : VPNSession}
    (h : st.find? i = some s) : s ∈ st ∧ s.id = i := by
  unfold Store.find? at h
  have hmem := List.mem_of_find?_eq_some h
  have hp := List.find?_some h
  simp only [decide_eq_true_eq] at hp
  exact ⟨hmem, hp⟩

theorem Store.find?_of_mem {st : Store} {s : VPNSession}
    (hnd : (st.map (fun x => x.id)).Nodup) (hmem : s ∈ st) :
    st.find? s.id = some s := by
  induction st with
  | nil => cases hmem
  | cons a l ih =>
    simp only [List.map_cons, List.nodup_cons, List.mem_map] at hnd
    rcases List.mem_cons.mp hmem with h | h
    · subst h
      simp [Store.find?, List.find?]
    · by_cases hid : a.id = s.id
      · exact absurd ⟨s, h, hid.symm⟩ hnd.1
      · simpa [Store.find?, List.find?, hid] using ih hnd.2 h

/-- Two members of an id-nodup store with the same id are the same row. -/
theorem Store.eq_of_mem_of_id_eq {st : Store} {s t : VPNSession}
    (hnd : (st.map (fun x => x.id)).Nodup) (hs : s ∈ st) (ht : t ∈ st)
    (hid : s.id = t.id) : s = t := by
  have h1 := Store.find?_of_mem hnd hs
  have h2 := Store.find?_of_mem hnd ht
  rw [hid] at h1
  rw [h1] at h2
  exact (Option.some.injEq _ _ ▸ h2)

theorem Store.find?_update_self {st : Store} {i : Nat} {f : VPNSession → VPNSession}
    (hf : ∀ s, (f s).id = s.id) :
    (st.update i f).find? i = (st.find? i).map f := by
  induction st with
  | nil => rfl
  | cons a l ih =>
    show List.find? _ ((if a.id = i then f a else a) :: Store.update l i f) = _
    by_cases hid : a.id = i
    · rw [if_pos hid]
      rw [List.find?_cons_of_pos _ (by simp [hf a, hid]),
          Store.find?, List.find?_cons_of_pos _ (by simp [hid])]
      rfl
    · rw [if_neg hid]
      rw [List.find?_cons_of_neg _ (by simp [hid]),
          Store.find?, List.find?_cons_of_neg _ (by simp [hid])]
      exact ih

theorem Store.find?_update_ne {st : Store} {i j : Nat} {f : VPNSession → VPNSession}
    (hf : ∀ s, (f s).id = s.id) (hne : j ≠ i) :
    (st.update i f).find? j = st.find? j := by
  induction st with
  | nil => rfl
  | cons a l ih =>
    show List.find? _ ((if a.id = i then f a else a) :: Store.update l i f) = _
    by_cases hid : a.id = i
    · have hne' : ¬ a.id = j := fun h => hne (h.symm.trans hid)
      rw [if_pos hid]
      rw [List.find?_cons_of_neg _ (by simp [hf a, hne']),
          Store.find?, List.find?_cons_of_neg _ (by simp [hne'])]
      exact ih
    · rw [if_neg hid]
      by_cases haj : a.id = j
      · rw [List.find?_cons_of_pos _ (by simp [haj]),
            Store.find?, List.find?_cons_of_pos _ (by simp [haj])]
      · rw [List.find?_cons_of_neg _ (by simp [haj]),
            Store.find?, List.find?_cons_of_neg _ (by simp [haj])]
        exact ih

theorem Store.update_map_id {st : Store} {i : Nat} {f : VPNSession → VPNSession}
    (hf : ∀ s, (f s).id = s.id) :
    ((st.update i f).map (fun x => x.id)) = st.map (fun x => x.id) := by
  induction st with
  | nil => rfl
  | cons a l ih =>
    show ((if a.id = i then f a else a) :: Store.update l i f).map _ = _
    by_cases hid : a.id = i
    · rw [if_pos hid]
      simp only [List.map_cons, hf a]
      rw [ih]
    · rw [if_neg hid]
      simp only [List.map_cons]
      rw [ih]

end StoreLemmas

/-! ## Locality of the service operations

Every mutating operation of the connection check touches only the row whose
id it is given, and preserves the list of row ids. -/

section OpLocality

variable {env : Env} {st : Store} {i j : Nat} {now : Int}

theorem updateVpnSessionStatus_map_id (ns : VPNSessionStatus) (fr : Option String) :
    (updateVpnSessionStatus st i ns fr now).map (fun x => x.id) = st.map (fun x => x.id) := by
  unfold updateVpnSessionStatus
  cases st.find? i with
  | none => rfl
  | some s =>
    apply Store.update_map_id
    intro x
    dsimp only
    cases fr <;> split_ifs <;> rfl

theorem updateVpnSessionStatus_find?_ne (ns : VPNSessionStatus) (fr : Option String)
    (hne : j ≠ i) :
    (updateVpnSessionStatus st i ns fr now).find? j = st.find? j := by
  unfold updateVpnSessionStatus
  cases st.find? i with
  | none => rfl
  | some s =>
    apply Store.find?_update_ne ?_ hne
    intro x
    dsimp only
    cases fr <;> split_ifs <;> rfl

theorem markSessionAsConnected_map_id (sid : Option String) :
    (markSessionAsConnected st i sid now).map (fun x => x.id) = st.map (fun x => x.id) := by
  unfold markSessionAsConnected
  cases st.find? i with
  | none => exact updateVpnSessionStatus_map_id _ _
  | some s =>
    cases sid with
    | none => exact updateVpnSessionStatus_map_id _ _
    | some v =>
      dsimp only
      rw [Store.update_map_id, updateVpnSessionStatus_map_id]
      intro x; rfl

theorem markSessionAsConnected_find?_ne (sid : Option String) (hne : j ≠ i) :
    (markSessionAsConnected st i sid now).find? j = st.find? j := by
  unfold markSessionAsConnected
  cases st.find? i with
  | none => exact updateVpnSessionStatus_find?_ne _ _ hne
  | some s =>
    cases sid with
    | none => exact updateVpnSessionStatus_find?_ne _ _ hne
    | some v =>
      dsimp only
      rw [Store.find?_update_ne, updateVpnSessionStatus_find?_ne _ _ hne]
      · intro x; rfl
      · exact hne

theorem markSessionAsConfirmed_map_id (fr : Option String) :
    ((markSessionAsConfirmed env st i fr now).1).map (fun x => x.id)
      = st.map (fun x => x.id) := by
  unfold markSessionAsConfirmed
  cases st.find? i with
  | none => exact updateVpnSessionStatus_map_id _ _
  | some s0 =>
    dsimp only
    cases confirmRuleLookup env s0.user_id fr with
    | none =>
      dsimp only
      rw [Store.update_map_id, updateVpnSessionStatus_map_id,
          updateVpnSessionStatus_map_id]
      intro x; rfl
    | some rid =>
      dsimp only
      rw [Store.update_map_id, updateVpnSessionStatus_map_id,
          Store.update_map_id, updateVpnSessionStatus_map_id]
      · intro x; rfl
      · intro x; rfl

theorem markSessionAsConfirmed_find?_ne (fr : Option String) (hne : j ≠ i) :
    ((markSessionAsConfirmed env st i fr now).1).find? j = st.find? j := by
  unfold markSessionAsConfirmed
  cases st.find? i with
  | none => exact updateVpnSessionStatus_find?_ne _ _ hne
  | some s0 =>
    dsimp only
    cases confirmRuleLookup env s0.user_id fr with
    | none =>
      dsimp only
      rw [Store.find?_update_ne, updateVpnSessionStatus_find?_ne _ _ hne,
          updateVpnSessionStatus_find?_ne _ _ hne]
      · intro x; rfl
      · exact hne
    | some rid =>
      dsimp only
      rw [Store.find?_update_ne, updateVpnSessionStatus_find?_ne _ _ hne,
          Store.find?_update_ne, updateVpnSessionStatus_find?_ne _ _ hne]
      · intro x; rfl
      · exact hne
      · intro x; rfl
      · exact hne

theorem disconnectVpnSession_map_id :
    ((disconnectVpnSession st i now).1).map (fun x => x.id) = st.map (fun x => x.id) := by
  unfold disconnectVpnSession
  cases st.find? i with
  | none => rfl
  | some s0 =>
    dsimp only
    rw [Store.update_map_id]
    intro x; rfl

theorem disconnectVpnSession_find?_ne (hne : j ≠ i) :
    ((disconnectVpnSession st i now).1).find? j = st.find? j := by
  unfold disconnectVpnSession
  cases st.find? i with
  | none => rfl
  | some s0 =>
    dsimp only
    rw [Store.find?_update_ne]
    · intro x; rfl
    · exact hne

/-- What `disconnect_vpn_session` does to its own row and which effects it
issues. -/
theorem disconnectVpnSession_spec (now : Int) {s : VPNSession} (hf : st.find? i = some s) :
    (disconnectVpnSession st i now).1.find? i
        = some { s with status := VPNSessionStatus.DISCONNECTED, updated_at := now }
      ∧ (disconnectVpnSession st i now).2
        = (match s.firewall_rule_id with
           | some r => [Effect.disableRule r]
           | none => []) ++ [Effect.terminateSessions s.mikrotik_username,
                             Effect.disableUser s.mikrotik_username] := by
  unfold disconnectVpnSession
  rw [hf]
  constructor
  · dsimp only
    rw [Store.find?_update_self, hf]
    · rfl
    · intro x; rfl
  · rfl

end OpLocality

/-! ## Locality of the per-session loop body -/

section LoopLocality

variable {env : Env} {facts : List ObservedFact} {now : Int} {st : Store} {i j : Nat}

theorem processSession_map_id :
    ((processSession env facts now st i).1).map (fun x => x.id) = st.map (fun x => x.id) := by
  unfold processSession
  cases st.find? i with
  | none => rfl
  | some s =>
    dsimp only
    by_cases hact : s.mikrotik_username ∈ activeUsernames facts
    · rw [if_pos hact]
      by_cases hreq : s.status = REQUESTED
      · rw [if_pos hreq]
        by_cases hrc : env.requireConfirmation s.user_id = true
        · rw [if_pos hrc]
          dsimp only
          rw [markSessionAsConnected_map_id, Store.update_map_id]
          intro x; rfl
        · rw [if_neg hrc]
          dsimp only
          rw [markSessionAsConfirmed_map_id, markSessionAsConnected_map_id,
              Store.update_map_id]
          intro x; rfl
      · rw [if_neg hreq]
        by_cases hcon : s.status = CONNECTED
        · rw [if_pos hcon]
          by_cases hrc : env.requireConfirmation s.user_id = true
          · rw [if_pos hrc]
            cases s.connected_at with
            | none =>
              dsimp only
              rw [Store.update_map_id]
              intro x; rfl
            | some t =>
              dsimp only
              by_cases htm : now - t > env.confirmationTimeoutSeconds
              · rw [if_pos htm]
                dsimp only
                rw [disconnectVpnSession_map_id, Store.update_map_id]
                intro x; rfl
              · rw [if_neg htm]
                dsimp only
                rw [Store.update_map_id]
                intro x; rfl
          · rw [if_neg hrc]
            rw [markSessionAsConfirmed_map_id, Store.update_map_id]
            intro x; rfl
        · rw [if_neg hcon]
          dsimp only
          rw [Store.update_map_id]
          intro x; rfl
    · rw [if_neg hact]
      by_cases hst : s.status = CONNECTED ∨ s.status = CONFIRMED
          ∨ s.status = ACTIVE ∨ s.status = REMINDER_SENT
      · rw [if_pos hst]
        cases hls : s.last_seen_at <|> s.connected_at with
        | none =>
          dsimp only
          rw [disconnectVpnSession_map_id]
        | some t =>
          dsimp only
          by_cases hgr : now - t < env.graceSeconds
          · rw [if_pos hgr]
          · rw [if_neg hgr]
            dsimp only
            rw [disconnectVpnSession_map_id]
      · rw [if_neg hst]

theorem processSession_find?_ne (hne : j ≠ i) :
    ((processSession env facts now st i).1).find? j = st.find? j := by
  unfold processSession
  cases st.find? i with
  | none => rfl
  | some s =>
    dsimp only
    by_cases hact : s.mikrotik_username ∈ activeUsernames facts
    · rw [if_pos hact]
      by_cases hreq : s.status = REQUESTED
      · rw [if_pos hreq]
        by_cases hrc : env.requireConfirmation s.user_id = true
        · rw [if_pos hrc]
          dsimp only
          rw [markSessionAsConnected_find?_ne _ hne, Store.find?_update_ne]
          · intro x; rfl
          · exact hne
        · rw [if_neg hrc]
          dsimp only
          rw [markSessionAsConfirmed_find?_ne _ hne, markSessionAsConnected_find?_ne _ hne,
              Store.find?_update_ne]
          · intro x; rfl
          · exact hne
      · rw [if_neg hreq]
        by_cases hcon : s.status = CONNECTED
        · rw [if_pos hcon]
          by_cases hrc : env.requireConfirmation s.user_id = true
          · rw [if_pos hrc]
            cases s.connected_at with
            | none =>
              dsimp only
              rw [Store.find?_update_ne]
              · intro x; rfl
              · exact hne
            | some t =>
              dsimp only
              by_cases htm : now - t > env.confirmationTimeoutSeconds
              · rw [if_pos htm]
                dsimp only
                rw [disconnectVpnSession_find?_ne hne, Store.find?_update_ne]
                · intro x; rfl
                · exact hne
              · rw [if_neg htm]
                dsimp only
                rw [Store.find?_update_ne]
                · intro x; rfl
                · exact hne
          · rw [if_neg hrc]
            rw [markSessionAsConfirmed_find?_ne _ hne, Store.find?_update_ne]
            · intro x; rfl
            · exact hne
        · rw [if_neg hcon]
          dsimp only
          rw [Store.find?_update_ne]
          · intro x; rfl
          · exact hne
    · rw [if_neg hact]
      by_cases hst : s.status = CONNECTED ∨ s.status = CONFIRMED
          ∨ s.status = ACTIVE ∨ s.status = REMINDER_SENT
      · rw [if_pos hst]
        cases hls : s.last_seen_at <|> s.connected_at with
        | none =>
          dsimp only
          rw [disconnectVpnSession_find?_ne hne]
        | some t =>
          dsimp only
          by_cases hgr : now - t < env.graceSeconds
          · rw [if_pos hgr]
          · rw [if_neg hgr]
            dsimp only
            rw [disconnectVpnSession_find?_ne hne]
      · rw [if_neg hst]

theorem processLoop_map_id (l : List Nat) :
    ∀ (st : Store) (effs : List Effect),
      ((processLoop env facts now l st effs).1).map (fun x => x.id)
        = st.map (fun x => x.id) := by
  induction l with
  | nil => intro st effs; rfl
  | cons a t ih =>
    intro st effs
    show ((processLoop env facts now t _ _).1).map _ = _
    rw [ih, processSession_map_id]

theorem processLoop_find?_ne (l : List Nat) :
    ∀ (st : Store) (effs : List Effect), i ∉ l →
      ((processLoop env facts now l st effs).1).find? i = st.find? i := by
  induction l with
  | nil => intro st effs _; rfl
  | cons a t ih =>
    intro st effs hni
    have hia : i ≠ a := fun h => hni (h ▸ List.mem_cons_self a t)
    have hit : i ∉ t := fun h => hni (List.mem_cons_of_mem a h)
    show ((processLoop env facts now t _ _).1).find? i = _
    rw [ih _ _ hit, processSession_find?_ne hia]

theorem processLoop_effs (l : List Nat) :
    ∀ (st : Store) (effs : List Effect),
      processLoop env facts now l st effs
        = ((processLoop env facts now l st []).1,
           effs ++ (processLoop env facts now l st []).2) := by
  induction l with
  | nil => intro st effs; simp [processLoop]
  | cons a t ih =>
    intro st effs
    show processLoop env facts now t _ _ = _
    rw [ih ((processSession env facts now st a).1)
        (effs ++ (processSession env facts now st a).2)]
    conv_rhs =>
      rw [show processLoop env facts now (a :: t) st []
            = processLoop env facts now t (processSession env facts now st a).1
                ([] ++ (processSession env facts now st a).2) from rfl]
    rw [ih ((processSession env facts now st a).1)
        ([] ++ (processSession env facts now st a).2)]
    simp

theorem processLoop_append (l1 l2 : List Nat) (st : Store) (effs : List Effect) :
    processLoop env facts now (l1 ++ l2) st effs
      = processLoop env facts now l2 (processLoop env facts now l1 st effs).1
          (processLoop env facts now l1 st effs).2 := by
  unfold processLoop
  rw [List.foldl_append]

end LoopLocality

/-! ## The anti-flap resurrection phase -/

section ResurrectLemmas

variable {env : Env} {facts : List ObservedFact} {now : Int} {st : Store}
variable {tr : List Nat} {u : String} {i j : Nat} {s : VPNSession}

theorem foldl_latest_mem {l : List VPNSession} {acc : Option VPNSession} {x : VPNSession}
    (h : l.foldl
      (fun acc s =>
        match acc with
        | none => some s
        | some a => if s.created_at > a.created_at then some s else acc)
      acc = some x) :
    acc = some x ∨ x ∈ l := by
  induction l generalizing acc with
  | nil => exact Or.inl h
  | cons a t ih =>
    rcases ih h with hstep | hmem
    · cases acc with
      | none =>
        simp only [Option.some.injEq] at hstep
        exact Or.inr (hstep ▸ List.mem_cons_self a t)
      | some b =>
        dsimp only at hstep
        by_cases hgt : a.created_at > b.created_at
        · rw [if_pos hgt] at hstep
          simp only [Option.some.injEq] at hstep
          exact Or.inr (hstep ▸ List.mem_cons_self a t)
        · rw [if_neg hgt] at hstep
          exact Or.inl hstep
    · exact Or.inr (List.mem_cons_of_mem a hmem)

theorem latestByCreated_mem {L : VPNSession} (h : latestByCreated st u = some L) :
    L ∈ st ∧ L.mikrotik_username = u := by
  unfold latestByCreated at h
  rcases foldl_latest_mem h with hc | hmem
  · cases hc
  · have := List.mem_filter.mp hmem
    exact ⟨this.1, by simpa using this.2⟩

/-- A session whose current row is not `DISCONNECTED` is untouched by one
resurrection step. -/
theorem resurrectOne_find?_of_status_ne (facts : List ObservedFact)
    (now : Int) (tr : List Nat) (u : String) (hnd : (st.map (fun x => x.id)).Nodup)
    (hfj : st.find? j = some s) (hs : s.status ≠ VPNSessionStatus.DISCONNECTED) :
    ((resurrectOne facts now (st, tr) u).1).find? j = some s := by
  unfold resurrectOne
  dsimp only
  split
  · exact hfj
  · cases hlat : latestByCreated st u with
    | none => exact hfj
    | some L =>
      dsimp only
      obtain ⟨hLmem, hLuser⟩ := latestByCreated_mem hlat
      by_cases hstale : now - L.created_at > 86400
      · rw [if_pos hstale]; exact hfj
      · rw [if_neg hstale]
        by_cases hdisc : L.status = VPNSessionStatus.DISCONNECTED
        · rw [if_pos hdisc]
          dsimp only
          have hne : j ≠ L.id := by
            intro hji
            have hsj := Store.find?_eq_some hfj
            have : s = L := Store.eq_of_mem_of_id_eq hnd hsj.1 hLmem (hsj.2.trans hji)
            exact hs (this ▸ hdisc)
          rw [Store.find?_update_ne]
          · exact hfj
          · intro x; rfl
          · exact hne
        · rw [if_neg hdisc]; exact hfj

/-- A session whose device identity is not the resurrected username is
untouched by one resurrection step. -/
theorem resurrectOne_find?_of_username_ne (facts : List ObservedFact)
    (now : Int) (tr : List Nat) (u : String) (hnd : (st.map (fun x => x.id)).Nodup)
    (hfj : st.find? j = some s) (hu : s.mikrotik_username ≠ u) :
    ((resurrectOne facts now (st, tr) u).1).find? j = some s := by
  unfold resurrectOne
  dsimp only
  split
  · exact hfj
  · cases hlat : latestByCreated st u with
    | none => exact hfj
    | some L =>
      dsimp only
      obtain ⟨hLmem, hLuser⟩ := latestByCreated_mem hlat
      by_cases hstale : now - L.created_at > 86400
      · rw [if_pos hstale]; exact hfj
      · rw [if_neg hstale]
        by_cases hdisc : L.status = VPNSessionStatus.DISCONNECTED
        · rw [if_pos hdisc]
          dsimp only
          have hne : j ≠ L.id := by
            intro hji
            have hsj := Store.find?_eq_some hfj
            have : s = L := Store.eq_of_mem_of_id_eq hnd hsj.1 hLmem (hsj.2.trans hji)
            exact hu (by rw [this, hLuser])
          rw [Store.find?_update_ne]
          · exact hfj
          · intro x; rfl
          · exact hne
        · rw [if_neg hdisc]; exact hfj

theorem resurrectOne_map_id (facts : List ObservedFact) (now : Int)
    (st : Store) (tr : List Nat) (u : String) :
    ((resurrectOne facts now (st, tr) u).1).map (fun x => x.id)
      = st.map (fun x => x.id) := by
  unfold resurrectOne
  dsimp only
  split
  · rfl
  · cases hlat : latestByCreated st u with
    | none => rfl
    | some L =>
      dsimp only
      by_cases hstale : now - L.created_at > 86400
      · rw [if_pos hstale]
      · rw [if_neg hstale]
        by_cases hdisc : L.status = VPNSessionStatus.DISCONNECTED
        · rw [if_pos hdisc]
          dsimp only
          rw [Store.update_map_id]
          intro x; rfl
        · rw [if_neg hdisc]

theorem resurrectOne_inv (facts : List ObservedFact) (now : Int)
    (u : String) (hnd : (st.map (fun x => x.id)).Nodup)
    (hinv : PhaseInv st tr) :
    PhaseInv (resurrectOne facts now (st, tr) u).1 (resurrectOne facts now (st, tr) u).2
      ∧ ∃ ext, (resurrectOne facts now (st, tr) u).2 = tr ++ ext := by
  unfold resurrectOne
  dsimp only
  split
  · exact ⟨hinv, [], by simp⟩
  · cases hlat : latestByCreated st u with
    | none => exact ⟨hinv, [], by simp⟩
    | some L =>
      dsimp only
      obtain ⟨hLmem, hLuser⟩ := latestByCreated_mem hlat
      by_cases hstale : now - L.created_at > 86400
      · rw [if_pos hstale]; exact ⟨hinv, [], by simp⟩
      · rw [if_neg hstale]
        by_cases hdisc : L.status = VPNSessionStatus.DISCONNECTED
        · rw [if_pos hdisc]
          dsimp only
          have hfL : st.find? L.id = some L := Store.find?_of_mem hnd hLmem
          have hLnotin : L.id ∉ tr := by
            intro hmem
            obtain ⟨x, hx, hxnt⟩ := hinv.2 L.id hmem
            rw [hfL] at hx
            cases hx
            rw [hdisc] at hxnt
            simp [VPNSessionStatus.isNonTerminal, nonTerminalStatuses] at hxnt
          refine ⟨⟨?_, ?_⟩, [L.id], rfl⟩
          · simp [List.nodup_append, hinv.1, hLnotin]
          · intro j hj
            rcases List.mem_append.mp hj with hjt | hjL
            · obtain ⟨x, hx, hxnt⟩ := hinv.2 j hjt
              have hne : j ≠ L.id := fun h => hLnotin (h ▸ hjt)
              refine ⟨x, ?_, hxnt⟩
              rw [Store.find?_update_ne]
              · exact hx
              · intro y; rfl
              · exact hne
            · have hj' : j = L.id := by simpa using hjL
              subst hj'
              refine ⟨{ L with
                  status := VPNSessionStatus.CONNECTED,
                  connected_at := some (L.connected_at.getD now),
                  mikrotik_session_id := sidByUsername facts u <|> L.mikrotik_session_id,
                  last_seen_at := some now,
                  updated_at := now }, ?_, ?_⟩
              · rw [Store.find?_update_self]
                · rw [hfL]; rfl
                · intro y; rfl
              · simp [VPNSessionStatus.isNonTerminal, nonTerminalStatuses]
        · rw [if_neg hdisc]; exact ⟨hinv, [], by simp⟩

theorem resurrectFold_inv (facts : List ObservedFact) (now : Int)
    (us : List String) :
    ∀ (st : Store) (tr : List Nat),
      (st.map (fun x => x.id)).Nodup → PhaseInv st tr →
      ((us.foldl (resurrectOne facts now) (st, tr)).1.map (fun x => x.id)
          = st.map (fun x => x.id))
        ∧ PhaseInv (us.foldl (resurrectOne facts now) (st, tr)).1
            (us.foldl (resurrectOne facts now) (st, tr)).2
        ∧ ∃ ext, (us.foldl (resurrectOne facts now) (st, tr)).2 = tr ++ ext := by
  induction us with
  | nil => intro st tr hnd hinv; exact ⟨rfl, hinv, [], by simp⟩
  | cons u t ih =>
    intro st tr hnd hinv
    have h1 := resurrectOne_inv facts now u hnd hinv
    have hmap := resurrectOne_map_id facts now st tr u
    have hnd' : (((resurrectOne facts now (st, tr) u).1).map (fun x => x.id)).Nodup := by
      rw [hmap]; exact hnd
    have hrec := ih (resurrectOne facts now (st, tr) u).1
      (resurrectOne facts now (st, tr) u).2 hnd' h1.1
    have hunfold : List.foldl (resurrectOne facts now) (st, tr) (u :: t)
        = List.foldl (resurrectOne facts now)
            ((resurrectOne facts now (st, tr) u).1,
             (resurrectOne facts now (st, tr) u).2) t := rfl
    refine ⟨?_, ?_, ?_⟩
    · rw [hunfold, hrec.1, hmap]
    · rw [hunfold]
      exact hrec.2.1
    · obtain ⟨e1, he1⟩ := h1.2
      obtain ⟨e2, he2⟩ := hrec.2.2
      refine ⟨e1 ++ e2, ?_⟩
      rw [hunfold, he2, he1, List.append_assoc]

theorem resurrectFold_find?_of_status_ne (facts : List ObservedFact)
    (now : Int) (us : List String) :
    ∀ (st : Store) (tr : List Nat),
      (st.map (fun x => x.id)).Nodup →
      st.find? j = some s → s.status ≠ VPNSessionStatus.DISCONNECTED →
      ((us.foldl (resurrectOne facts now) (st, tr)).1).find? j = some s := by
  induction us with
  | nil => intro st tr _ hfj _; exact hfj
  | cons u t ih =>
    intro st tr hnd hfj hs
    have hstep := resurrectOne_find?_of_status_ne facts now tr u hnd hfj hs
    have hmap := resurrectOne_map_id facts now st tr u
    have hnd' : (((resurrectOne facts now (st, tr) u).1).map (fun x => x.id)).Nodup := by
      rw [hmap]; exact hnd
    show ((List.foldl _ (resurrectOne facts now (st, tr) u) t).1).find? j = some s
    rw [show List.foldl (resurrectOne facts now) (resurrectOne facts now (st, tr) u) t
          = List.foldl (resurrectOne facts now)
            ((resurrectOne facts now (st, tr) u).1,
             (resurrectOne facts now (st, tr) u).2) t from rfl]
    exact ih _ _ hnd' hstep hs

theorem resurrectFold_find?_of_username_notin (us : List String) :
    ∀ (st : Store) (tr : List Nat),
      (st.map (fun x => x.id)).Nodup →
      st.find? j = some s → s.mikrotik_username ∉ us →
      ((us.foldl (resurrectOne facts now) (st, tr)).1).find? j = some s := by
  induction us with
  | nil => intro st tr _ hfj _; exact hfj
  | cons u t ih =>
    intro st tr hnd hfj hnin
    have hne : s.mikrotik_username ≠ u := fun h => hnin (h ▸ List.mem_cons_self u t)
    have hnin' : s.mikrotik_username ∉ t := fun h => hnin (List.mem_cons_of_mem u h)
    have hstep := resurrectOne_find?_of_username_ne facts now tr u hnd hfj hne
    have hmap := resurrectOne_map_id facts now st tr u
    have hnd' : (((resurrectOne facts now (st, tr) u).1).map (fun x => x.id)).Nodup := by
      rw [hmap]; exact hnd
    show ((List.foldl _ (resurrectOne facts now (st, tr) u) t).1).find? j = some s
    rw [show List.foldl (resurrectOne facts now) (resurrectOne facts now (st, tr) u) t
          = List.foldl (resurrectOne facts now)
            ((resurrectOne facts now (st, tr) u).1,
             (resurrectOne facts now (st, tr) u).2) t from rfl]
    exact ih _ _ hnd' hstep hnin'

end ResurrectLemmas

/-! ## Deduplication lemmas -/

section DedupLemmas

theorem dedupFirstAux_mem (fuel : Nat) :
    ∀ (l : List String) (x : String), l.length ≤ fuel →
      (x ∈ dedupFirstAux fuel l ↔ x ∈ l) := by
  induction fuel with
  | zero =>
    intro l x hl
    have : l = [] := List.eq_nil_of_length_eq_zero (Nat.le_zero.mp hl)
    subst this
    rfl
  | succ n ih =>
    intro l x hl
    cases l with
    | nil => rfl
    | cons y ys =>
      show x ∈ y :: dedupFirstAux n (ys.filter (fun z => z ≠ y)) ↔ _
      have hlen : (ys.filter (fun z => z ≠ y)).length ≤ n :=
        le_trans (List.length_filter_le _ _) (Nat.lt_succ_iff.mp hl)
      rw [List.mem_cons, ih _ x hlen, List.mem_filter, List.mem_cons]
      constructor
      · rintro (h | ⟨h, _⟩)
        · exact Or.inl h
        · exact Or.inr h
      · rintro (h | h)
        · exact Or.inl h
        · by_cases hxy : x = y
          · exact Or.inl hxy
          · exact Or.inr ⟨h, by simpa using hxy⟩

theorem dedupFirst_mem {l : List String} {x : String} :
    x ∈ dedupFirst l ↔ x ∈ l :=
  dedupFirstAux_mem l.length l x le_rfl

theorem dedupFirstAux_nodup (fuel : Nat) :
    ∀ l : List String, l.length ≤ fuel → (dedupFirstAux fuel l).Nodup := by
  induction fuel with
  | zero => intro l _; cases l <;> exact List.nodup_nil
  | succ n ih =>
    intro l hl
    cases l with
    | nil => exact List.nodup_nil
    | cons y ys =>
      show (y :: dedupFirstAux n (ys.filter (fun z => z ≠ y))).Nodup
      have hlen : (ys.filter (fun z => z ≠ y)).length ≤ n :=
        le_trans (List.length_filter_le _ _) (Nat.lt_succ_iff.mp hl)
      rw [List.nodup_cons]
      refine ⟨?_, ih _ hlen⟩
      intro hmem
      have := (dedupFirstAux_mem n _ y hlen).mp hmem
      have := (List.mem_filter.mp this).2
      simp at this

theorem dedupFirst_nodup (l : List String) : (dedupFirst l).Nodup :=
  dedupFirstAux_nodup l.length l le_rfl

end DedupLemmas

/-! ## What the loop body does to its own session, in the branches the
claims are about -/

section BranchSpecs

variable {env : Env} {facts : List ObservedFact} {now : Int} {st : Store}
variable {i : Nat} {s : VPNSession} {t : Int}

/-- The not-reported-active branch: a grant in one of the four
device-connected states is left fully untouched while the grace window has
not elapsed, and is disconnected (with the disconnect side effects and a
notification) once it has. -/
theorem processSession_inactive_spec (env : Env) (now : Int) (hf : st.find? i = some s)
    (hact : s.mikrotik_username ∉ activeUsernames facts)
    (hst : s.status = VPNSessionStatus.CONNECTED ∨ s.status = VPNSessionStatus.CONFIRMED
      ∨ s.status = VPNSessionStatus.ACTIVE ∨ s.status = VPNSessionStatus.REMINDER_SENT)
    (hls : (s.last_seen_at <|> s.connected_at) = some t) :
    (now - t < env.graceSeconds → processSession env facts now st i = (st, []))
    ∧ (¬ now - t < env.graceSeconds →
        (processSession env facts now st i).1.find? i
          = some { s with status := VPNSessionStatus.DISCONNECTED, updated_at := now }
        ∧ (processSession env facts now st i).2
          = (match s.firewall_rule_id with
             | some r => [Effect.disableRule r]
             | none => [])
            ++ [Effect.terminateSessions s.mikrotik_username,
                Effect.disableUser s.mikrotik_username,
                Effect.notifyDisconnected i]) := by
  unfold processSession
  rw [hf]
  dsimp only
  rw [if_neg hact, if_pos hst, hls]
  dsimp only
  have hd := disconnectVpnSession_spec now hf
  constructor
  · intro hgr
    rw [if_pos hgr]
  · intro hgr
    rw [if_neg hgr]
    dsimp only
    refine ⟨hd.1, ?_⟩
    rw [hd.2]
    simp

/-- The reported-active, `CONNECTED`, confirmation-required branch with the
confirmation timeout elapsed: the grant is disconnected (after its
`last_seen_at` refresh), with the disconnect side effects and a
notification. -/
theorem processSession_timeout_spec (env : Env) (hf : st.find? i = some s)
    (hact : s.mikrotik_username ∈ activeUsernames facts)
    (hcon : s.status = VPNSessionStatus.CONNECTED)
    (hrc : env.requireConfirmation s.user_id = true)
    (hct : s.connected_at = some t)
    (htm : now - t > env.confirmationTimeoutSeconds) :
    (processSession env facts now st i).1.find? i
      = some { s with
               last_seen_at := some now,
               status := VPNSessionStatus.DISCONNECTED, updated_at := now }
    ∧ (processSession env facts now st i).2
      = (match s.firewall_rule_id with
         | some r => [Effect.disableRule r]
         | none => [])
        ++ [Effect.terminateSessions s.mikrotik_username,
            Effect.disableUser s.mikrotik_username,
            Effect.notifyDisconnected i] := by
  have hreq : ¬ s.status = VPNSessionStatus.REQUESTED := by
    rw [hcon]; intro h; cases h
  have hupd : (st.update i (fun x =>
      { x with last_seen_at := some now, updated_at := now })).find? i
      = some { s with last_seen_at := some now, updated_at := now } := by
    rw [Store.find?_update_self]
    · rw [hf]; rfl
    · intro x; rfl
  have hd := disconnectVpnSession_spec now hupd
  unfold processSession
  rw [hf]
  dsimp only
  rw [if_pos hact, if_neg hreq, if_pos hcon, if_pos hrc, hct]
  dsimp only
  rw [if_pos htm]
  dsimp only
  refine ⟨?_, ?_⟩
  · rw [hd.1]
    simp
    exact hct
  · rw [hd.2]
    simp

end BranchSpecs

/-! ## Assembling one full job run around a single tracked session -/

section JobAssembly

variable {env : Env} {facts : List ObservedFact} {now : Int} {st : Store}
variable {i : Nat} {s : VPNSession}

theorem isNonTerminal_ne_disconnected {s : VPNSession}
    (hnt : s.status.isNonTerminal = true) :
    s.status ≠ VPNSessionStatus.DISCONNECTED := by
  intro h
  rw [h] at hnt
  simp [VPNSessionStatus.isNonTerminal, nonTerminalStatuses] at hnt

/-- The initially-tracked list (ids of the non-terminal rows) satisfies the
phase invariant. -/
theorem phaseInv_initial (hnd : (st.map (fun x => x.id)).Nodup) :
    PhaseInv st ((st.filter (fun x => x.status.isNonTerminal)).map (fun x => x.id)) := by
  constructor
  · exact hnd.sublist ((List.filter_sublist st).map _)
  · intro j hj
    obtain ⟨x, hxf, hxid⟩ := List.mem_map.mp hj
    have hx := List.mem_filter.mp hxf
    exact ⟨x, hxid ▸ Store.find?_of_mem hnd hx.1, by simpa using hx.2⟩

/-- A full connection-check run neither creates nor deletes grant rows. -/
theorem checkVpnConnections_map_id (hnd : (st.map (fun x => x.id)).Nodup) :
    ((checkVpnConnections env st facts now).1).map (fun x => x.id)
      = st.map (fun x => x.id) := by
  unfold checkVpnConnections
  by_cases htr : (st.filter (fun x => x.status.isNonTerminal)).map (fun x => x.id) = []
  · rw [if_pos htr]
  · rw [if_neg htr]
    have hrfold := resurrectFold_inv facts now
      (dedupFirst (activeUsernames facts)) st
      ((st.filter (fun x => x.status.isNonTerminal)).map (fun x => x.id))
      hnd (phaseInv_initial hnd)
    show ((processLoop env facts now _ _ []).1).map _ = _
    rw [processLoop_map_id]
    exact hrfold.1

/-- A full `check_vpn_connections` run, seen from one tracked non-terminal
session `i`: there is an intermediate store, still holding `i`'s original
row, such that the final value of row `i` is whatever the loop body makes
of it there, and every effect the loop body issues for `i` appears in the
run's effect trace. -/
theorem checkVpnConnections_at (env : Env) (facts : List ObservedFact)
    (now : Int) (hnd : (st.map (fun x => x.id)).Nodup)
    (hf : st.find? i = some s)
    (hnt : s.status.isNonTerminal = true) :
    ∃ stMid : Store,
      stMid.find? i = some s
      ∧ (checkVpnConnections env st facts now).1.find? i
          = (processSession env facts now stMid i).1.find? i
      ∧ ∀ e ∈ (processSession env facts now stMid i).2,
          e ∈ (checkVpnConnections env st facts now).2 := by
  obtain ⟨hsmem, hsid⟩ := Store.find?_eq_some hf
  set tracked := (st.filter (fun x => x.status.isNonTerminal)).map (fun x => x.id) with htrdef
  have htrmem : i ∈ tracked := by
    rw [htrdef]
    exact List.mem_map.mpr ⟨s, List.mem_filter.mpr ⟨hsmem, by simpa using hnt⟩, hsid⟩
  have htrne : tracked ≠ [] := List.ne_nil_of_mem htrmem
  have hinv : PhaseInv st tracked := htrdef ▸ phaseInv_initial hnd
  have hrfold := resurrectFold_inv facts now
    (dedupFirst (activeUsernames facts)) st tracked hnd hinv
  have hphase : resurrectPhase facts now st tracked
      = (dedupFirst (activeUsernames facts)).foldl (resurrectOne facts now) (st, tracked) :=
    rfl
  set st1 := (resurrectPhase facts now st tracked).1 with hst1def
  set tr1 := (resurrectPhase facts now st tracked).2 with htr1def
  have hst1find : st1.find? i = some s := by
    rw [hst1def, hphase]
    exact resurrectFold_find?_of_status_ne _ _ _ st tracked hnd hf
      (isNonTerminal_ne_disconnected hnt)
  have htr1inv : PhaseInv st1 tr1 := by
    rw [hst1def, htr1def, hphase]
    exact hrfold.2.1
  have htr1mem : i ∈ tr1 := by
    obtain ⟨ext, hext⟩ := hrfold.2.2
    rw [htr1def, hphase, hext]
    exact List.mem_append_left _ htrmem
  obtain ⟨l1, l2, hsplit⟩ := List.append_of_mem htr1mem
  have hnodup := htr1inv.1
  rw [hsplit] at hnodup
  have hnl1 : i ∉ l1 := by
    intro hmem
    have hdisj := (List.nodup_append.mp hnodup).2.2
    exact hdisj hmem (List.mem_cons_self i l2)
  have hnl2 : i ∉ l2 := by
    have := (List.nodup_append.mp hnodup).2.1
    exact (List.nodup_cons.mp this).1
  have hjob : checkVpnConnections env st facts now
      = processLoop env facts now tr1 st1 [] := by
    unfold checkVpnConnections
    rw [if_neg htrne]
  set stMid := (processLoop env facts now l1 st1 []).1 with hmid
  set effsMid := (processLoop env facts now l1 st1 []).2 with heffsmid
  have hmidfind : stMid.find? i = some s := by
    rw [hmid]
    rw [processLoop_find?_ne l1 st1 [] hnl1]
    exact hst1find
  refine ⟨stMid, hmidfind, ?_, ?_⟩
  · rw [hjob, hsplit, processLoop_append]
    rw [← hmid, ← heffsmid]
    have hstep : processLoop env facts now (i :: l2) stMid effsMid
        = processLoop env facts now l2 (processSession env facts now stMid i).1
            (effsMid ++ (processSession env facts now stMid i).2) := rfl
    rw [hstep]
    exact processLoop_find?_ne l2 _ _ hnl2
  · intro e he
    rw [hjob, hsplit, processLoop_append, ← hmid, ← heffsmid]
    have hstep : processLoop env facts now (i :: l2) stMid effsMid
        = processLoop env facts now l2 (processSession env facts now stMid i).1
            (effsMid ++ (processSession env facts now stMid i).2) := rfl
    rw [hstep]
    rw [processLoop_effs l2]
    refine List.mem_append_left _ ?_
    exact List.mem_append_right _ he

end JobAssembly

/-! ## Tracking one username through the resurrection phase (claim C3) -/

section ResurrectUsername

variable {env : Env} {facts : List ObservedFact} {now : Int} {st stA : Store}
variable {trA : List Nat} {u v : String} {L : VPNSession}

theorem filter_update_eq {k : Nat} {f : VPNSession → VPNSession}
    {p : VPNSession → Bool}
    (h : ∀ x ∈ st, x.id = k → (p x = false ∧ p (f x) = false)) :
    (st.update k f).filter p = st.filter p := by
  induction st with
  | nil => rfl
  | cons a l ih =>
    have hrec := ih (fun x hx hid => h x (List.mem_cons_of_mem a hx) hid)
    show List.filter p ((if a.id = k then f a else a) :: Store.update l k f) = _
    by_cases hid : a.id = k
    · obtain ⟨h1, h2⟩ := h a (List.mem_cons_self a l) hid
      rw [if_pos hid, List.filter_cons, List.filter_cons, h1, h2]
      simpa using hrec
    · rw [if_neg hid, List.filter_cons, List.filter_cons]
      cases p a <;> simpa using hrec

/-- One resurrection step for a different username leaves the sublist of
rows carrying username `u` unchanged. -/
theorem resurrectOne_filter_username (facts : List ObservedFact)
    (now : Int) (trA : List Nat) (hnd : (stA.map (fun x => x.id)).Nodup)
    (hvu : v ≠ u) :
    ((resurrectOne facts now (stA, trA) v).1).filter (fun x => x.mikrotik_username = u)
      = stA.filter (fun x => x.mikrotik_username = u) := by
  unfold resurrectOne
  dsimp only
  split
  · rfl
  · cases hlat : latestByCreated stA v with
    | none => rfl
    | some M =>
      dsimp only
      obtain ⟨hMmem, hMuser⟩ := latestByCreated_mem hlat
      by_cases hstale : now - M.created_at > 86400
      · rw [if_pos hstale]
      · rw [if_neg hstale]
        by_cases hdisc : M.status = VPNSessionStatus.DISCONNECTED
        · rw [if_pos hdisc]
          dsimp only
          apply filter_update_eq
          intro x hx hid
          have hxM : x = M := Store.eq_of_mem_of_id_eq hnd hx hMmem hid
          subst hxM
          constructor <;> simp [hMuser, hvu]
        · rw [if_neg hdisc]

/-- One resurrection step for a different username preserves "every tracked
row carries a username other than `u`". -/
theorem resurrectOne_tracked_username (facts : List ObservedFact)
    (now : Int) (hnd : (stA.map (fun x => x.id)).Nodup)
    (hvu : v ≠ u) (hinv : PhaseInv stA trA)
    (htru : ∀ j ∈ trA, ∃ x : VPNSession,
      stA.find? j = some x ∧ x.mikrotik_username ≠ u) :
    ∀ j ∈ (resurrectOne facts now (stA, trA) v).2,
      ∃ x : VPNSession,
        ((resurrectOne facts now (stA, trA) v).1).find? j = some x
          ∧ x.mikrotik_username ≠ u := by
  unfold resurrectOne
  dsimp only
  split
  · exact htru
  · cases hlat : latestByCreated stA v with
    | none => exact htru
    | some M =>
      dsimp only
      obtain ⟨hMmem, hMuser⟩ := latestByCreated_mem hlat
      by_cases hstale : now - M.created_at > 86400
      · rw [if_pos hstale]; exact htru
      · rw [if_neg hstale]
        by_cases hdisc : M.status = VPNSessionStatus.DISCONNECTED
        · rw [if_pos hdisc]
          dsimp only
          intro j hj
          rcases List.mem_append.mp hj with hjt | hjM
          · obtain ⟨x, hx, hxu⟩ := htru j hjt
            have hne : j ≠ M.id := by
              intro hji
              obtain ⟨y, hy, hynt⟩ := hinv.2 j hjt
              rw [hy] at hx
              cases hx
              have : x = M := by
                have hxm := Store.find?_eq_some hy
                exact Store.eq_of_mem_of_id_eq hnd hxm.1 hMmem (hxm.2.trans hji)
              rw [this, hdisc] at hynt
              simp [VPNSessionStatus.isNonTerminal, nonTerminalStatuses] at hynt
            refine ⟨x, ?_, hxu⟩
            rw [Store.find?_update_ne]
            · exact hx
            · intro y; rfl
            · exact hne
          · have hj' : j = M.id := by simpa using hjM
            subst hj'
            have hfM : stA.find? M.id = some M := Store.find?_of_mem hnd hMmem
            refine ⟨{ M with
                status := VPNSessionStatus.CONNECTED,
                connected_at := some (M.connected_at.getD now),
                mikrotik_session_id := sidByUsername facts v <|> M.mikrotik_session_id,
                last_seen_at := some now,
                updated_at := now }, ?_, ?_⟩
            · rw [Store.find?_update_self]
              · rw [hfM]; rfl
              · intro y; rfl
            · show M.mikrotik_username ≠ u
              rw [hMuser]; exact hvu
        · rw [if_neg hdisc]; exact htru

/-- The resurrection step for `u` itself, when the most recent grant of `u`
is `DISCONNECTED` and fresh and no tracked row carries `u`: the grant is
promoted and its id appended to the tracked list. -/
theorem resurrectOne_at_username (facts : List ObservedFact)
    (now : Int) (hnd : (stA.map (fun x => x.id)).Nodup)
    (hlat : latestByCreated stA u = some L)
    (hdisc : L.status = VPNSessionStatus.DISCONNECTED)
    (hfresh : ¬ now - L.created_at > 86400)
    (htru : ∀ j ∈ trA, ∃ x : VPNSession,
      stA.find? j = some x ∧ x.mikrotik_username ≠ u) :
    ((resurrectOne facts now (stA, trA) u).1).find? L.id
        = some { L with
                 status := VPNSessionStatus.CONNECTED,
                 connected_at := some (L.connected_at.getD now),
                 mikrotik_session_id := sidByUsername facts u <|> L.mikrotik_session_id,
                 last_seen_at := some now,
                 updated_at := now }
      ∧ (resurrectOne facts now (stA, trA) u).2 = trA ++ [L.id] := by
  obtain ⟨hLmem, hLuser⟩ := latestByCreated_mem hlat
  have hfL : stA.find? L.id = some L := Store.find?_of_mem hnd hLmem
  have hany : (trA.any (fun i =>
      match stA.find? i with
      | some s => decide (s.mikrotik_username = u)
      | none => false)) = false := by
    rw [List.any_eq_false]
    intro j hj
    obtain ⟨x, hx, hxu⟩ := htru j hj
    rw [hx]
    simpa using hxu
  unfold resurrectOne
  dsimp only
  rw [if_neg (by rw [hany]; exact Bool.false_ne_true), hlat]
  dsimp only
  rw [if_neg hfresh, if_pos hdisc]
  dsimp only
  constructor
  · rw [Store.find?_update_self]
    · rw [hfL]; rfl
    · intro y; rfl
  · rfl

/-- The resurrection step for `u` when the most recent grant of `u` is too
old (or the state otherwise forbids promotion): no change. -/
theorem resurrectOne_at_username_stale (facts : List ObservedFact)
    (now : Int) (trA : List Nat) (hlat : latestByCreated stA u = some L)
    (hstale : now - L.created_at > 86400) :
    resurrectOne facts now (stA, trA) u = (stA, trA) := by
  unfold resurrectOne
  dsimp only
  split
  · rfl
  · rw [hlat]
    dsimp only
    rw [if_pos hstale]

/-- Folding resurrection steps for usernames other than `u` preserves the
`u`-rows, the phase invariant, and the fact that no tracked row carries
`u`. -/
theorem resurrectFold_username (facts : List ObservedFact) (now : Int)
    (us : List String) :
    ∀ (stA : Store) (trA : List Nat), u ∉ us →
      (stA.map (fun x => x.id)).Nodup → PhaseInv stA trA →
      (∀ j ∈ trA, ∃ x : VPNSession,
        stA.find? j = some x ∧ x.mikrotik_username ≠ u) →
      ((us.foldl (resurrectOne facts now) (stA, trA)).1).filter
          (fun x => x.mikrotik_username = u)
        = stA.filter (fun x => x.mikrotik_username = u)
      ∧ (∀ j ∈ (us.foldl (resurrectOne facts now) (stA, trA)).2,
          ∃ x : VPNSession,
            ((us.foldl (resurrectOne facts now) (stA, trA)).1).find? j = some x
              ∧ x.mikrotik_username ≠ u) := by
  induction us with
  | nil => intro stA trA _ _ _ htru; exact ⟨rfl, htru⟩
  | cons v t ih =>
    intro stA trA hnin hnd hinv htru
    have hvu : v ≠ u := fun h => hnin (h ▸ List.mem_cons_self v t)
    have hnint : u ∉ t := fun h => hnin (List.mem_cons_of_mem v h)
    have hfilt := resurrectOne_filter_username facts now trA hnd hvu
    have htru' := resurrectOne_tracked_username facts now hnd hvu hinv htru
    have hstep := resurrectOne_inv facts now v hnd hinv
    have hmap := resurrectOne_map_id facts now stA trA v
    have hnd' : (((resurrectOne facts now (stA, trA) v).1).map (fun x => x.id)).Nodup := by
      rw [hmap]; exact hnd
    have hrec := ih (resurrectOne facts now (stA, trA) v).1
      (resurrectOne facts now (stA, trA) v).2 hnint hnd' hstep.1 htru'
    have hunfold : List.foldl (resurrectOne facts now) (stA, trA) (v :: t)
        = List.foldl (resurrectOne facts now)
            ((resurrectOne facts now (stA, trA) v).1,
             (resurrectOne facts now (stA, trA) v).2) t := rfl
    constructor
    · rw [hunfold, hrec.1, hfilt]
    · rw [hunfold]
      exact hrec.2

end ResurrectUsername

/-! ## Parser lemmas: text primitives -/

section TextLemmas

variable {c : Char} {l a b r rest : List Char}

theorem keyChar_ne (h : isKeyChar c = true) {d : Char}
    (hd : isKeyChar d = false) : c ≠ d :=
  fun he => by rw [he, hd] at h; cases h

theorem keyChar_not_space (h : isKeyChar c = true) : isSpaceChar c = false := by
  by_contra hs
  have hs' : isSpaceChar c = true := by
    cases hy : isSpaceChar c
    · exact absurd hy hs
    · rfl
  simp only [isSpaceChar, decide_eq_true_eq] at hs'
  rcases hs' with h1 | h1 | h1 | h1 | h1 | h1 <;> subst h1 <;>
    exact absurd h (by decide)

theorem digit_not_space (h : c.isDigit = true) : isSpaceChar c = false := by
  by_contra hs
  have hs' : isSpaceChar c = true := by
    cases hy : isSpaceChar c
    · exact absurd hy hs
    · rfl
  simp only [isSpaceChar, decide_eq_true_eq] at hs'
  rcases hs' with h1 | h1 | h1 | h1 | h1 | h1 <;> subst h1 <;>
    exact absurd h (by decide)

theorem digit_ne (h : c.isDigit = true) {d : Char} (hd : d.isDigit = false) :
    c ≠ d :=
  fun he => by rw [he, hd] at h; cases h

theorem trimChars_nil : trimChars [] = [] := rfl

theorem trimChars_cons_space (h : isSpaceChar c = true) :
    trimChars (c :: l) = trimChars l := by
  unfold trimChars
  rw [List.dropWhile_cons, if_pos h]

theorem trimChars_eq_self
    (h1 : ∀ c, l.head? = some c → isSpaceChar c = false)
    (h2 : ∀ c, l.getLast? = some c → isSpaceChar c = false) :
    trimChars l = l := by
  cases l with
  | nil => rfl
  | cons a t =>
    have ha := h1 a rfl
    unfold trimChars
    rw [List.dropWhile_cons, if_neg (by simp [ha])]
    cases hrev : (a :: t).reverse with
    | nil => exact absurd hrev (by simp)
    | cons b rb =>
      have hb : (a :: t).getLast? = some b := by
        rw [← List.head?_reverse, hrev]
        rfl
      rw [List.dropWhile_cons, if_neg (by simp [h2 b hb])]
      rw [← hrev, List.reverse_reverse]

theorem trimChars_append_space :
    ∀ l : List Char, trimChars (l ++ [' ']) = trimChars l := by
  intro l
  induction l with
  | nil => decide
  | cons a t ih =>
    by_cases ha : isSpaceChar a = true
    · rw [show (a :: t) ++ [' '] = a :: (t ++ [' ']) from rfl,
          trimChars_cons_space ha, trimChars_cons_space ha, ih]
    · unfold trimChars
      rw [show (a :: t) ++ [' '] = a :: (t ++ [' ']) from rfl]
      rw [List.dropWhile_cons, List.dropWhile_cons, if_neg ha, if_neg ha]
      congr 1
      rw [List.reverse_cons, List.reverse_cons, List.reverse_append]
      show List.dropWhile _ ((' ' :: t.reverse) ++ [a]) = _
      rw [show (' ' :: t.reverse) ++ [a] = ' ' :: (t.reverse ++ [a]) from rfl]
      rw [List.dropWhile_cons, if_pos (by decide)]

theorem takeWhile_append_all {p : Char → Bool}
    (ha : ∀ c ∈ a, p c = true) (hb : ∀ c, b.head? = some c → p c = false) :
    (a ++ b).takeWhile p = a ∧ (a ++ b).dropWhile p = b := by
  induction a with
  | nil =>
    simp only [List.nil_append]
    cases b with
    | nil => exact ⟨rfl, rfl⟩
    | cons c bs =>
      have := hb c rfl
      rw [List.takeWhile_cons, List.dropWhile_cons]
      rw [if_neg (by simp [this]), if_neg (by simp [this])]
      exact ⟨rfl, rfl⟩
  | cons x xs ih =>
    have hx := ha x (List.mem_cons_self x xs)
    have ih' := ih (fun c hc => ha c (List.mem_cons_of_mem x hc))
    show ((x :: (xs ++ b)).takeWhile p = _) ∧ ((x :: (xs ++ b)).dropWhile p = _)
    rw [List.takeWhile_cons, List.dropWhile_cons, if_pos hx, if_pos hx]
    exact ⟨by rw [ih'.1], ih'.2⟩

theorem startsWithChars_cons_ne {p : Char} {ps cs : List Char} (h : p ≠ c) :
    startsWithChars (p :: ps) (c :: cs) = false := by
  simp [startsWithChars, fun hc => h hc]

theorem splitTriple_none (h : ∀ c ∈ l, c ≠ ';') : splitTriple l = none := by
  induction l with
  | nil => rfl
  | cons c rest ih =>
    have hc := h c (List.mem_cons_self c rest)
    have ih' := ih (fun x hx => h x (List.mem_cons_of_mem c hx))
    unfold splitTriple
    rw [if_neg hc, ih']

theorem splitTriple_append (h : ∀ c ∈ a, c ≠ ';') :
    splitTriple (a ++ ';' :: ';' :: ';' :: r) = some (a, r) := by
  induction a with
  | nil => rfl
  | cons c a' ih =>
    have hc := h c (List.mem_cons_self c a')
    have ih' := ih (fun x hx => h x (List.mem_cons_of_mem c hx))
    show splitTriple (c :: (a' ++ ';' :: ';' :: ';' :: r)) = _
    unfold splitTriple
    rw [if_neg hc, ih']

theorem splitLinesAux_cons_newline (rest acc : List Char) :
    splitLinesAux ('\n' :: rest) acc = acc.reverse :: splitLinesAux rest [] := by
  rw [splitLinesAux.eq_def]
  split
  · next heq => simp at heq
  · next heq =>
    cases heq
    rw [if_neg (by decide), if_pos rfl]

theorem splitLinesAux_cons_other {c : Char} (h1 : c ≠ '\r') (h2 : c ≠ '\n')
    (l acc : List Char) :
    splitLinesAux (c :: l) acc = splitLinesAux l (c :: acc) := by
  rw [splitLinesAux.eq_def]
  split
  · next heq => simp at heq
  · next heq =>
    cases heq
    rw [if_neg h1, if_neg h2]

theorem splitLinesAux_no_term (h : ∀ c ∈ l, c ≠ '\n' ∧ c ≠ '\r') :
    ∀ acc : List Char,
      splitLinesAux l acc
        = if (acc.reverse ++ l).isEmpty then [] else [acc.reverse ++ l] := by
  induction l with
  | nil =>
    intro acc
    rw [splitLinesAux.eq_def]
    cases acc <;> simp
  | cons c t ih =>
    intro acc
    have hc := h c (List.mem_cons_self c t)
    have ih' := ih (fun x hx => h x (List.mem_cons_of_mem c hx))
    rw [splitLinesAux_cons_other hc.2 hc.1, ih' (c :: acc)]
    have hl : (c :: acc).reverse ++ t = acc.reverse ++ c :: t := by simp
    rw [hl]

theorem splitLinesAux_newline (h : ∀ c ∈ l, c ≠ '\n' ∧ c ≠ '\r') :
    ∀ acc : List Char,
      splitLinesAux (l ++ '\n' :: rest) acc
        = (acc.reverse ++ l) :: splitLinesAux rest [] := by
  induction l with
  | nil =>
    intro acc
    rw [List.nil_append, splitLinesAux_cons_newline, List.append_nil]
  | cons c t ih =>
    intro acc
    have hc := h c (List.mem_cons_self c t)
    have ih' := ih (fun x hx => h x (List.mem_cons_of_mem c hx))
    rw [List.cons_append, splitLinesAux_cons_other hc.2 hc.1, ih' (c :: acc)]
    simp

end TextLemmas

/-! ## Parser lemmas: rendered pairs -/

section RenderLemmas

variable {c : Char} {p : RenderPair} {kvs : List RenderPair}

theorem not_space_ne (h : isSpaceChar c = false) {d : Char}
    (hd : isSpaceChar d = true) : c ≠ d :=
  fun he => by rw [he, hd] at h; cases h

theorem wfPair_parts (hp : wfPair p = true) :
    p.key ≠ [] ∧ (∀ c ∈ p.key, isKeyChar c = true)
      ∧ (p.key.headD ' ').isDigit = false
      ∧ (p.quoted = true →
          ∀ c ∈ p.val, c ≠ '"' ∧ c ≠ '\\' ∧ c ≠ '\n' ∧ c ≠ '\r' ∧ c ≠ ';')
      ∧ (p.quoted = false →
          p.val ≠ [] ∧ ∀ c ∈ p.val, isSpaceChar c = false ∧ c ≠ '"' ∧ c ≠ ';') := by
  cases hq : p.quoted <;>
    simp only [wfPair, hq, if_pos, if_neg, Bool.false_eq_true, not_false_iff,
      if_true, if_false, Bool.decide_and, Bool.and_eq_true, decide_eq_true_eq,
      List.all_eq_true, List.isEmpty_iff] at hp
  · exact ⟨hp.1, hp.2.1, by simpa using hp.2.2.1,
      fun hc => absurd hc (by simp),
      fun _ => ⟨hp.2.2.2.1, fun c hc => ⟨by simpa using (hp.2.2.2.2 c hc).1,
        (hp.2.2.2.2 c hc).2.1, (hp.2.2.2.2 c hc).2.2⟩⟩⟩
  · exact ⟨hp.1, hp.2.1, by simpa using hp.2.2.1,
      fun _ => hp.2.2.2, fun hc => absurd hc (by simp)⟩

theorem renderValue_ne_nil (hp : wfPair p = true) : renderValue p ≠ [] := by
  obtain ⟨-, -, -, -, hu⟩ := wfPair_parts hp
  unfold renderValue
  cases hq : p.quoted
  · simpa using (hu hq).1
  · simp

theorem renderPair_ne_nil (hp : wfPair p = true) : renderPair p ≠ [] := by
  obtain ⟨hk, -, -, -, -⟩ := wfPair_parts hp
  unfold renderPair
  cases hx : p.key with
  | nil => exact absurd hx hk
  | cons a t => simp

theorem renderPairs_ne_nil (hp : wfPair p = true) (ps : List RenderPair) :
    renderPairs (p :: ps) ≠ [] := by
  cases ps with
  | nil => exact renderPair_ne_nil hp
  | cons q qs =>
    show renderPair p ++ ' ' :: renderPairs (q :: qs) ≠ []
    cases hx : renderPair p with
    | nil => exact absurd hx (renderPair_ne_nil hp)
    | cons a t => simp

theorem renderValue_chars (hp : wfPair p = true) :
    ∀ c ∈ renderValue p, c ≠ '\n' ∧ c ≠ '\r' ∧ c ≠ ';' := by
  obtain ⟨-, -, -, hqv, hu⟩ := wfPair_parts hp
  intro c hc
  unfold renderValue at hc
  cases hq : p.quoted with
  | true =>
    rw [hq, if_pos rfl] at hc
    rcases List.mem_cons.1 hc with h1 | h1
    · subst h1; exact ⟨by decide, by decide, by decide⟩
    rcases List.mem_append.1 h1 with h2 | h2
    · obtain ⟨-, -, h3, h4, h5⟩ := hqv hq c h2
      exact ⟨h3, h4, h5⟩
    · rcases List.mem_singleton.1 h2 with rfl
      exact ⟨by decide, by decide, by decide⟩
  | false =>
    rw [hq, if_neg (by simp)] at hc
    obtain ⟨h1, -, h3⟩ := (hu hq).2 c hc
    exact ⟨not_space_ne h1 (by decide), not_space_ne h1 (by decide), h3⟩

theorem renderPair_chars (hp : wfPair p = true) :
    ∀ c ∈ renderPair p, c ≠ '\n' ∧ c ≠ '\r' ∧ c ≠ ';' := by
  obtain ⟨-, hkc, -, -, -⟩ := wfPair_parts hp
  intro c hc
  unfold renderPair at hc
  rcases List.mem_append.1 hc with h1 | h1
  · have hk := hkc c h1
    exact ⟨keyChar_ne hk (by decide), keyChar_ne hk (by decide),
      keyChar_ne hk (by decide)⟩
  rcases List.mem_cons.1 h1 with h2 | h2
  · subst h2; exact ⟨by decide, by decide, by decide⟩
  · exact renderValue_chars hp c h2

theorem renderPairs_chars (hwf : kvs.all wfPair = true) :
    ∀ c ∈ renderPairs kvs, c ≠ '\n' ∧ c ≠ '\r' ∧ c ≠ ';' := by
  induction kvs with
  | nil => intro c hc; exact absurd hc (by simp [renderPairs])
  | cons p ps ih =>
    have hp : wfPair p = true := (List.all_eq_true.1 hwf) p (List.mem_cons_self p ps)
    have hps : ps.all wfPair = true :=
      List.all_eq_true.2 fun x hx =>
        (List.all_eq_true.1 hwf) x (List.mem_cons_of_mem p hx)
    intro c hc
    cases ps with
    | nil => exact renderPair_chars hp c hc
    | cons q qs =>
      rcases List.mem_append.1 hc with h1 | h1
      · exact renderPair_chars hp c h1
      rcases List.mem_cons.1 h1 with h2 | h2
      · subst h2; exact ⟨by decide, by decide, by decide⟩
      · exact ih hps c h2

theorem renderPairs_head (hp : wfPair p = true) (ps : List RenderPair) :
    ∃ k0 kr, renderPairs (p :: ps) = k0 :: kr
      ∧ isKeyChar k0 = true ∧ k0.isDigit = false := by
  obtain ⟨hk, hkc, hkd, -, -⟩ := wfPair_parts hp
  cases hx : p.key with
  | nil => exact absurd hx hk
  | cons a t =>
    have ha : isKeyChar a = true := hkc a (by rw [hx]; exact List.mem_cons_self a t)
    have had : a.isDigit = false := by rw [hx] at hkd; exact hkd
    cases ps with
    | nil =>
      refine ⟨a, t ++ '=' :: renderValue p, ?_, ha, had⟩
      show renderPair p = _
      rw [renderPair, hx]
      simp
    | cons q qs =>
      refine ⟨a, (t ++ '=' :: renderValue p) ++ ' ' :: renderPairs (q :: qs), ?_, ha, had⟩
      show renderPair p ++ ' ' :: renderPairs (q :: qs) = _
      rw [renderPair, hx]
      simp

theorem getLast?_all {P : Char → Prop} {l : List Char} (h : ∀ c ∈ l, P c)
    (hl : l ≠ []) : ∃ c, l.getLast? = some c ∧ P c :=
  ⟨l.getLast hl, List.getLast?_eq_getLast l hl, h _ (List.getLast_mem hl)⟩

theorem renderValue_last (hp : wfPair p = true) :
    ∃ c, (renderValue p).getLast? = some c ∧ isSpaceChar c = false := by
  obtain ⟨-, -, -, -, hu⟩ := wfPair_parts hp
  unfold renderValue
  cases hq : p.quoted with
  | true =>
    rw [if_pos rfl]
    refine ⟨'"', ?_, by decide⟩
    show (('"' :: p.val) ++ ['"']).getLast? = _
    rw [List.getLast?_concat]
  | false =>
    rw [if_neg (by simp)]
    exact getLast?_all (fun c hc => ((hu hq).2 c hc).1) (hu hq).1

theorem renderPair_last (hp : wfPair p = true) :
    ∃ c, (renderPair p).getLast? = some c ∧ isSpaceChar c = false := by
  obtain ⟨c, hc, hcs⟩ := renderValue_last hp
  refine ⟨c, ?_, hcs⟩
  unfold renderPair
  rw [List.getLast?_append_of_ne_nil]
  · show ('=' :: renderValue p).getLast? = some c
    cases hx : renderValue p with
    | nil => exact absurd hx (renderValue_ne_nil hp)
    | cons a t =>
      rw [show ('=' :: a :: t).getLast? = (a :: t).getLast? from by
        rw [List.getLast?_cons_cons]]
      rw [← hx, hc]
  · simp

theorem renderPairs_last (hwf : kvs.all wfPair = true) (hl : kvs ≠ []) :
    ∃ c, (renderPairs kvs).getLast? = some c ∧ isSpaceChar c = false := by
  induction kvs with
  | nil => exact absurd rfl hl
  | cons p ps ih =>
    have hp : wfPair p = true := (List.all_eq_true.1 hwf) p (List.mem_cons_self p ps)
    have hps : ps.all wfPair = true :=
      List.all_eq_true.2 fun x hx =>
        (List.all_eq_true.1 hwf) x (List.mem_cons_of_mem p hx)
    cases ps with
    | nil => exact renderPair_last hp
    | cons q qs =>
      obtain ⟨c, hc, hcs⟩ := ih hps (by simp)
      refine ⟨c, ?_, hcs⟩
      show (renderPair p ++ ' ' :: renderPairs (q :: qs)).getLast? = some c
      rw [List.getLast?_append_of_ne_nil]
      · cases hx : renderPairs (q :: qs) with
        | nil =>
          exact absurd hx (renderPairs_ne_nil
            ((List.all_eq_true.1 hps) q (List.mem_cons_self q qs)) qs)
        | cons a t =>
          rw [show (' ' :: a :: t).getLast? = (a :: t).getLast? from by
            rw [List.getLast?_cons_cons]]
          rw [← hx, hc]
      · simp

end RenderLemmas

/-! ## Parser lemmas: the key-value regex scan -/

section KvLemmas

variable {c : Char} {v r rest t : List Char} {p : RenderPair} {kvs : List RenderPair}

theorem quotedBody_append (hv : ∀ c ∈ v, c ≠ '"' ∧ c ≠ '\\') :
    quotedBody (v ++ '"' :: r) = some (v, r) := by
  induction v with
  | nil =>
    show quotedBody ('"' :: r) = _
    unfold quotedBody
    rw [if_pos rfl]
  | cons c v' ih =>
    have hc := hv c (List.mem_cons_self c v')
    have ih' := ih (fun x hx => hv x (List.mem_cons_of_mem c hx))
    show quotedBody (c :: (v' ++ '"' :: r)) = _
    unfold quotedBody
    rw [if_neg hc.1, if_neg hc.2, ih']

theorem kvMatchAt_none_head (h : isKeyChar c = false) :
    kvMatchAt (c :: t) = none := by
  simp [kvMatchAt, List.takeWhile_cons, h]

theorem kvMatchAt_render (hp : wfPair p = true)
    (hrest : rest = [] ∨ ∃ t, rest = ' ' :: t) :
    kvMatchAt (renderPair p ++ rest) = some ((p.key, renderValue p), rest) := by
  obtain ⟨hk, hkc, -, hqv, hu⟩ := wfPair_parts hp
  have hrw : renderPair p ++ rest = p.key ++ '=' :: (renderValue p ++ rest) := by
    simp [renderPair]
  have hta : List.takeWhile isKeyChar (p.key ++ '=' :: (renderValue p ++ rest))
        = p.key
      ∧ List.dropWhile isKeyChar (p.key ++ '=' :: (renderValue p ++ rest))
        = '=' :: (renderValue p ++ rest) :=
    takeWhile_append_all hkc
      (fun c hc => by
        simp only [List.head?_cons, Option.some_inj] at hc
        subst hc
        decide)
  have hke : p.key.isEmpty = false := by simp [List.isEmpty_iff, hk]
  rw [hrw]
  cases hq : p.quoted with
  | true =>
    have hrv : renderValue p = '"' :: (p.val ++ ['"']) := by
      rw [renderValue, if_pos hq]
    have hqb : quotedBody (p.val ++ '"' :: rest) = some (p.val, rest) :=
      quotedBody_append (fun c hc =>
        ⟨((hqv hq) c hc).1, ((hqv hq) c hc).2.1⟩)
    rw [hrv] at hta ⊢
    simp only [List.cons_append, List.append_assoc, List.singleton_append,
      List.nil_append] at hta hqb ⊢
    simp [kvMatchAt, hta.1, hta.2, hke, hqb]
  | false =>
    have hrv : renderValue p = p.val := by
      rw [renderValue, if_neg (by simp [hq])]
    obtain ⟨hvne, hvc⟩ := hu hq
    have htok : List.takeWhile (fun c => !isSpaceChar c) (p.val ++ rest) = p.val
        ∧ List.dropWhile (fun c => !isSpaceChar c) (p.val ++ rest) = rest :=
      takeWhile_append_all
        (fun c hc => by simp [(hvc c hc).1])
        (fun c hc => by
          rcases hrest with h1 | ⟨u, h1⟩
          · rw [h1] at hc; cases hc
          · rw [h1] at hc
            simp only [List.head?_cons, Option.some_inj] at hc
            subst hc
            decide)
    cases hval : p.val with
    | nil => exact absurd hval hvne
    | cons v0 vt =>
      have hv0 : v0 ∈ p.val := by rw [hval]; exact List.mem_cons_self v0 vt
      have hv0q : v0 ≠ '"' := (hvc v0 hv0).2.1
      rw [hrv] at hta ⊢
      rw [hval] at hta htok ⊢
      have hdrop : List.drop (v0 :: vt).length (v0 :: (vt ++ rest)) = rest := by
        show List.drop (v0 :: vt).length ((v0 :: vt) ++ rest) = rest
        exact List.drop_left _ _
      simp only [List.cons_append, List.append_assoc, List.singleton_append,
        List.nil_append] at hta htok hdrop ⊢
      simp [kvMatchAt, hta.1, hta.2, hke, htok.1, hv0q, hdrop, (hvc v0 hv0).1]

theorem kvGo_nil (fuel : Nat) : kvGo fuel [] = [] := by
  cases fuel <;> rfl

theorem kvGo_succ_match {f : Nat} {kv : List Char × List Char} {rem : List Char}
    (h : kvMatchAt (c :: t) = some (kv, rem)) :
    kvGo (f + 1) (c :: t) = kv :: kvGo f rem := by
  rw [kvGo.eq_def]
  split
  · next heq _ => omega
  · next h1 h2 => simp at h1
  · next heqf heql =>
    cases heql
    have : f = _ := Nat.succ_injective heqf
    subst this
    rw [h]

theorem kvGo_succ_skip {f : Nat} (h : kvMatchAt (c :: t) = none) :
    kvGo (f + 1) (c :: t) = kvGo f t := by
  rw [kvGo.eq_def]
  split
  · next heq _ => omega
  · next h1 h2 => simp at h1
  · next heqf heql =>
    cases heql
    have : f = _ := Nat.succ_injective heqf
    subst this
    rw [h]

theorem kvGo_render :
    ∀ (kvs : List RenderPair) (fuel : Nat), kvs.all wfPair = true →
      2 * kvs.length ≤ fuel →
      kvGo fuel (renderPairs kvs) = kvs.map (fun p => (p.key, renderValue p)) := by
  intro kvs
  induction kvs with
  | nil => intro fuel _ _; exact kvGo_nil fuel
  | cons p ps ih =>
    intro fuel hwf hfuel
    have hp : wfPair p = true := (List.all_eq_true.1 hwf) p (List.mem_cons_self p ps)
    have hps : ps.all wfPair = true :=
      List.all_eq_true.2 fun x hx =>
        (List.all_eq_true.1 hwf) x (List.mem_cons_of_mem p hx)
    obtain ⟨f, rfl⟩ : ∃ f, fuel = f + 1 := by
      cases fuel with
      | zero => simp at hfuel
      | succ f => exact ⟨f, rfl⟩
    obtain ⟨k0, kr, hcons, -, -⟩ := renderPairs_head hp ps
    cases ps with
    | nil =>
      have hm : kvMatchAt (k0 :: kr) = some ((p.key, renderValue p), []) := by
        rw [← hcons]
        show kvMatchAt (renderPairs [p]) = _
        rw [show renderPairs [p] = renderPair p ++ [] from by simp [renderPairs]]
        exact kvMatchAt_render hp (Or.inl rfl)
      rw [hcons, kvGo_succ_match hm, kvGo_nil]
      rfl
    | cons q qs =>
      have hsplit : renderPairs (p :: q :: qs)
          = renderPair p ++ ' ' :: renderPairs (q :: qs) := rfl
      have hm : kvMatchAt (k0 :: kr)
          = some ((p.key, renderValue p), ' ' :: renderPairs (q :: qs)) := by
        rw [← hcons, hsplit]
        exact kvMatchAt_render hp (Or.inr ⟨_, rfl⟩)
      obtain ⟨f', rfl⟩ : ∃ f', f = f' + 1 := by
        simp [List.length] at hfuel
        cases f with
        | zero => omega
        | succ f' => exact ⟨f', rfl⟩
      rw [hcons, kvGo_succ_match hm,
        kvGo_succ_skip (kvMatchAt_none_head (by decide)),
        ih f' hps (by simp [List.length] at hfuel ⊢; omega)]
      rfl

theorem renderPairs_length (hwf : kvs.all wfPair = true) :
    2 * kvs.length ≤ (renderPairs kvs).length := by
  induction kvs with
  | nil => simp [renderPairs]
  | cons p ps ih =>
    have hp : wfPair p = true := (List.all_eq_true.1 hwf) p (List.mem_cons_self p ps)
    have hps : ps.all wfPair = true :=
      List.all_eq_true.2 fun x hx =>
        (List.all_eq_true.1 hwf) x (List.mem_cons_of_mem p hx)
    have hkey : 1 ≤ p.key.length :=
      List.length_pos.2 (wfPair_parts hp).1
    have hval : 1 ≤ (renderValue p).length :=
      List.length_pos.2 (renderValue_ne_nil hp)
    have hpair : 3 ≤ (renderPair p).length := by
      rw [renderPair, List.length_append, List.length_cons]
      omega
    cases ps with
    | nil =>
      show 2 * [p].length ≤ (renderPair p).length
      simp only [List.length_singleton]
      omega
    | cons q qs =>
      have ihq := ih hps
      show 2 * (p :: q :: qs).length
        ≤ (renderPair p ++ ' ' :: renderPairs (q :: qs)).length
      rw [List.length_append, List.length_cons]
      simp only [List.length_cons] at ihq ⊢
      omega

theorem dictContains_append_single {d : RecordDict} {k k' : List Char}
    {v : FieldVal} :
    dictContains (d ++ [(k, v)]) k' = (dictContains d k' || decide (k = k')) := by
  simp [dictContains, List.any_append]

theorem dictInsert_fresh {d : RecordDict} {k : List Char} {v : FieldVal}
    (h : dictContains d k = false) : dictInsert d k v = d ++ [(k, v)] := by
  rw [dictInsert, if_neg (by simp [h])]

theorem foldl_insert_transform :
    ∀ (kvl : List (List Char × List Char)) (d : RecordDict),
      (∀ e ∈ kvl, dictContains d e.1 = false) → (kvl.map Prod.fst).Nodup →
      kvl.foldl (fun d kv => dictInsert d kv.1 (FieldVal.str (unquoteValue kv.2))) d
        = d ++ kvl.map (fun kv => (kv.1, FieldVal.str (unquoteValue kv.2))) := by
  intro kvl
  induction kvl with
  | nil => intro d _ _; simp
  | cons e es ih =>
    intro d hfresh hnd
    have he : dictContains d e.1 = false := hfresh e (List.mem_cons_self e es)
    show es.foldl _ (dictInsert d e.1 (FieldVal.str (unquoteValue e.2))) = _
    rw [dictInsert_fresh he]
    rw [ih (d ++ [(e.1, FieldVal.str (unquoteValue e.2))])
      (fun x hx => by
        rw [dictContains_append_single]
        have h1 := hfresh x (List.mem_cons_of_mem e hx)
        have h2 : e.1 ≠ x.1 := by
          intro heq
          have := (List.nodup_cons.1 hnd).1
          exact this (heq ▸ List.mem_map_of_mem Prod.fst hx)
        simp [h1, h2])
      (List.nodup_cons.1 hnd).2]
    simp

theorem foldl_dictInsert_pairs :
    ∀ (pairs : List (List Char × FieldVal)) (d : RecordDict),
      (∀ e ∈ pairs, dictContains d e.1 = false) → (pairs.map Prod.fst).Nodup →
      pairs.foldl (fun d e => dictInsert d e.1 e.2) d = d ++ pairs := by
  intro pairs
  induction pairs with
  | nil => intro d _ _; simp
  | cons e es ih =>
    intro d hfresh hnd
    have he : dictContains d e.1 = false := hfresh e (List.mem_cons_self e es)
    show es.foldl _ (dictInsert d e.1 e.2) = _
    rw [dictInsert_fresh he]
    rw [ih (d ++ [(e.1, e.2)])
      (fun x hx => by
        rw [dictContains_append_single]
        have h1 := hfresh x (List.mem_cons_of_mem e hx)
        have h2 : e.1 ≠ x.1 := by
          intro heq
          have := (List.nodup_cons.1 hnd).1
          exact this (heq ▸ List.mem_map_of_mem Prod.fst hx)
        simp [h1, h2])
      (List.nodup_cons.1 hnd).2]
    simp

theorem unquote_renderValue (hp : wfPair p = true) :
    unquoteValue (renderValue p) = p.val := by
  obtain ⟨-, -, -, -, hu⟩ := wfPair_parts hp
  cases hq : p.quoted with
  | true =>
    have hrv : renderValue p = '"' :: (p.val ++ ['"']) := by
      rw [renderValue, if_pos hq]
    rw [hrv, unquoteValue]
    rw [if_pos]
    · show (p.val ++ ['"']).dropLast = p.val
      exact List.dropLast_concat
    · refine ⟨rfl, ?_, ?_⟩
      · show (('"' :: p.val) ++ ['"']).getLast? = some '"'
        rw [List.getLast?_concat]
      · simp [List.length_append]
  | false =>
    have hrv : renderValue p = p.val := by
      rw [renderValue, if_neg (by simp [hq])]
    obtain ⟨hvne, hvc⟩ := hu hq
    rw [hrv, unquoteValue, if_neg]
    intro hcond
    cases hval : p.val with
    | nil => exact absurd hval hvne
    | cons v0 vt =>
      have : v0 = '"' := by
        have := hcond.1
        rw [hval] at this
        exact this
      exact absurd this (hvc v0 (by rw [hval]; exact List.mem_cons_self v0 vt)).2.1

theorem parseKvPairs_render (hwf : kvs.all wfPair = true)
    (hnd : (kvs.map RenderPair.key).Nodup) :
    parseKvPairsFromLine (renderPairs kvs)
      = kvs.map (fun p => (p.key, FieldVal.str p.val)) := by
  show (kvFindAll (renderPairs kvs)).foldl _ [] = _
  rw [kvFindAll, kvGo_render kvs _ hwf (renderPairs_length hwf)]
  rw [foldl_insert_transform _ []
    (fun e _ => rfl)
    (by
      rw [List.map_map]
      exact hnd)]
  rw [List.nil_append, List.map_map]
  refine List.map_congr_left fun p hpmem => ?_
  have hp : wfPair p = true := (List.all_eq_true.1 hwf) p hpmem
  show (p.key, FieldVal.str (unquoteValue (renderValue p))) = _
  rw [unquote_renderValue hp]

end KvLemmas

/-! ## Parser lemmas: block-level facts -/

section BlockLemmas

variable {b : ShellRecordBlock} {c k : Char} {d : RecordDict}

theorem getLast?_cons_of_ne_nil {l : List Char} (c : Char) (h : l ≠ []) :
    (c :: l).getLast? = l.getLast? := by
  cases l with
  | nil => exact absurd rfl h
  | cons a t => exact List.getLast?_cons_cons

theorem dictGet?_append_fresh {k : List Char} {v : FieldVal}
    (h : dictContains d k = false) : dictGet? (d ++ [(k, v)]) k = some v := by
  induction d with
  | nil =>
    show dictGet? ((k, v) :: []) k = some v
    rw [dictGet?, List.find?_cons_of_pos _ (by simp)]
  | cons e es ih =>
    have h' := h
    rw [show dictContains (e :: es) k
      = (decide (e.1 = k) || dictContains es k) from rfl] at h'
    obtain ⟨ha, hes⟩ := Bool.or_eq_false_iff.1 h'
    have he : e.1 ≠ k := by simpa using ha
    show dictGet? (e :: (es ++ [(k, v)])) k = some v
    rw [dictGet?, List.find?_cons_of_neg _ (by simp [he])]
    rw [dictGet?] at ih
    exact ih hes

theorem map_keep_of_ne {k : List Char} {v : FieldVal} :
    ∀ (d : RecordDict), (∀ e ∈ d, e.1 ≠ k) →
      d.map (fun e => if e.1 = k then (k, v) else e) = d := by
  intro d
  induction d with
  | nil => intro _; rfl
  | cons e es ih =>
    intro h
    simp only [List.map_cons]
    rw [if_neg (h e (List.mem_cons_self e es)),
      ih (fun x hx => h x (List.mem_cons_of_mem e hx))]

theorem dictInsert_append_self {k : List Char} {v : FieldVal}
    (h : dictContains d k = false) :
    dictInsert (d ++ [(k, v)]) k v = d ++ [(k, v)] := by
  rw [dictInsert, if_pos (by rw [dictContains_append_single]; simp)]
  rw [List.map_append]
  have hne : ∀ e ∈ d, e.1 ≠ k := by
    simp only [dictContains, List.any_eq_false, decide_eq_true_eq] at h
    exact h
  rw [map_keep_of_ne d hne]
  simp

theorem wfBlock_parts (hb : wfBlock b = true) :
    b.idxDigits ≠ [] ∧ (∀ c ∈ b.idxDigits, c.isDigit = true)
      ∧ (b.kvs1 ++ b.kvs2).all wfPair = true
      ∧ ((b.kvs1 ++ b.kvs2).map RenderPair.key).Nodup
      ∧ (∀ p ∈ b.kvs1 ++ b.kvs2, p.key ≠ "number".toList
          ∧ p.key ≠ "comment".toList ∧ p.key ≠ "disabled".toList)
      ∧ b.comment ≠ []
      ∧ (∀ c ∈ b.comment, c ≠ '\n' ∧ c ≠ '\r' ∧ c ≠ ';')
      ∧ isSpaceChar (b.comment.headD 'x') = false
      ∧ isSpaceChar (b.comment.getLastD 'x') = false
      ∧ startsWithChars ("Flags:".toList) (renderPairs b.kvs2) = false := by
  simp only [wfBlock, Bool.and_eq_true, decide_eq_true_eq, List.all_eq_true,
    List.isEmpty_iff, Bool.not_eq_true] at hb
  obtain ⟨h1, h2, h3, h4, h5, h6, h7, h8, h9, h10⟩ := hb
  exact ⟨h1, h2, List.all_eq_true.2 h3, h4, h5, h6, h7, h8, h9, h10⟩

theorem comment_head_nonspace (hb : wfBlock b = true) :
    ∀ c, b.comment.head? = some c → isSpaceChar c = false := by
  obtain ⟨-, -, -, -, -, hcne, -, hh, -, -⟩ := wfBlock_parts hb
  intro c hc
  cases hx : b.comment with
  | nil => rw [hx] at hc; cases hc
  | cons a t =>
    rw [hx, List.head?_cons, Option.some_inj] at hc
    subst hc
    rw [hx] at hh
    exact hh

theorem comment_last_nonspace (hb : wfBlock b = true) :
    ∀ c, b.comment.getLast? = some c → isSpaceChar c = false := by
  obtain ⟨-, -, -, -, -, hcne, -, -, hl, -⟩ := wfBlock_parts hb
  intro c hc
  have : b.comment.getLastD 'x' = c := by
    rw [List.getLastD_eq_getLast?, hc]
    rfl
  rw [← this]
  exact hl

theorem trim_comment_space (hb : wfBlock b = true) :
    trimChars (' ' :: b.comment) = b.comment := by
  rw [trimChars_cons_space (by decide)]
  exact trimChars_eq_self (comment_head_nonspace hb) (comment_last_nonspace hb)

theorem coreLine_chars (hb : wfBlock b = true) :
    ∀ c ∈ b.idxDigits ++ ' ' :: 'X'
        :: (if b.kvs1.isEmpty then [] else ' ' :: renderPairs b.kvs1),
      c ≠ '\n' ∧ c ≠ '\r' ∧ c ≠ ';' := by
  obtain ⟨-, hdig, hwf, -, -, -, -, -, -, -⟩ := wfBlock_parts hb
  have hwf1 : b.kvs1.all wfPair = true :=
    List.all_eq_true.2 fun x hx =>
      (List.all_eq_true.1 hwf) x (List.mem_append_left _ hx)
  intro c hc
  rcases List.mem_append.1 hc with h1 | h1
  · have hd := hdig c h1
    exact ⟨digit_ne hd (by decide), digit_ne hd (by decide),
      digit_ne hd (by decide)⟩
  rcases List.mem_cons.1 h1 with h2 | h2
  · subst h2; exact ⟨by decide, by decide, by decide⟩
  rcases List.mem_cons.1 h2 with h3 | h3
  · subst h3; exact ⟨by decide, by decide, by decide⟩
  by_cases hk : b.kvs1.isEmpty
  · rw [if_pos hk] at h3; cases h3
  · rw [if_neg hk] at h3
    rcases List.mem_cons.1 h3 with h4 | h4
    · subst h4; exact ⟨by decide, by decide, by decide⟩
    · exact renderPairs_chars hwf1 c h4

theorem trim_coreLine (hb : wfBlock b = true) :
    trimChars (b.idxDigits ++ ' ' :: 'X'
        :: (if b.kvs1.isEmpty then [] else ' ' :: renderPairs b.kvs1))
      = b.idxDigits ++ ' ' :: 'X'
        :: (if b.kvs1.isEmpty then [] else ' ' :: renderPairs b.kvs1) := by
  obtain ⟨hidx, hdig, hwf, -, -, -, -, -, -, -⟩ := wfBlock_parts hb
  have hwf1 : b.kvs1.all wfPair = true :=
    List.all_eq_true.2 fun x hx =>
      (List.all_eq_true.1 hwf) x (List.mem_append_left _ hx)
  apply trimChars_eq_self
  · intro c hc
    cases hx : b.idxDigits with
    | nil => exact absurd hx hidx
    | cons d ds =>
      rw [hx, List.cons_append, List.head?_cons, Option.some_inj] at hc
      subst hc
      exact digit_not_space (hdig d (by rw [hx]; exact List.mem_cons_self _ _))
  · intro c hc
    by_cases hk : b.kvs1.isEmpty
    · rw [if_pos hk] at hc
      rw [show b.idxDigits ++ ' ' :: 'X' :: ([] : List Char)
          = (b.idxDigits ++ [' ']) ++ ['X'] from by simp] at hc
      rw [List.getLast?_concat, Option.some_inj] at hc
      subst hc
      decide
    · rw [if_neg hk] at hc
      have hk1ne : b.kvs1 ≠ [] := by
        intro h; rw [h] at hk; exact hk rfl
      have hrpne : renderPairs b.kvs1 ≠ [] := by
        cases hx : b.kvs1 with
        | nil => exact absurd hx hk1ne
        | cons p ps =>
          have hp : wfPair p = true :=
            (List.all_eq_true.1 hwf1) p (by rw [hx]; exact List.mem_cons_self _ _)
          exact renderPairs_ne_nil hp ps
      rw [show b.idxDigits ++ ' ' :: 'X' :: ' ' :: renderPairs b.kvs1
          = (b.idxDigits ++ [' ', 'X', ' ']) ++ renderPairs b.kvs1 from by
        simp] at hc
      rw [List.getLast?_append_of_ne_nil _ hrpne] at hc
      obtain ⟨c', hc', hcs'⟩ := renderPairs_last hwf1 hk1ne
      rw [hc', Option.some_inj] at hc
      subst hc
      exact hcs'

theorem splitIdx_render (hb : wfBlock b = true) :
    splitRouterosIndexAndFlags (b.idxDigits ++ ' ' :: 'X'
        :: (if b.kvs1.isEmpty then [] else ' ' :: renderPairs b.kvs1))
      = (some (digitsToNat b.idxDigits), ['X'], renderPairs b.kvs1) := by
  obtain ⟨hidx, hdig, hwf, -, -, -, -, -, -, -⟩ := wfBlock_parts hb
  have hwf1 : b.kvs1.all wfPair = true :=
    List.all_eq_true.2 fun x hx =>
      (List.all_eq_true.1 hwf) x (List.mem_append_left _ hx)
  have hidxe : b.idxDigits.isEmpty = false := by simp [List.isEmpty_iff, hidx]
  by_cases hk : b.kvs1.isEmpty
  · have hk1 : b.kvs1 = [] := by
      cases hx : b.kvs1 with
      | nil => rfl
      | cons p ps => rw [hx] at hk; cases hk
    rw [if_pos hk, hk1]
    have hta : List.takeWhile Char.isDigit (b.idxDigits ++ ' ' :: 'X' :: [])
          = b.idxDigits
        ∧ List.dropWhile Char.isDigit (b.idxDigits ++ ' ' :: 'X' :: [])
          = ' ' :: 'X' :: [] :=
      takeWhile_append_all hdig
        (fun c hc => by
          simp only [List.head?_cons, Option.some_inj] at hc
          subst hc
          decide)
    simp [splitRouterosIndexAndFlags, hta.1, hta.2, hidxe, renderPairs,
      trimChars, List.takeWhile, List.dropWhile, isSpaceChar, isUpperAZ]
  · have hk1 : b.kvs1 ≠ [] := by
      intro h; rw [h] at hk; exact hk rfl
    have hrpne : renderPairs b.kvs1 ≠ [] := by
      cases hx : b.kvs1 with
      | nil => exact absurd hx hk1
      | cons p ps =>
        have hp : wfPair p = true :=
          (List.all_eq_true.1 hwf1) p (by rw [hx]; exact List.mem_cons_self _ _)
        exact renderPairs_ne_nil hp ps
    rw [if_neg hk]
    have hta : List.takeWhile Char.isDigit
          (b.idxDigits ++ ' ' :: 'X' :: ' ' :: renderPairs b.kvs1)
          = b.idxDigits
        ∧ List.dropWhile Char.isDigit
          (b.idxDigits ++ ' ' :: 'X' :: ' ' :: renderPairs b.kvs1)
          = ' ' :: 'X' :: ' ' :: renderPairs b.kvs1 :=
      takeWhile_append_all hdig
        (fun c hc => by
          simp only [List.head?_cons, Option.some_inj] at hc
          subst hc
          decide)
    have htrim : trimChars (' ' :: renderPairs b.kvs1) = renderPairs b.kvs1 := by
      rw [trimChars_cons_space (by decide)]
      refine trimChars_eq_self ?_ ?_
      · intro c hc
        cases hx : b.kvs1 with
        | nil => exact absurd hx hk1
        | cons p ps =>
          have hp : wfPair p = true :=
            (List.all_eq_true.1 hwf1) p (by rw [hx]; exact List.mem_cons_self _ _)
          obtain ⟨k0, kr, hcons, hkc, -⟩ := renderPairs_head hp ps
          rw [hx, hcons, List.head?_cons, Option.some_inj] at hc
          subst hc
          exact keyChar_not_space hkc
      · intro c hc
        obtain ⟨c', hc', hcs'⟩ := renderPairs_last hwf1 hk1
        rw [hc', Option.some_inj] at hc
        subst hc
        exact hcs'
    have hlen : 2 ≤ (' ' :: renderPairs b.kvs1).length := by
      cases hx : renderPairs b.kvs1 with
      | nil => exact absurd hx hrpne
      | cons a t => simp [List.length_cons]
    simp only [splitRouterosIndexAndFlags, hta.1, hta.2, hidxe,
      Bool.false_eq_true, if_false]
    rw [show List.takeWhile isSpaceChar (' ' :: 'X' :: ' ' :: renderPairs b.kvs1)
      = [' '] from by
        rw [List.takeWhile_cons, if_pos (by decide), List.takeWhile_cons,
          if_neg (by decide)]]
    rw [show List.dropWhile isSpaceChar (' ' :: 'X' :: ' ' :: renderPairs b.kvs1)
      = 'X' :: ' ' :: renderPairs b.kvs1 from by
        rw [List.dropWhile_cons, if_pos (by decide), List.dropWhile_cons,
          if_neg (by decide)]]
    rw [show List.takeWhile isUpperAZ ('X' :: ' ' :: renderPairs b.kvs1)
      = ['X'] from by
        rw [List.takeWhile_cons, if_pos (by decide), List.takeWhile_cons,
          if_neg (by decide)]]
    rw [show List.dropWhile isUpperAZ ('X' :: ' ' :: renderPairs b.kvs1)
      = ' ' :: renderPairs b.kvs1 from by
        rw [List.dropWhile_cons, if_pos (by decide), List.dropWhile_cons,
          if_neg (by decide)]]
    have hlp : 1 ≤ (renderPairs b.kvs1).length := List.length_pos.2 hrpne
    simp [htrim, hlen, isSpaceChar, hlp]

end BlockLemmas

/-! ## Parser lemmas: the line loop on a rendered block -/

section StepLemmas

variable {b : ShellRecordBlock}

theorem firewallStep_commentLine (hb : wfBlock b = true) (st : FwParseState) :
    firewallStep st (';' :: ';' :: ';' :: ' ' :: b.comment)
      = { st with pending := some b.comment } := by
  obtain ⟨-, -, -, -, -, hcne, -, -, -, -⟩ := wfBlock_parts hb
  have htrim : trimChars (';' :: ';' :: ';' :: ' ' :: b.comment)
      = ';' :: ';' :: ';' :: ' ' :: b.comment := by
    apply trimChars_eq_self
    · intro c hc
      rw [List.head?_cons, Option.some_inj] at hc
      subst hc
      decide
    · intro c hc
      rw [getLast?_cons_of_ne_nil _ (by simp),
        getLast?_cons_of_ne_nil _ (by simp),
        getLast?_cons_of_ne_nil _ (by simp [hcne]),
        getLast?_cons_of_ne_nil _ hcne] at hc
      exact comment_last_nonspace hb c hc
  have hsplit : splitTriple (';' :: ';' :: ';' :: ' ' :: b.comment)
      = some ([], ' ' :: b.comment) := by
    have h0 : splitTriple (([] : List Char) ++ ';' :: ';' :: ';' :: (' ' :: b.comment))
        = some ([], ' ' :: b.comment) :=
      splitTriple_append (fun c hc => absurd hc (List.not_mem_nil c))
    rw [List.nil_append] at h0
    exact h0
  have hflags : startsWithChars ("Flags:".toList)
      (';' :: ';' :: ';' :: ' ' :: b.comment) = false := by
    rw [show "Flags:".toList = 'F' :: "lags:".toList from rfl]
    exact startsWithChars_cons_ne (by decide)
  have hhash : startsWithChars ("#".toList)
      (';' :: ';' :: ';' :: ' ' :: b.comment) = false := by
    rw [show "#".toList = '#' :: [] from rfl]
    exact startsWithChars_cons_ne (by decide)
  have hce : b.comment.isEmpty = false := by simp [List.isEmpty_iff, hcne]
  have hcond : ¬((';' :: ';' :: ';' :: ' ' :: b.comment).isEmpty = true
      ∨ startsWithChars ("Flags:".toList) (';' :: ';' :: ';' :: ' ' :: b.comment)
          = true
      ∨ startsWithChars ("#".toList) (';' :: ';' :: ';' :: ' ' :: b.comment)
          = true) := by
    intro h
    rcases h with h | h | h
    · simp at h
    · rw [hflags] at h; cases h
    · rw [hhash] at h; cases h
  rw [firewallStep, htrim, if_neg hcond, hsplit]
  simp [trim_comment_space hb, hce, trimChars_nil]

theorem firewallStepCore_indexLine (hb : wfBlock b = true)
    (fl : List Char) (rl : List RecordDict) :
    firewallStepCore
        { pending := some b.comment, current := none, flags := fl, rules := rl }
        (b.idxDigits ++ ' ' :: 'X'
          :: (if b.kvs1.isEmpty then [] else ' ' :: renderPairs b.kvs1))
      = { pending := none,
          current := some (("number".toList, FieldVal.num (digitsToNat b.idxDigits))
            :: ("comment".toList, FieldVal.str b.comment)
            :: b.kvs1.map (fun p => (p.key, FieldVal.str p.val))),
          flags := ['X'], rules := rl } := by
  obtain ⟨hidx, hdig, hwf, hnd, hkeys, -, -, -, -, -⟩ := wfBlock_parts hb
  have hwf1 : b.kvs1.all wfPair = true :=
    List.all_eq_true.2 fun x hx =>
      (List.all_eq_true.1 hwf) x (List.mem_append_left _ hx)
  have hnd1 : (b.kvs1.map RenderPair.key).Nodup := by
    rw [List.map_append] at hnd
    exact hnd.of_append_left
  have hle : (b.idxDigits ++ ' ' :: 'X'
      :: (if b.kvs1.isEmpty then [] else ' ' :: renderPairs b.kvs1)).isEmpty
      = false := by
    cases hix : b.idxDigits with
    | nil => exact absurd hix hidx
    | cons d ds => rw [List.cons_append]; rfl
  have hhd : ((b.idxDigits ++ ' ' :: 'X'
      :: (if b.kvs1.isEmpty then [] else ' ' :: renderPairs b.kvs1)).headD ' ').isDigit
      = true := by
    cases hix : b.idxDigits with
    | nil => exact absurd hix hidx
    | cons d ds =>
      rw [List.cons_append]
      exact hdig d (by rw [hix]; exact List.mem_cons_self _ _)
  have hkv := parseKvPairs_render hwf1 hnd1
  have hfresh : ∀ e ∈ b.kvs1.map (fun p => (p.key, FieldVal.str p.val)),
      dictContains (("number".toList, FieldVal.num (digitsToNat b.idxDigits))
        :: ("comment".toList, FieldVal.str b.comment) :: []) e.1 = false := by
    intro e he
    obtain ⟨p, hpmem, rfl⟩ := List.mem_map.1 he
    have hk := hkeys p (List.mem_append_left _ hpmem)
    have h1 : ['n', 'u', 'm', 'b', 'e', 'r'] ≠ p.key := Ne.symm hk.1
    have h2 : ['c', 'o', 'm', 'm', 'e', 'n', 't'] ≠ p.key := Ne.symm hk.2.1
    simp [dictContains, h1, h2]
  have hndp : ((b.kvs1.map (fun p => (p.key, FieldVal.str p.val))).map
      Prod.fst).Nodup := by
    rw [List.map_map]
    exact hnd1
  have hfold := foldl_dictInsert_pairs
    (b.kvs1.map (fun p => (p.key, FieldVal.str p.val)))
    (("number".toList, FieldVal.num (digitsToNat b.idxDigits))
      :: ("comment".toList, FieldVal.str b.comment) :: [])
    hfresh hndp
  rw [firewallStepCore]
  rw [if_neg (fun h => Bool.false_ne_true (hle ▸ h))]
  rw [if_pos hhd]
  rw [splitIdx_render hb]
  simp only []
  rw [hkv]
  by_cases hkvE : (b.kvs1.map (fun p => (p.key, FieldVal.str p.val))).isEmpty = true
  · have hk10 : b.kvs1 = [] := by
      cases hx : b.kvs1 with
      | nil => rfl
      | cons p ps => rw [hx] at hkvE; cases hkvE
    rw [hk10]
    simp [flushCurrent, dictInsert, dictContains]
  · rw [if_neg hkvE]
    rw [show dictInsert [] ("number".toList)
        (FieldVal.num (digitsToNat b.idxDigits))
      = [("number".toList, FieldVal.num (digitsToNat b.idxDigits))] from rfl]
    rw [show dictInsert
        [("number".toList, FieldVal.num (digitsToNat b.idxDigits))]
        ("comment".toList) (FieldVal.str b.comment)
      = [("number".toList, FieldVal.num (digitsToNat b.idxDigits)),
         ("comment".toList, FieldVal.str b.comment)] from by
      rw [dictInsert, if_neg (by simp [dictContains])]
      rfl]
    rw [hfold]
    simp [flushCurrent]

theorem firewallStep_coreLine (hb : wfBlock b = true)
    (fl : List Char) (rl : List RecordDict) :
    firewallStep
        { pending := some b.comment, current := none, flags := fl, rules := rl }
        (b.idxDigits ++ ' ' :: 'X'
          :: (if b.kvs1.isEmpty then [] else ' ' :: renderPairs b.kvs1))
      = { pending := none,
          current := some (("number".toList, FieldVal.num (digitsToNat b.idxDigits))
            :: ("comment".toList, FieldVal.str b.comment)
            :: b.kvs1.map (fun p => (p.key, FieldVal.str p.val))),
          flags := ['X'], rules := rl } := by
  obtain ⟨hidx, hdig, -, -, -, -, -, -, -, -⟩ := wfBlock_parts hb
  have hle : (b.idxDigits ++ ' ' :: 'X'
      :: (if b.kvs1.isEmpty then [] else ' ' :: renderPairs b.kvs1)).isEmpty
      = false := by
    cases hix : b.idxDigits with
    | nil => exact absurd hix hidx
    | cons d ds => rw [List.cons_append]; rfl
  have hd0 : ∃ d ds, b.idxDigits = d :: ds ∧ d.isDigit = true := by
    cases hix : b.idxDigits with
    | nil => exact absurd hix hidx
    | cons d ds =>
      exact ⟨d, ds, rfl, hdig d (by rw [hix]; exact List.mem_cons_self _ _)⟩
  obtain ⟨d, ds, hix, hd⟩ := hd0
  have hflags : startsWithChars ("Flags:".toList) (b.idxDigits ++ ' ' :: 'X'
      :: (if b.kvs1.isEmpty then [] else ' ' :: renderPairs b.kvs1)) = false := by
    rw [hix, List.cons_append, show "Flags:".toList = 'F' :: "lags:".toList from rfl]
    exact startsWithChars_cons_ne (Ne.symm (digit_ne hd (by decide)))
  have hhash : startsWithChars ("#".toList) (b.idxDigits ++ ' ' :: 'X'
      :: (if b.kvs1.isEmpty then [] else ' ' :: renderPairs b.kvs1)) = false := by
    rw [hix, List.cons_append, show "#".toList = '#' :: [] from rfl]
    exact startsWithChars_cons_ne (Ne.symm (digit_ne hd (by decide)))
  have hsplit : splitTriple (b.idxDigits ++ ' ' :: 'X'
      :: (if b.kvs1.isEmpty then [] else ' ' :: renderPairs b.kvs1)) = none :=
    splitTriple_none (fun c hc => (coreLine_chars hb c hc).2.2)
  have hcond : ¬((b.idxDigits ++ ' ' :: 'X'
        :: (if b.kvs1.isEmpty then [] else ' ' :: renderPairs b.kvs1)).isEmpty
          = true
      ∨ startsWithChars ("Flags:".toList) (b.idxDigits ++ ' ' :: 'X'
          :: (if b.kvs1.isEmpty then [] else ' ' :: renderPairs b.kvs1)) = true
      ∨ startsWithChars ("#".toList) (b.idxDigits ++ ' ' :: 'X'
          :: (if b.kvs1.isEmpty then [] else ' ' :: renderPairs b.kvs1)) = true) := by
    intro h
    rcases h with h | h | h
    · rw [hle] at h; cases h
    · rw [hflags] at h; cases h
    · rw [hhash] at h; cases h
  rw [firewallStep, trim_coreLine hb]
  rw [if_neg hcond]
  rw [hsplit]
  exact firewallStepCore_indexLine hb fl rl

theorem firewallStep_indexInline (hb : wfBlock b = true)
    (hin : b.inlineComment = true) (pend : Option (List Char))
    (fl : List Char) (rl : List RecordDict) :
    firewallStep { pending := pend, current := none, flags := fl, rules := rl }
        (renderLine1 b)
      = { pending := none,
          current := some (("number".toList, FieldVal.num (digitsToNat b.idxDigits))
            :: ("comment".toList, FieldVal.str b.comment)
            :: b.kvs1.map (fun p => (p.key, FieldVal.str p.val))),
          flags := ['X'], rules := rl } := by
  obtain ⟨hidx, hdig, hwf, -, -, hcne, hcch, -, -, -⟩ := wfBlock_parts hb
  have hline : renderLine1 b
      = (b.idxDigits ++ ' ' :: 'X'
          :: ((if b.kvs1.isEmpty then [] else ' ' :: renderPairs b.kvs1) ++ [' ']))
        ++ ';' :: ';' :: ';' :: (' ' :: b.comment) := by
    rw [renderLine1, hin]
    simp
  have hd0 : ∃ d ds, b.idxDigits = d :: ds ∧ d.isDigit = true := by
    cases hix : b.idxDigits with
    | nil => exact absurd hix hidx
    | cons d ds =>
      exact ⟨d, ds, rfl, hdig d (by rw [hix]; exact List.mem_cons_self _ _)⟩
  obtain ⟨d, ds, hix, hd⟩ := hd0
  have htrim : trimChars (renderLine1 b) = renderLine1 b := by
    apply trimChars_eq_self
    · intro c hc
      rw [hline, hix, List.cons_append, List.cons_append, List.head?_cons,
        Option.some_inj] at hc
      subst hc
      exact digit_not_space hd
    · intro c hc
      rw [hline, List.getLast?_append_of_ne_nil _ (by simp),
        getLast?_cons_of_ne_nil _ (by simp),
        getLast?_cons_of_ne_nil _ (by simp),
        getLast?_cons_of_ne_nil _ (by simp [hcne]),
        getLast?_cons_of_ne_nil _ hcne] at hc
      exact comment_last_nonspace hb c hc
  have hle : (renderLine1 b).isEmpty = false := by
    rw [hline, hix, List.cons_append, List.cons_append]
    rfl
  have hflags : startsWithChars ("Flags:".toList) (renderLine1 b) = false := by
    rw [hline, hix, List.cons_append, List.cons_append,
      show "Flags:".toList = 'F' :: "lags:".toList from rfl]
    exact startsWithChars_cons_ne (Ne.symm (digit_ne hd (by decide)))
  have hhash : startsWithChars ("#".toList) (renderLine1 b) = false := by
    rw [hline, hix, List.cons_append, List.cons_append,
      show "#".toList = '#' :: [] from rfl]
    exact startsWithChars_cons_ne (Ne.symm (digit_ne hd (by decide)))
  have hsplit : splitTriple (renderLine1 b)
      = some (b.idxDigits ++ ' ' :: 'X'
          :: ((if b.kvs1.isEmpty then [] else ' ' :: renderPairs b.kvs1) ++ [' ']),
        ' ' :: b.comment) := by
    rw [hline]
    apply splitTriple_append
    intro c hc
    rcases List.mem_append.1 hc with h1 | h1
    · exact (coreLine_chars hb c (List.mem_append_left _ h1)).2.2
    rcases List.mem_cons.1 h1 with h2 | h2
    · subst h2; decide
    rcases List.mem_cons.1 h2 with h3 | h3
    · subst h3; decide
    rcases List.mem_append.1 h3 with h4 | h4
    · exact (coreLine_chars hb c (List.mem_append_right _
        (List.mem_cons_of_mem ' ' (List.mem_cons_of_mem 'X' h4)))).2.2
    · rcases List.mem_singleton.1 h4 with rfl; decide
  have hbefore : trimChars (b.idxDigits ++ ' ' :: 'X'
      :: ((if b.kvs1.isEmpty then [] else ' ' :: renderPairs b.kvs1) ++ [' ']))
      = b.idxDigits ++ ' ' :: 'X'
        :: (if b.kvs1.isEmpty then [] else ' ' :: renderPairs b.kvs1) := by
    rw [show b.idxDigits ++ ' ' :: 'X'
        :: ((if b.kvs1.isEmpty then [] else ' ' :: renderPairs b.kvs1) ++ [' '])
      = (b.idxDigits ++ ' ' :: 'X'
        :: (if b.kvs1.isEmpty then [] else ' ' :: renderPairs b.kvs1)) ++ [' ']
      from by simp]
    rw [trimChars_append_space]
    exact trim_coreLine hb
  have hce : b.comment.isEmpty = false := by simp [List.isEmpty_iff, hcne]
  have hcore := firewallStepCore_indexLine hb fl rl
  have hlene : (b.idxDigits ++ ' ' :: 'X'
      :: (if b.kvs1.isEmpty then [] else ' ' :: renderPairs b.kvs1)).isEmpty
      = false := by
    rw [hix, List.cons_append]
    rfl
  have hcond : ¬((renderLine1 b).isEmpty = true
      ∨ startsWithChars ("Flags:".toList) (renderLine1 b) = true
      ∨ startsWithChars ("#".toList) (renderLine1 b) = true) := by
    intro h
    rcases h with h | h | h
    · rw [hle] at h; cases h
    · rw [hflags] at h; cases h
    · rw [hhash] at h; cases h
  rw [firewallStep, htrim]
  rw [if_neg hcond]
  rw [hsplit]
  simp only [trim_comment_space hb, hce, Bool.false_eq_true, if_false,
    hbefore, hlene]
  exact hcore

theorem firewallStep_contLine (hb : wfBlock b = true)
    (fl : List Char) (rl : List RecordDict) :
    firewallStep
        { pending := none,
          current := some (("number".toList, FieldVal.num (digitsToNat b.idxDigits))
            :: ("comment".toList, FieldVal.str b.comment)
            :: b.kvs1.map (fun p => (p.key, FieldVal.str p.val))),
          flags := fl, rules := rl }
        (' ' :: ' ' :: ' ' :: ' ' :: renderPairs b.kvs2)
      = { pending := none,
          current := some (("number".toList, FieldVal.num (digitsToNat b.idxDigits))
            :: ("comment".toList, FieldVal.str b.comment)
            :: (b.kvs1 ++ b.kvs2).map (fun p => (p.key, FieldVal.str p.val))),
          flags := fl, rules := rl } := by
  obtain ⟨-, -, hwf, hnd, hkeys, -, -, -, -, hfl2⟩ := wfBlock_parts hb
  have hwf2 : b.kvs2.all wfPair = true :=
    List.all_eq_true.2 fun x hx =>
      (List.all_eq_true.1 hwf) x (List.mem_append_right _ hx)
  have hnd2 : (b.kvs2.map RenderPair.key).Nodup := by
    rw [List.map_append] at hnd
    exact hnd.of_append_right
  have hdisj : ∀ x ∈ b.kvs2.map RenderPair.key, x ∉ b.kvs1.map RenderPair.key := by
    rw [List.map_append] at hnd
    intro x hx2 hx1
    exact (List.nodup_append.1 hnd).2.2 hx1 hx2
  cases hk2 : b.kvs2 with
  | nil =>
    have h4 : trimChars (' ' :: ' ' :: ' ' :: ' '
        :: renderPairs ([] : List RenderPair)) = [] := by decide
    rw [firewallStep, h4]
    rw [if_pos (Or.inl (show (List.isEmpty ([] : List Char)) = true from rfl))]
    simp
  | cons q qs =>
    rw [← hk2]
    have hk2ne : b.kvs2 ≠ [] := by rw [hk2]; simp
    have hrpne : renderPairs b.kvs2 ≠ [] := by
      rw [hk2]
      exact renderPairs_ne_nil
        ((List.all_eq_true.1 hwf2) q (by rw [hk2]; exact List.mem_cons_self _ _)) qs
    have hq : wfPair q = true :=
      (List.all_eq_true.1 hwf2) q (by rw [hk2]; exact List.mem_cons_self _ _)
    obtain ⟨k0, kr, hcons, hk0, hk0d⟩ : ∃ k0 kr, renderPairs b.kvs2 = k0 :: kr
        ∧ isKeyChar k0 = true ∧ k0.isDigit = false := by
      rw [hk2]
      exact renderPairs_head hq qs
    have htrim : trimChars (' ' :: ' ' :: ' ' :: ' ' :: renderPairs b.kvs2)
        = renderPairs b.kvs2 := by
      rw [trimChars_cons_space (by decide), trimChars_cons_space (by decide),
        trimChars_cons_space (by decide), trimChars_cons_space (by decide)]
      apply trimChars_eq_self
      · intro c hc
        rw [hcons, List.head?_cons, Option.some_inj] at hc
        subst hc
        exact keyChar_not_space hk0
      · intro c hc
        obtain ⟨c', hc', hcs'⟩ := renderPairs_last hwf2 hk2ne
        rw [hc', Option.some_inj] at hc
        subst hc
        exact hcs'
    have hle : (renderPairs b.kvs2).isEmpty = false := by
      simp [List.isEmpty_iff, hrpne]
    have hhash : startsWithChars ("#".toList) (renderPairs b.kvs2) = false := by
      rw [hcons, show "#".toList = '#' :: [] from rfl]
      exact startsWithChars_cons_ne (Ne.symm (keyChar_ne hk0 (by decide)))
    have hsplit : splitTriple (renderPairs b.kvs2) = none :=
      splitTriple_none (fun c hc => (renderPairs_chars hwf2 c hc).2.2)
    have hhd : ((renderPairs b.kvs2).headD ' ').isDigit = false := by
      rw [hcons]
      exact hk0d
    have hkv := parseKvPairs_render hwf2 hnd2
    have hkvne : (b.kvs2.map (fun p => (p.key, FieldVal.str p.val))).isEmpty
        = false := by
      rw [hk2]
      rfl
    have hfresh : ∀ e ∈ b.kvs2.map (fun p => (p.key, FieldVal.str p.val)),
        dictContains (("number".toList, FieldVal.num (digitsToNat b.idxDigits))
          :: ("comment".toList, FieldVal.str b.comment)
          :: b.kvs1.map (fun p => (p.key, FieldVal.str p.val))) e.1 = false := by
      intro e he
      obtain ⟨p, hpmem, rfl⟩ := List.mem_map.1 he
      have hk := hkeys p (List.mem_append_right _ hpmem)
      have hnotin : p.key ∉ b.kvs1.map RenderPair.key :=
        hdisj p.key (List.mem_map_of_mem RenderPair.key hpmem)
      have h1 : ['n', 'u', 'm', 'b', 'e', 'r'] ≠ p.key := Ne.symm hk.1
      have h2 : ['c', 'o', 'm', 'm', 'e', 'n', 't'] ≠ p.key := Ne.symm hk.2.1
      have h3 : ∀ x ∈ b.kvs1.map (fun p => (p.key, FieldVal.str p.val)),
          x.1 ≠ p.key := by
        intro x hx
        obtain ⟨pp, hppmem, rfl⟩ := List.mem_map.1 hx
        intro hepk
        exact hnotin (hepk ▸ List.mem_map_of_mem RenderPair.key hppmem)
      simp only [dictContains, List.any_cons, Bool.or_eq_false_iff]
      refine ⟨by simp [h1], by simp [h2], ?_⟩
      rw [List.any_eq_false]
      intro x hx
      simp only [decide_eq_true_eq]
      exact h3 x hx
    have hndp : ((b.kvs2.map (fun p => (p.key, FieldVal.str p.val))).map
        Prod.fst).Nodup := by
      rw [List.map_map]
      exact hnd2
    have hfold := foldl_dictInsert_pairs
      (b.kvs2.map (fun p => (p.key, FieldVal.str p.val)))
      (("number".toList, FieldVal.num (digitsToNat b.idxDigits))
        :: ("comment".toList, FieldVal.str b.comment)
        :: b.kvs1.map (fun p => (p.key, FieldVal.str p.val)))
      hfresh hndp
    have hcond : ¬((renderPairs b.kvs2).isEmpty = true
        ∨ startsWithChars ("Flags:".toList) (renderPairs b.kvs2) = true
        ∨ startsWithChars ("#".toList) (renderPairs b.kvs2) = true) := by
      intro h
      rcases h with h | h | h
      · rw [hle] at h; cases h
      · rw [hfl2] at h; cases h
      · rw [hhash] at h; cases h
    rw [firewallStep, htrim]
    rw [if_neg hcond]
    rw [hsplit]
    rw [firewallStepCore]
    rw [if_neg (fun h => Bool.false_ne_true (hle ▸ h))]
    rw [if_neg (fun h => Bool.false_ne_true (hhd ▸ h))]
    simp only [hkv, hkvne, Bool.false_eq_true, if_false, hfold]
    simp [List.map_append]

theorem parseFirewallOutput_finish (hb : wfBlock b = true)
    (hfin : (splitLinesChars (renderBlock b)).foldl firewallStep
        { pending := none, current := none, flags := [], rules := [] }
      = { pending := none,
          current := some (("number".toList, FieldVal.num (digitsToNat b.idxDigits))
            :: ("comment".toList, FieldVal.str b.comment)
            :: (b.kvs1 ++ b.kvs2).map (fun p => (p.key, FieldVal.str p.val))),
          flags := ['X'], rules := [] }) :
    parseFirewallOutput (renderBlock b) = [expectedRecord b] := by
  obtain ⟨-, -, -, -, hkeys, -, -, -, -, -⟩ := wfBlock_parts hb
  have hnoDis : dictContains
      (("number".toList, FieldVal.num (digitsToNat b.idxDigits))
        :: ("comment".toList, FieldVal.str b.comment)
        :: (b.kvs1 ++ b.kvs2).map (fun p => (p.key, FieldVal.str p.val)))
      ("disabled".toList) = false := by
    have h3 : ∀ x ∈ (b.kvs1 ++ b.kvs2).map (fun p => (p.key, FieldVal.str p.val)),
        x.1 ≠ "disabled".toList := by
      intro x hx
      obtain ⟨pp, hppmem, rfl⟩ := List.mem_map.1 hx
      exact (hkeys pp hppmem).2.2
    simp only [dictContains, List.any_cons, Bool.or_eq_false_iff]
    refine ⟨by simp, by simp, ?_⟩
    rw [List.any_eq_false]
    intro x hx
    simp only [decide_eq_true_eq]
    exact h3 x hx
  rw [parseFirewallOutput, hfin]
  simp only [flushCurrent]
  rw [if_neg (fun h => Bool.false_ne_true (hnoDis ▸ h))]
  rw [show (['X'] : List Char).contains 'X' = true from rfl]
  rw [dictInsert_fresh hnoDis]
  rw [List.nil_append, List.map_cons, List.map_nil]
  rw [dictGet?_append_fresh hnoDis]
  show [dictInsert _ ("disabled".toList) (FieldVal.boolv true)] = _
  rw [dictInsert_append_self hnoDis]
  rw [expectedRecord]
  simp

end StepLemmas

/-! ## Retention sweep (claim C6) -/

section RetentionSweep

theorem foldl_filter_eq_filter_all (l : List VPNSession) (st : Store) :
    l.foldl (fun acc s => acc.filter (fun x => x.id ≠ s.id)) st
      = st.filter (fun x => l.all (fun s => x.id ≠ s.id)) := by
  induction l generalizing st with
  | nil => simp
  | cons a t ih =>
    rw [List.foldl_cons, ih, List.filter_filter]
    congr 1
    funext x
    simp [Bool.and_comm]

/-- The retention sweep deletes exactly the `DISCONNECTED` grants whose last
update is older than 30 days; everything else — including `EXPIRED`
grants, however old — stays in the store. -/
theorem cleanupOldSessions_mem_iff (st : Store) (now : Int)
    (hnd : (st.map (fun x => x.id)).Nodup) (x : VPNSession) :
    x ∈ cleanupOldSessions st now ↔
      x ∈ st ∧ ¬ (x.status = DISCONNECTED ∧ x.updated_at < now - 30 * 86400) := by
  unfold cleanupOldSessions
  rw [foldl_filter_eq_filter_all, List.mem_filter]
  constructor
  · rintro ⟨hx, hall⟩
    refine ⟨hx, fun hcond => ?_⟩
    have hxf : x ∈ st.filter
        (fun s => s.status = DISCONNECTED ∧ s.updated_at < now - 30 * 86400) := by
      rw [List.mem_filter]
      exact ⟨hx, by simpa using hcond⟩
    have := List.all_eq_true.mp hall x hxf
    simp at this
  · rintro ⟨hx, hnc⟩
    refine ⟨hx, List.all_eq_true.mpr ?_⟩
    intro s hs
    rw [List.mem_filter] at hs
    simp only [decide_eq_true_eq] at hs ⊢
    intro hid
    have : x = s := Store.eq_of_mem_of_id_eq hnd hx hs.1 hid
    exact hnc (this ▸ (by simpa using hs.2))

end RetentionSweep

/-! ## Claim theorems: C5, C6, C7, and the creation half of C1 -/

/-- C6 (counterexample): an `EXPIRED` grant whose last update is far older
than the 30-day retention window survives the sweep, although the claim
says every sufficiently old terminal (`EXPIRED` or `DISCONNECTED`) grant is
deleted. -/
theorem C6_counterexample :
    (let e : VPNSession :=
      { id := 1, user_id := 1, mikrotik_username := "u",
        status := VPNSessionStatus.EXPIRED, updated_at := -2600000 }
     e ∈ cleanupOldSessions [e] 0
       ∧ (e.status = VPNSessionStatus.EXPIRED ∨ e.status = VPNSessionStatus.DISCONNECTED)
       ∧ e.updated_at < 0 - 30 * 86400) := by
  decide

/-- C6 (amended): the daily retention sweep deletes exactly the grants that
are `DISCONNECTED` with a last update older than the 30-day retention
window; `EXPIRED` grants are never deleted by the sweep, and every
non-terminal grant and every recently-updated grant is kept. -/
theorem C6_retention_sweep (st : Store) (now : Int)
    (hnd : (st.map (fun x => x.id)).Nodup) :
    ∀ x : VPNSession,
      (x ∈ cleanupOldSessions st now ↔
        x ∈ st ∧ ¬ (x.status = VPNSessionStatus.DISCONNECTED
                     ∧ x.updated_at < now - 30 * 86400)) := by
  intro x
  exact cleanupOldSessions_mem_iff st now hnd x

/-- C6 witness: the sweep on a concrete two-session store keeps the fresh
non-terminal grant and drops the stale disconnected one. -/
theorem C6_retention_sweep_witness :
    (let a : VPNSession :=
      { id := 1, user_id := 1, mikrotik_username := "a",
        status := VPNSessionStatus.ACTIVE, updated_at := 0 }
     let b : VPNSession :=
      { id := 2, user_id := 2, mikrotik_username := "b",
        status := VPNSessionStatus.DISCONNECTED, updated_at := -2600000 }
     a ∈ cleanupOldSessions [a, b] 0 ∧ b ∉ cleanupOldSessions [a, b] 0) := by
  constructor
  · exact (C6_retention_sweep [⟨1, 1, "a", none, VPNSessionStatus.ACTIVE,
      none, none, none, none, none, none, 0, 0⟩,
      ⟨2, 2, "b", none, VPNSessionStatus.DISCONNECTED,
      none, none, none, none, none, none, 0, -2600000⟩] 0 (by decide) _).mpr
      (by decide)
  · intro hmem
    have := (C6_retention_sweep [⟨1, 1, "a", none, VPNSessionStatus.ACTIVE,
      none, none, none, none, none, none, 0, 0⟩,
      ⟨2, 2, "b", none, VPNSessionStatus.DISCONNECTED,
      none, none, none, none, none, none, 0, -2600000⟩] 0 (by decide) _).mp hmem
    revert this
    decide

/-! ## Extension operation (claim C5) -/

/-- C5 (counterexample): extending an `ACTIVE` grant without an explicit
hour count sets `expires_at` to now + the grantee's reminder interval
(6 hours here), not now + the grant's configured session duration
(24 hours here), refuting the claim's "sets expires-at to now + the grant's
configured duration". -/
theorem C5_counterexample :
    (let env : Env :=
      { globalRequireConfirmation := false,
        userSettings := fun _ => some
          { require_confirmation := false, reminder_interval_hours := 6,
            session_duration_hours := 24 },
        findRuleByComment := fun _ => none }
     let s : VPNSession :=
      { id := 1, user_id := 1, mikrotik_username := "u",
        status := VPNSessionStatus.ACTIVE }
     extendSession env [s] 1 none 0
        = ExtendResult.ok [{ s with
                             expires_at := some 21600,
                             status := VPNSessionStatus.ACTIVE,
                             reminder_sent_at := none, updated_at := 0 }]
       ∧ env.sessionDurationHours 1 = 24
       ∧ (21600 : Int) ≠ 0 + 3600 * 24) := by
  decide

/-- C5 (amended): the extension operation succeeds only on grants in
`ACTIVE` or `REMINDER_SENT`; for such a grant it sets `expires_at` to now +
the supplied hour count — defaulting to the grantee's reminder interval
(6 hours when the grantee has no settings row), not the grant's session
duration — returns the grant to `ACTIVE`, clears the reminder marker and
leaves every other grant unchanged; for a grant in any other state it fails
with a domain error (`ValueError`) before mutating anything. -/
theorem C5_extendSession_spec (env : Env) (st : Store) (i : Nat) (s : VPNSession)
    (hours : Option Int) (now : Int) (hf : st.find? i = some s) :
    (s.status = VPNSessionStatus.ACTIVE ∨ s.status = VPNSessionStatus.REMINDER_SENT →
      ∃ st', extendSession env st i hours now = ExtendResult.ok st'
        ∧ st'.find? i = some { s with
            expires_at := some (now + 3600 * env.extendHours s.user_id hours),
            status := VPNSessionStatus.ACTIVE,
            reminder_sent_at := none,
            updated_at := now }
        ∧ ∀ j, j ≠ i → st'.find? j = st.find? j)
    ∧ (¬ (s.status = VPNSessionStatus.ACTIVE ∨ s.status = VPNSessionStatus.REMINDER_SENT) →
        extendSession env st i hours now = ExtendResult.invalidState) := by
  constructor
  · intro hst
    refine ⟨st.update i (fun x => { x with
        expires_at := some (now + 3600 * env.extendHours s.user_id hours),
        status := VPNSessionStatus.ACTIVE,
        reminder_sent_at := none,
        updated_at := now }), ?_, ?_, ?_⟩
    · simp only [extendSession, hf]
      rw [if_pos hst]
    · rw [@Store.find?_update_self st i (fun x => { x with
        expires_at := some (now + 3600 * env.extendHours s.user_id hours),
        status := VPNSessionStatus.ACTIVE,
        reminder_sent_at := none,
        updated_at := now }) (fun _ => rfl), hf]
      rfl
    · intro j hj
      exact @Store.find?_update_ne st i j (fun x => { x with
        expires_at := some (now + 3600 * env.extendHours s.user_id hours),
        status := VPNSessionStatus.ACTIVE,
        reminder_sent_at := none,
        updated_at := now }) (fun _ => rfl) hj
  · intro hst
    simp only [extendSession, hf]
    rw [if_neg hst]

/-- C5 witness: the amended theorem applied to a one-session store in
`REMINDER_SENT` with an explicit 4-hour extension. -/
theorem C5_extendSession_spec_witness :
    (let env : Env :=
      { globalRequireConfirmation := false,
        userSettings := fun _ => none,
        findRuleByComment := fun _ => none }
     let s : VPNSession :=
      { id := 1, user_id := 1, mikrotik_username := "u",
        status := VPNSessionStatus.REMINDER_SENT, reminder_sent_at := some (-10) }
     ∃ st', extendSession env [s] 1 (some 4) 100 = ExtendResult.ok st'
       ∧ st'.find? 1 = some { s with
           expires_at := some (100 + 3600 * env.extendHours s.user_id (some 4)),
           status := VPNSessionStatus.ACTIVE,
           reminder_sent_at := none,
           updated_at := 100 }
       ∧ ∀ j, j ≠ 1 → st'.find? j = Store.find? [s] j) :=
  ((C5_extendSession_spec
      { globalRequireConfirmation := false,
        userSettings := fun _ => none,
        findRuleByComment := fun _ => none }
      [{ id := 1, user_id := 1, mikrotik_username := "u",
         status := VPNSessionStatus.REMINDER_SENT, reminder_sent_at := some (-10) }]
      1
      { id := 1, user_id := 1, mikrotik_username := "u",
        status := VPNSessionStatus.REMINDER_SENT, reminder_sent_at := some (-10) }
      (some 4) 100 (by decide)).1 (by decide))

/-! ## Grant creation (claims C7 and C1) -/

/-- C7: grant creation is fail-closed: the device identity is enabled before
the grant record is created, so an enable failure (device unreachable,
identity missing) fails the request with no grant record and no device-side
change; a persistence failure aborts the creation, with the prior device
enable reverted best-effort by a disable; on success exactly one `REQUESTED`
record for the grantee is appended, after the single enable call. -/
theorem C7_create_fail_closed (env : Env) (users : Nat → Option UserRec) (st : Store)
    (uid : Nat) (d : Int) (m : Option String) (eOk pOk : Bool) (nid : Nat) (now : Int)
    (u : UserRec) (hu : users uid = some u)
    (happ : u.status = UserStatus.APPROVED ∨ u.status = UserStatus.ACTIVE)
    (hno : getActiveVpnSessionForUser st uid = none) :
    (eOk = false →
      createVpnSession env users st uid d m eOk pOk nid now
        = (Except.error CreateError.deviceError, []))
    ∧ (eOk = true → pOk = false →
      createVpnSession env users st uid d m eOk pOk nid now
        = (Except.error CreateError.persistError,
           [Effect.enableUser (creationUsername u uid m),
            Effect.disableUser (creationUsername u uid m)]))
    ∧ (eOk = true → pOk = true →
      ∃ ns : VPNSession,
        createVpnSession env users st uid d m eOk pOk nid now
          = (Except.ok (st ++ [ns]), [Effect.enableUser ns.mikrotik_username])
        ∧ ns.id = nid ∧ ns.user_id = uid ∧ ns.status = VPNSessionStatus.REQUESTED
        ∧ ns.mikrotik_username = creationUsername u uid m) := by
  have happ' : ¬ ¬ (u.status = UserStatus.APPROVED ∨ u.status = UserStatus.ACTIVE) :=
    not_not_intro happ
  refine ⟨?_, ?_, ?_⟩
  · intro he
    subst he
    simp [createVpnSession, hu, hno, happ']
  · intro he hp
    subst he; subst hp
    simp [createVpnSession, hu, hno, happ']
  · intro he hp
    subst he; subst hp
    refine ⟨{ id := nid, user_id := uid,
              mikrotik_username := creationUsername u uid m,
              status := VPNSessionStatus.REQUESTED,
              expires_at := some (now + 3600 *
                (match env.userSettings uid with
                 | some us =>
                   if us.session_duration_hours ≠ 0 then us.session_duration_hours else d
                 | none => d)),
              created_at := now, updated_at := now }, ?_, rfl, rfl, rfl, rfl⟩
    simp [createVpnSession, hu, hno, happ']

/-- C7 witness: the theorem applied to a concrete approved grantee with no
prior session, exercising the persistence-failure branch. -/
theorem C7_create_fail_closed_witness :
    (createVpnSession
        { globalRequireConfirmation := false, userSettings := fun _ => none,
          findRuleByComment := fun _ => none }
        (fun _ => some { status := UserStatus.APPROVED, telegram_id := some 42 })
        [] 5 24 none true false 9 0
      = (Except.error CreateError.persistError,
         [Effect.enableUser "user_42", Effect.disableUser "user_42"])) :=
  ((C7_create_fail_closed
      { globalRequireConfirmation := false, userSettings := fun _ => none,
        findRuleByComment := fun _ => none }
      (fun _ => some { status := UserStatus.APPROVED, telegram_id := some 42 })
      [] 5 24 none true false 9 0
      { status := UserStatus.APPROVED, telegram_id := some 42 }
      rfl (Or.inl rfl) rfl).2.1 rfl rfl)

/-- C1 (counterexample): the per-grantee invariant is not preserved by the
connection-check job.  Grantee 7 holds an `ACTIVE` grant under device
identity "b" and an older `DISCONNECTED` grant under identity "a"; when the
device reports "a" active, the anti-flap resurrection (which checks per
device identity, not per grantee) promotes the old grant back to
`CONNECTED`, leaving grantee 7 with two simultaneous non-terminal grants. -/
theorem C1_counterexample :
    (let env : Env :=
      { globalRequireConfirmation := true, userSettings := fun _ => none,
        findRuleByComment := fun _ => none }
     let s1 : VPNSession :=
      { id := 1, user_id := 7, mikrotik_username := "a",
        status := VPNSessionStatus.DISCONNECTED, created_at := -100 }
     let s2 : VPNSession :=
      { id := 2, user_id := 7, mikrotik_username := "b",
        status := VPNSessionStatus.ACTIVE, last_seen_at := some (-1),
        created_at := -200 }
     let facts : List ObservedFact :=
      [{ source := some "user_manager_session", active := some true,
         user := some "a", dotId := some "*9" }]
     List.countP (fun s => s.user_id = 7 ∧ s.status.isNonTerminal) [s1, s2] = 1
       ∧ List.countP (fun s => s.user_id = 7 ∧ s.status.isNonTerminal)
           (checkVpnConnections env [s1, s2] facts 0).1 = 2) := by
  decide

/-- C1 (amended): requesting a new grant while the grantee already holds a
non-terminal grant fails with a domain error (`ValueError`) and creates
nothing — neither a store record nor a device-side effect.  (The anti-flap
resurrection, by contrast, guards per device identity only, so it does not
preserve the per-grantee invariant; see the counterexample.) -/
theorem C1_request_rejected_when_nonterminal_exists (env : Env)
    (users : Nat → Option UserRec) (st : Store) (uid : Nat) (d : Int)
    (m : Option String) (eOk pOk : Bool) (nid : Nat) (now : Int)
    (u : UserRec) (hu : users uid = some u)
    (happ : u.status = UserStatus.APPROVED ∨ u.status = UserStatus.ACTIVE)
    (hex : ∃ s, s ∈ st ∧ s.user_id = uid ∧ s.status.isNonTerminal) :
    createVpnSession env users st uid d m eOk pOk nid now
      = (Except.error CreateError.alreadyHasActiveSession, []) := by
  obtain ⟨s, hmem, hsu, hsn⟩ := hex
  have hsome : (getActiveVpnSessionForUser st uid).isSome := by
    unfold getActiveVpnSessionForUser
    rw [List.find?_isSome]
    exact ⟨s, hmem, by simp [hsu, hsn]⟩
  obtain ⟨x, hx⟩ := Option.isSome_iff_exists.mp hsome
  have happ' : ¬ ¬ (u.status = UserStatus.APPROVED ∨ u.status = UserStatus.ACTIVE) :=
    not_not_intro happ
  simp [createVpnSession, hu, hx, happ']

/-- C1 witness: a second request for grantee 7, who already holds a
`CONNECTED` grant, is rejected. -/
theorem C1_request_rejected_witness :
    (createVpnSession
        { globalRequireConfirmation := false, userSettings := fun _ => none,
          findRuleByComment := fun _ => none }
        (fun _ => some { status := UserStatus.ACTIVE })
        [{ id := 1, user_id := 7, mikrotik_username := "a",
           status := VPNSessionStatus.CONNECTED }]
        7 24 none true true 9 0
      = (Except.error CreateError.alreadyHasActiveSession, [])) :=
  C1_request_rejected_when_nonterminal_exists
    { globalRequireConfirmation := false, userSettings := fun _ => none,
      findRuleByComment := fun _ => none }
    (fun _ => some { status := UserStatus.ACTIVE })
    [{ id := 1, user_id := 7, mikrotik_username := "a",
       status := VPNSessionStatus.CONNECTED }]
    7 24 none true true 9 0
    { status := UserStatus.ACTIVE } rfl (Or.inr rfl)
    ⟨{ id := 1, user_id := 7, mikrotik_username := "a",
       status := VPNSessionStatus.CONNECTED },
     by decide, rfl, by decide⟩

/-! ## Anti-flap resurrection (claim C3) -/

/-- C3: for a device identity reported active with no loaded (tracked)
non-terminal grant: when the most recent grant for that identity is
`DISCONNECTED` and at most 24h old, the resurrection phase of the
connection check promotes that same grant back to `CONNECTED`, recording
the observed device connection id (keeping the old one when none was
observed) and a fresh alive timestamp, and appends it to the tracked list
(the normal per-session rules of the same run then apply to it); when the
most recent grant is older than 24h, the whole job leaves it unchanged.
In either case the job creates no new grant (the row ids are preserved
exactly).  (The job only reaches the device query when at least one
non-terminal grant is loaded; with an empty store the run is a no-op, which
the stale/no-creation conclusions also cover.) -/
theorem C3_antiflap_resurrection (env : Env) (facts : List ObservedFact) (now : Int)
    (st : Store) (u : String) (L : VPNSession)
    (hnd : (st.map (fun x => x.id)).Nodup)
    (hu : u ∈ activeUsernames facts)
    (hnot : ∀ x ∈ st, x.status.isNonTerminal = true → x.mikrotik_username ≠ u)
    (hlat : latestByCreated st u = some L)
    (hdisc : L.status = VPNSessionStatus.DISCONNECTED) :
    (¬ now - L.created_at > 86400 →
      ((resurrectPhase facts now st
          ((st.filter (fun x => x.status.isNonTerminal)).map (fun x => x.id))).1).find? L.id
        = some { L with
                 status := VPNSessionStatus.CONNECTED,
                 connected_at := some (L.connected_at.getD now),
                 mikrotik_session_id := sidByUsername facts u <|> L.mikrotik_session_id,
                 last_seen_at := some now,
                 updated_at := now }
      ∧ L.id ∈ (resurrectPhase facts now st
          ((st.filter (fun x => x.status.isNonTerminal)).map (fun x => x.id))).2)
    ∧ (now - L.created_at > 86400 →
        ((checkVpnConnections env st facts now).1).find? L.id = some L)
    ∧ ((checkVpnConnections env st facts now).1).map (fun x => x.id)
        = st.map (fun x => x.id) := by
  obtain ⟨hLmem, hLuser⟩ := latestByCreated_mem hlat
  have hfL : st.find? L.id = some L := Store.find?_of_mem hnd hLmem
  set tracked := (st.filter (fun x => x.status.isNonTerminal)).map (fun x => x.id)
    with htrdef
  have hinv0 : PhaseInv st tracked := htrdef ▸ phaseInv_initial hnd
  have htru0 : ∀ j ∈ tracked, ∃ x : VPNSession,
      st.find? j = some x ∧ x.mikrotik_username ≠ u := by
    intro j hj
    rw [htrdef] at hj
    obtain ⟨x, hxf, hxid⟩ := List.mem_map.mp hj
    have hx := List.mem_filter.mp hxf
    exact ⟨x, hxid ▸ Store.find?_of_mem hnd hx.1,
      hnot x hx.1 (by simpa using hx.2)⟩
  have hudedup : u ∈ dedupFirst (activeUsernames facts) := dedupFirst_mem.mpr hu
  obtain ⟨d1, d2, hd⟩ := List.append_of_mem hudedup
  have hddn := dedupFirst_nodup (activeUsernames facts)
  rw [hd] at hddn
  have hund1 : u ∉ d1 := by
    intro hmem
    exact (List.nodup_append.mp hddn).2.2 hmem (List.mem_cons_self u d2)
  have hund2 : u ∉ d2 :=
    (List.nodup_cons.mp (List.nodup_append.mp hddn).2.1).1
  have hfold1u := resurrectFold_username facts now
    d1 st tracked hund1 hnd hinv0 htru0
  have hfold1i := resurrectFold_inv facts now
    d1 st tracked hnd hinv0
  set A := List.foldl (resurrectOne facts now) (st, tracked) d1 with hAdef
  have hndA : ((A.1).map (fun x => x.id)).Nodup := by
    rw [hfold1i.1]; exact hnd
  have hlatA : latestByCreated A.1 u = some L := by
    unfold latestByCreated at hlat ⊢
    rw [hfold1u.1]
    exact hlat
  have hphase : resurrectPhase facts now st tracked
      = List.foldl (resurrectOne facts now)
          (resurrectOne facts now (A.1, A.2) u) d2 := by
    show List.foldl (resurrectOne facts now) (st, tracked) (dedupFirst (activeUsernames facts))
      = _
    rw [hd, List.foldl_append]
    rfl
  refine ⟨?_, ?_, checkVpnConnections_map_id hnd⟩
  · intro hfresh
    have hstep := resurrectOne_at_username facts now hndA hlatA hdisc hfresh hfold1u.2
    have hndB : (((resurrectOne facts now (A.1, A.2) u).1).map (fun x => x.id)).Nodup := by
      rw [resurrectOne_map_id]
      exact hndA
    have hinvB : PhaseInv (resurrectOne facts now (A.1, A.2) u).1
        (resurrectOne facts now (A.1, A.2) u).2 :=
      (resurrectOne_inv _ _ _ hndA hfold1i.2.1).1
    have hfinal := resurrectFold_find?_of_status_ne facts now
      d2 (resurrectOne facts now (A.1, A.2) u).1
      (resurrectOne facts now (A.1, A.2) u).2 hndB hstep.1 (by intro h; cases h)
    have hfold2i := resurrectFold_inv facts now
      d2 (resurrectOne facts now (A.1, A.2) u).1
      (resurrectOne facts now (A.1, A.2) u).2 hndB hinvB
    constructor
    · rw [hphase]
      rw [show List.foldl (resurrectOne facts now)
            (resurrectOne facts now (A.1, A.2) u) d2
          = List.foldl (resurrectOne facts now)
            ((resurrectOne facts now (A.1, A.2) u).1,
             (resurrectOne facts now (A.1, A.2) u).2) d2 from rfl]
      exact hfinal
    · rw [hphase]
      rw [show List.foldl (resurrectOne facts now)
            (resurrectOne facts now (A.1, A.2) u) d2
          = List.foldl (resurrectOne facts now)
            ((resurrectOne facts now (A.1, A.2) u).1,
             (resurrectOne facts now (A.1, A.2) u).2) d2 from rfl]
      obtain ⟨ext2, hext2⟩ := hfold2i.2.2
      rw [hext2, hstep.2]
      exact List.mem_append_left _ (List.mem_append_right _ (List.mem_singleton.mpr rfl))
  · intro hstale
    have hstep := resurrectOne_at_username_stale facts now A.2 hlatA hstale
    have hLA : A.1.find? L.id = some L := by
      have hLmemA : L ∈ A.1 := by
        have hmf : L ∈ (A.1).filter (fun x => x.mikrotik_username = u) := by
          rw [hfold1u.1]
          exact List.mem_filter.mpr ⟨hLmem, by simpa using hLuser⟩
        exact (List.mem_filter.mp hmf).1
      exact Store.find?_of_mem hndA hLmemA
    have hphasefind : (resurrectPhase facts now st tracked).1.find? L.id = some L := by
      rw [hphase, hstep]
      exact resurrectFold_find?_of_username_notin d2 A.1 A.2 hndA hLA
        (by rw [hLuser]; exact hund2)
    by_cases htrnil : tracked = []
    · show ((checkVpnConnections env st facts now).1).find? L.id = some L
      unfold checkVpnConnections
      rw [htrdef] at htrnil
      rw [if_pos htrnil]
      exact hfL
    · have hjob : checkVpnConnections env st facts now
          = processLoop env facts now (resurrectPhase facts now st tracked).2
              (resurrectPhase facts now st tracked).1 [] := by
        unfold checkVpnConnections
        rw [htrdef] at htrnil
        rw [if_neg htrnil]
      have hinv1 : PhaseInv (resurrectPhase facts now st tracked).1
          (resurrectPhase facts now st tracked).2 :=
        (resurrectFold_inv facts now
          (dedupFirst (activeUsernames facts)) st tracked hnd hinv0).2.1
      have hLnotin : L.id ∉ (resurrectPhase facts now st tracked).2 := by
        intro hmem
        obtain ⟨x, hx, hxnt⟩ := hinv1.2 L.id hmem
        rw [hphasefind] at hx
        cases hx
        exact isNonTerminal_ne_disconnected hxnt hdisc
      rw [hjob]
      rw [processLoop_find?_ne _ _ _ hLnotin]
      exact hphasefind

/-- C3 witness: the theorem applied to a concrete store — a fresh
`DISCONNECTED` grant for identity "a" (created 100s ago) and an unrelated
`ACTIVE` grant; the device reports "a" active with session id `*9`.  The
old grant is promoted to `CONNECTED` with the observed session id and a
fresh alive timestamp, and joins the tracked list. -/
theorem C3_antiflap_resurrection_witness :
    (let facts : List ObservedFact :=
      [{ source := some "user_manager_session", active := some true,
         user := some "a", dotId := some "*9" }]
     let s1 : VPNSession :=
      { id := 1, user_id := 7, mikrotik_username := "a",
        status := VPNSessionStatus.DISCONNECTED, created_at := -100,
        connected_at := some (-50), mikrotik_session_id := some "*old" }
     let s2 : VPNSession :=
      { id := 2, user_id := 8, mikrotik_username := "b",
        status := VPNSessionStatus.ACTIVE, last_seen_at := some (-1),
        created_at := -200 }
     ((resurrectPhase facts 0 [s1, s2]
         (([s1, s2].filter (fun x => x.status.isNonTerminal)).map (fun x => x.id))).1).find? 1
        = some { s1 with
                 status := VPNSessionStatus.CONNECTED,
                 connected_at := some ((s1.connected_at).getD 0),
                 mikrotik_session_id := sidByUsername facts "a" <|> s1.mikrotik_session_id,
                 last_seen_at := some 0,
                 updated_at := 0 }
       ∧ 1 ∈ (resurrectPhase facts 0 [s1, s2]
           (([s1, s2].filter (fun x => x.status.isNonTerminal)).map (fun x => x.id))).2) :=
  ((C3_antiflap_resurrection
      { globalRequireConfirmation := true, userSettings := fun _ => none,
        findRuleByComment := fun _ => none }
      [{ source := some "user_manager_session", active := some true,
         user := some "a", dotId := some "*9" }]
      0
      [{ id := 1, user_id := 7, mikrotik_username := "a",
         status := VPNSessionStatus.DISCONNECTED, created_at := -100,
         connected_at := some (-50), mikrotik_session_id := some "*old" },
       { id := 2, user_id := 8, mikrotik_username := "b",
         status := VPNSessionStatus.ACTIVE, last_seen_at := some (-1),
         created_at := -200 }]
      "a"
      { id := 1, user_id := 7, mikrotik_username := "a",
        status := VPNSessionStatus.DISCONNECTED, created_at := -100,
        connected_at := some (-50), mikrotik_session_id := some "*old" }
      (by decide) (by decide) (by decide) (by decide) (by decide)).1
    (by decide))

/-! ## Grace window (claim C4) -/

/-- C4: a grant in a device-connected state (`CONNECTED`/`CONFIRMED`/
`ACTIVE`/`REMINDER_SENT`) whose identity the device stops reporting active
is left fully unchanged by the connection check while the time since it was
last observed alive is strictly below `max(30s, 2 × poll interval)`, and is
moved to `DISCONNECTED` once that window is reached or exceeded. -/
theorem C4_grace_window (env : Env) (facts : List ObservedFact) (now : Int)
    (st : Store) (i : Nat) (s : VPNSession) (t : Int)
    (hnd : (st.map (fun x => x.id)).Nodup)
    (hf : st.find? i = some s)
    (hst : s.status = VPNSessionStatus.CONNECTED ∨ s.status = VPNSessionStatus.CONFIRMED
      ∨ s.status = VPNSessionStatus.ACTIVE ∨ s.status = VPNSessionStatus.REMINDER_SENT)
    (hact : s.mikrotik_username ∉ activeUsernames facts)
    (hls : (s.last_seen_at <|> s.connected_at) = some t) :
    (now - t < env.graceSeconds →
      ((checkVpnConnections env st facts now).1).find? i = some s)
    ∧ (env.graceSeconds ≤ now - t →
      ∃ s', ((checkVpnConnections env st facts now).1).find? i = some s'
        ∧ s'.status = VPNSessionStatus.DISCONNECTED) := by
  have hnt : s.status.isNonTerminal = true := by
    rcases hst with h | h | h | h <;>
      simp [h, VPNSessionStatus.isNonTerminal, nonTerminalStatuses]
  obtain ⟨stMid, hmid, hfind, heffs⟩ :=
    checkVpnConnections_at env facts now hnd hf hnt
  have hspec := processSession_inactive_spec env now hmid hact hst hls
  constructor
  · intro hgr
    rw [hfind, hspec.1 hgr]
    exact hmid
  · intro hge
    have hngr : ¬ now - t < env.graceSeconds := not_lt.mpr hge
    exact ⟨_, hfind.trans (hspec.2 hngr).1, rfl⟩

/-- C4 witness: an `ACTIVE` grant last seen 200s ago with the default 60s
poll interval (grace 120s) is disconnected; the same grant last seen 5s ago
is untouched.  The theorem is applied at a concrete store. -/
theorem C4_grace_window_witness :
    (let env : Env :=
      { globalRequireConfirmation := false, userSettings := fun _ => none,
        findRuleByComment := fun _ => none }
     let s : VPNSession :=
      { id := 1, user_id := 1, mikrotik_username := "x",
        status := VPNSessionStatus.ACTIVE, last_seen_at := some (-200) }
     ∃ s', ((checkVpnConnections env [s] [] 0).1).find? 1 = some s'
       ∧ s'.status = VPNSessionStatus.DISCONNECTED) :=
  ((C4_grace_window
      { globalRequireConfirmation := false, userSettings := fun _ => none,
        findRuleByComment := fun _ => none }
      [] 0
      [{ id := 1, user_id := 1, mikrotik_username := "x",
         status := VPNSessionStatus.ACTIVE, last_seen_at := some (-200) }]
      1
      { id := 1, user_id := 1, mikrotik_username := "x",
        status := VPNSessionStatus.ACTIVE, last_seen_at := some (-200) }
      (-200)
      (by decide) (by decide) (by decide) (by decide) (by decide)).2
    (by decide))

/-! ## Confirmation timeout (claim C2) -/

/-- C2 (counterexample): a `CONNECTED` grant requiring confirmation, with no
reply and `connected_at` 301s in the past (timeout 300s), is NOT moved to
`DISCONNECTED` by the connection check when the device does not report the
identity active and the grant was seen alive 5s ago: the grace-window rule
governs that branch and leaves it `CONNECTED`. -/
theorem C2_counterexample :
    (let env : Env :=
      { globalRequireConfirmation := true, userSettings := fun _ => none,
        findRuleByComment := fun _ => none }
     let s : VPNSession :=
      { id := 1, user_id := 1, mikrotik_username := "u",
        status := VPNSessionStatus.CONNECTED, connected_at := some (-301),
        last_seen_at := some (-5) }
     env.requireConfirmation 1 = true
       ∧ s.status = VPNSessionStatus.CONNECTED
       ∧ s.connected_at = some (-301)
       ∧ (0 : Int) - (-301) > env.confirmationTimeoutSeconds
       ∧ (((checkVpnConnections env [s] [] 0).1).find? 1).map (fun x => x.status)
           = some VPNSessionStatus.CONNECTED) := by
  decide

/-- C2 (amended): a `CONNECTED` grant whose grantee requires confirmation
and has not replied, *and whose identity the device still reports active*,
is moved to `DISCONNECTED` by the connection check once the time since
`connected_at` strictly exceeds the configured confirmation timeout, and a
disable is issued for its bound packet-filter rule (if any).  (When the
device no longer reports the identity, the grace-window rule of C4 governs
instead.) -/
theorem C2_confirmation_timeout (env : Env) (facts : List ObservedFact) (now : Int)
    (st : Store) (i : Nat) (s : VPNSession) (t : Int)
    (hnd : (st.map (fun x => x.id)).Nodup)
    (hf : st.find? i = some s)
    (hcon : s.status = VPNSessionStatus.CONNECTED)
    (hrc : env.requireConfirmation s.user_id = true)
    (hact : s.mikrotik_username ∈ activeUsernames facts)
    (hct : s.connected_at = some t)
    (htm : now - t > env.confirmationTimeoutSeconds) :
    (∃ s', ((checkVpnConnections env st facts now).1).find? i = some s'
       ∧ s'.status = VPNSessionStatus.DISCONNECTED)
    ∧ (∀ r, s.firewall_rule_id = some r →
        Effect.disableRule r ∈ (checkVpnConnections env st facts now).2) := by
  have hnt : s.status.isNonTerminal = true := by
    simp [hcon, VPNSessionStatus.isNonTerminal, nonTerminalStatuses]
  obtain ⟨stMid, hmid, hfind, heffs⟩ :=
    checkVpnConnections_at env facts now hnd hf hnt
  have hspec := processSession_timeout_spec env hmid hact hcon hrc hct htm
  constructor
  · exact ⟨_, hfind.trans hspec.1, rfl⟩
  · intro r hr
    apply heffs
    rw [hspec.2, hr]
    simp

/-- C2 witness: the amended theorem applied to a concrete store — a
`CONNECTED` grant with a bound rule, confirmation required, connected 301s
ago, identity still reported active: it ends `DISCONNECTED` and a disable
is issued for its rule. -/
theorem C2_confirmation_timeout_witness :
    (let env : Env :=
      { globalRequireConfirmation := true, userSettings := fun _ => none,
        findRuleByComment := fun _ => none }
     let s : VPNSession :=
      { id := 1, user_id := 1, mikrotik_username := "u",
        status := VPNSessionStatus.CONNECTED, connected_at := some (-301),
        firewall_rule_id := some "*2" }
     let facts : List ObservedFact :=
      [{ source := some "user_manager_session", active := some true,
         user := some "u" }]
     (∃ s', ((checkVpnConnections env [s] facts 0).1).find? 1 = some s'
        ∧ s'.status = VPNSessionStatus.DISCONNECTED)
       ∧ Effect.disableRule "*2" ∈ (checkVpnConnections env [s] facts 0).2) :=
  ⟨(C2_confirmation_timeout
      { globalRequireConfirmation := true, userSettings := fun _ => none,
        findRuleByComment := fun _ => none }
      [{ source := some "user_manager_session", active := some true,
         user := some "u" }]
      0
      [{ id := 1, user_id := 1, mikrotik_username := "u",
         status := VPNSessionStatus.CONNECTED, connected_at := some (-301),
         firewall_rule_id := some "*2" }]
      1
      { id := 1, user_id := 1, mikrotik_username := "u",
        status := VPNSessionStatus.CONNECTED, connected_at := some (-301),
        firewall_rule_id := some "*2" }
      (-301)
      (by decide) (by decide) (by decide) (by decide) (by decide) (by decide)
      (by decide)).1,
   (C2_confirmation_timeout
      { globalRequireConfirmation := true, userSettings := fun _ => none,
        findRuleByComment := fun _ => none }
      [{ source := some "user_manager_session", active := some true,
         user := some "u" }]
      0
      [{ id := 1, user_id := 1, mikrotik_username := "u",
         status := VPNSessionStatus.CONNECTED, connected_at := some (-301),
         firewall_rule_id := some "*2" }]
      1
      { id := 1, user_id := 1, mikrotik_username := "u",
        status := VPNSessionStatus.CONNECTED, connected_at := some (-301),
        firewall_rule_id := some "*2" }
      (-301)
      (by decide) (by decide) (by decide) (by decide) (by decide) (by decide)
      (by decide)).2 "*2" rfl⟩

/-! ## Idempotence of the connection check (claim C8) -/

/-- C8 (failing input): the connection check is not idempotent.  Grant 1 is
`CONNECTED` with confirmation required and `connected_at` 400s ago (timeout
300s); the device still reports its identity "u" active.  The first run
disconnects it (disable side effects + notification).  The second run, fed
the identical observed-facts set, resurrects the now-`DISCONNECTED` grant
(anti-flap) and immediately disconnects it again, repeating the
force-terminate/disable side effects and the notification — and it even
changes the persisted state again (the resurrection backfills the observed
device session id).  Grant 2 only keeps the store non-empty so the job does
not return early. -/
theorem C8_failing_input :
    (let env : Env :=
      { globalRequireConfirmation := true, userSettings := fun _ => none,
        findRuleByComment := fun _ => none }
     let s1 : VPNSession :=
      { id := 1, user_id := 1, mikrotik_username := "u",
        status := VPNSessionStatus.CONNECTED, connected_at := some (-400),
        created_at := -400 }
     let s2 : VPNSession :=
      { id := 2, user_id := 2, mikrotik_username := "w",
        status := VPNSessionStatus.ACTIVE, last_seen_at := some (-1),
        created_at := -500 }
     let facts : List ObservedFact :=
      [{ source := some "ppp_active", active := some true,
         user := some "u", dotId := some "*7" }]
     let r1 := checkVpnConnections env [s1, s2] facts 0
     let r2 := checkVpnConnections env r1.1 facts 0
     ((r1.1.find? 1).map (fun s => s.status) = some VPNSessionStatus.DISCONNECTED
       ∧ Effect.disableUser "u" ∈ r1.2)
       ∧ (Effect.disableUser "u" ∈ r2.2
       ∧ Effect.terminateSessions "u" ∈ r2.2
       ∧ Effect.notifyDisconnected 1 ∈ r2.2
       ∧ r2.1 ≠ r1.1)) := by
  decide

/-! ## Activity classification fallback (claim C10) -/

/-- C10: when no returned record carries a recognized source tag
(`user_manager_session` / `ppp_active`) with an explicit `active=True`, the
connection check falls back to treating every returned record that names a
user as evidence of an active connection; the explicit-flag filtering
applies only when at least one explicitly-active record exists, in which
case exactly the named explicitly-active records survive. -/
theorem C10_activity_fallback (facts : List ObservedFact) :
    ((∀ s ∈ facts, ¬ s.isExplicitActive = true) →
      activePairs facts
        = facts.filterMap (fun s => s.userOf.map (fun u => (u, s.sidOf)))
      ∧ activeUsernames facts = facts.filterMap (fun s => s.userOf))
    ∧ ((∃ s ∈ facts, s.isExplicitActive = true) →
      activePairs facts
        = (facts.filter (fun s => s.isExplicitActive)).filterMap
            (fun s => s.userOf.map (fun u => (u, s.sidOf)))) := by
  constructor
  · intro hnone
    have hcand : facts.filter (fun s => s.isExplicitActive) = [] := by
      rw [List.filter_eq_nil_iff]
      intro a ha
      simpa using hnone a ha
    have hpairs : activePairs facts
        = facts.filterMap (fun s => s.userOf.map (fun u => (u, s.sidOf))) := by
      simp only [activePairs, hcand]
      rw [if_neg (by simp)]
      refine List.filterMap_congr ?_
      intro s hs
      rw [if_neg (by simp)]
      cases s.userOf <;> simp
    refine ⟨hpairs, ?_⟩
    unfold activeUsernames
    rw [hpairs, List.map_filterMap]
    refine List.filterMap_congr ?_
    intro s hs
    cases s.userOf <;> simp
  · intro hsome
    have hcand : facts.filter (fun s => s.isExplicitActive) ≠ [] := by
      obtain ⟨s, hs, hact⟩ := hsome
      intro hnil
      have : s ∈ facts.filter (fun s => s.isExplicitActive) :=
        List.mem_filter.mpr ⟨hs, hact⟩
      rw [hnil] at this
      cases this
    simp only [activePairs]
    rw [if_pos hcand]
    refine List.filterMap_congr ?_
    intro s hs
    have hact : s.isExplicitActive = true := (List.mem_filter.mp hs).2
    have htrue : s.isActiveTrue = true := by
      unfold ObservedFact.isExplicitActive at hact
      simp only [decide_eq_true_eq] at hact
      exact hact.2
    rw [if_neg (by simp [htrue])]
    cases s.userOf <;> simp

/-- C10 witness: a facts set with no explicitly-active record (a bare PPP
secret listing with no `active` field): every record naming a user is
classified active. -/
theorem C10_activity_fallback_witness :
    (let facts : List ObservedFact :=
      [{ source := some "ppp_secret", user := some "alice", dotId := some "*1" },
       { source := none, name := some "bob" },
       { source := some "ppp_active", active := some false, user := some "carol" }]
     (∀ s ∈ facts, ¬ s.isExplicitActive = true)
       ∧ activeUsernames facts = ["alice", "bob", "carol"]) := by
  refine ⟨by decide, ?_⟩
  rw [((C10_activity_fallback
      [{ source := some "ppp_secret", user := some "alice", dotId := some "*1" },
       { source := none, name := some "bob" },
       { source := some "ppp_active", active := some false, user := some "carol" }]).1
      (by decide)).2]
  decide

/-! ## Claim C9: the shell-output parser round-trip -/

/-- C9: for every well-formed shell-dialect record block — a record
introduced by a nonempty numeric index carrying the disabled (`X`) flag,
with a free-text comment given either inline after `;;;` or on a comment
line immediately preceding, `key=value` pairs on the index line and more
pairs continued on a following indented line — `_parse_firewall_output`
produces exactly one record: its `number` field is the parsed index, its
`comment` field equals the comment text, its fields list every declared
`key=value` pair in order (double-quoted values unquoted), and its
`disabled` field is the strict boolean `true`. -/
theorem C9_parser_roundtrip (b : ShellRecordBlock) (hb : wfBlock b = true) :
    parseFirewallOutput (renderBlock b) = [expectedRecord b] := by
  obtain ⟨hidx, hdig, hwf, -, -, hcne, hcch, -, -, -⟩ := wfBlock_parts hb
  have hwf2 : b.kvs2.all wfPair = true :=
    List.all_eq_true.2 fun x hx =>
      (List.all_eq_true.1 hwf) x (List.mem_append_right _ hx)
  have hL2chars : ∀ c ∈ renderLine2 b, c ≠ '\n' ∧ c ≠ '\r' := by
    intro c hc
    rw [renderLine2] at hc
    rcases List.mem_cons.1 hc with h1 | h1
    · subst h1; exact ⟨by decide, by decide⟩
    rcases List.mem_cons.1 h1 with h2 | h2
    · subst h2; exact ⟨by decide, by decide⟩
    rcases List.mem_cons.1 h2 with h3 | h3
    · subst h3; exact ⟨by decide, by decide⟩
    rcases List.mem_cons.1 h3 with h4 | h4
    · subst h4; exact ⟨by decide, by decide⟩
    · exact ⟨(renderPairs_chars hwf2 c h4).1, (renderPairs_chars hwf2 c h4).2.1⟩
  have hL2 : splitLinesAux (renderLine2 b) [] = [renderLine2 b] := by
    rw [splitLinesAux_no_term hL2chars []]
    rw [List.reverse_nil, List.nil_append]
    rw [renderLine2]
    rfl
  have hL2eq : renderLine2 b = ' ' :: ' ' :: ' ' :: ' ' :: renderPairs b.kvs2 := rfl
  cases hin : b.inlineComment with
  | false =>
    have hL0chars : ∀ c ∈ ';' :: ';' :: ';' :: ' ' :: b.comment,
        c ≠ '\n' ∧ c ≠ '\r' := by
      intro c hc
      rcases List.mem_cons.1 hc with h1 | h1
      · subst h1; exact ⟨by decide, by decide⟩
      rcases List.mem_cons.1 h1 with h2 | h2
      · subst h2; exact ⟨by decide, by decide⟩
      rcases List.mem_cons.1 h2 with h3 | h3
      · subst h3; exact ⟨by decide, by decide⟩
      rcases List.mem_cons.1 h3 with h4 | h4
      · subst h4; exact ⟨by decide, by decide⟩
      · exact ⟨(hcch c h4).1, (hcch c h4).2.1⟩
    have hline1 : renderLine1 b
        = b.idxDigits ++ ' ' :: 'X'
          :: (if b.kvs1.isEmpty then [] else ' ' :: renderPairs b.kvs1) := by
      rw [renderLine1, hin]
      simp
    have hL1chars : ∀ c ∈ renderLine1 b, c ≠ '\n' ∧ c ≠ '\r' := by
      intro c hc
      rw [hline1] at hc
      exact ⟨(coreLine_chars hb c hc).1, (coreLine_chars hb c hc).2.1⟩
    have hblock : renderBlock b
        = (';' :: ';' :: ';' :: ' ' :: b.comment) ++ '\n'
          :: (renderLine1 b ++ '\n' :: renderLine2 b) := by
      rw [renderBlock, hin]
      simp
    have hlines : splitLinesChars (renderBlock b)
        = [';' :: ';' :: ';' :: ' ' :: b.comment, renderLine1 b,
           renderLine2 b] := by
      rw [splitLinesChars, hblock]
      rw [splitLinesAux_newline hL0chars []]
      rw [splitLinesAux_newline hL1chars []]
      rw [hL2]
      simp
    apply parseFirewallOutput_finish hb
    rw [hlines]
    rw [List.foldl_cons, List.foldl_cons, List.foldl_cons, List.foldl_nil]
    rw [firewallStep_commentLine hb]
    show firewallStep (firewallStep
      { pending := some b.comment, current := none, flags := [], rules := [] }
      (renderLine1 b)) (renderLine2 b) = _
    rw [hline1, firewallStep_coreLine hb]
    rw [hL2eq, firewallStep_contLine hb]
  | true =>
    have hline1 : renderLine1 b
        = (b.idxDigits ++ ' ' :: 'X'
            :: ((if b.kvs1.isEmpty then [] else ' ' :: renderPairs b.kvs1)
              ++ [' ']))
          ++ ';' :: ';' :: ';' :: (' ' :: b.comment) := by
      rw [renderLine1, hin]
      simp
    have hL1chars : ∀ c ∈ renderLine1 b, c ≠ '\n' ∧ c ≠ '\r' := by
      intro c hc
      rw [hline1] at hc
      rcases List.mem_append.1 hc with h1 | h1
      · rcases List.mem_append.1 h1 with h2 | h2
        · exact ⟨(coreLine_chars hb c (List.mem_append_left _ h2)).1,
            (coreLine_chars hb c (List.mem_append_left _ h2)).2.1⟩
        rcases List.mem_cons.1 h2 with h3 | h3
        · subst h3; exact ⟨by decide, by decide⟩
        rcases List.mem_cons.1 h3 with h4 | h4
        · subst h4; exact ⟨by decide, by decide⟩
        rcases List.mem_append.1 h4 with h5 | h5
        · exact ⟨(coreLine_chars hb c (List.mem_append_right _
              (List.mem_cons_of_mem ' ' (List.mem_cons_of_mem 'X' h5)))).1,
            (coreLine_chars hb c (List.mem_append_right _
              (List.mem_cons_of_mem ' ' (List.mem_cons_of_mem 'X' h5)))).2.1⟩
        · rcases List.mem_singleton.1 h5 with rfl
          exact ⟨by decide, by decide⟩
      rcases List.mem_cons.1 h1 with h2 | h2
      · subst h2; exact ⟨by decide, by decide⟩
      rcases List.mem_cons.1 h2 with h3 | h3
      · subst h3; exact ⟨by decide, by decide⟩
      rcases List.mem_cons.1 h3 with h4 | h4
      · subst h4; exact ⟨by decide, by decide⟩
      rcases List.mem_cons.1 h4 with h5 | h5
      · subst h5; exact ⟨by decide, by decide⟩
      · exact ⟨(hcch c h5).1, (hcch c h5).2.1⟩
    have hblock : renderBlock b = renderLine1 b ++ '\n' :: renderLine2 b := by
      rw [renderBlock, hin]
      simp
    have hlines : splitLinesChars (renderBlock b)
        = [renderLine1 b, renderLine2 b] := by
      rw [splitLinesChars, hblock]
      rw [splitLinesAux_newline hL1chars []]
      rw [hL2]
      simp
    apply parseFirewallOutput_finish hb
    rw [hlines]
    rw [List.foldl_cons, List.foldl_cons, List.foldl_nil]
    rw [firewallStep_indexInline hb hin]
    rw [hL2eq, firewallStep_contLine hb]

/-- C9 witness: a concrete two-line record block (index `0`, disabled flag,
an unquoted pair on the index line, a quoted pair on the indented
continuation line, and an inline `;;;` comment) parses to exactly its
expected record. -/
theorem C9_parser_roundtrip_witness :
    (let bEx : ShellRecordBlock :=
      { idxDigits := ['0'],
        kvs1 := [{ key := "chain".toList, val := "forward".toList, quoted := false }],
        kvs2 := [{ key := "src-address".toList, val := "10.0.0.1 x".toList, quoted := true }],
        comment := "vpn user".toList, inlineComment := true }
     wfBlock bEx = true
       ∧ parseFirewallOutput (renderBlock bEx) = [expectedRecord bEx]) := by
  refine ⟨by decide, ?_⟩
  exact C9_parser_roundtrip _ (by decide)

end Mikrotik2FA

